import Mathlib

/-!
# Socks5BalancerAsio: upstream pool, health checker, delay history, statistics

A shallow embedding of `src/UpstreamPool.cpp` (server eligibility, the four
selection rules, `setConfig`, the probe cycles, their callbacks and timer
handlers), of `src/DelayCollection.h` (`TimeHistory`), of
`src/TcpRelayStatisticsInfo.cpp` (byte accounting, pruning, `updateSessionInfo`),
of `src/ConnectTestHttps.h` (`createTest` and the SOCKS5 steps of the end-to-end
probe) and of `src/ProxyHandshakeAuth.h` (completion of the handshake), together
with the properties proved about them.

Conventions of the embedding:

* `size_t` values are natural numbers; `++x` on a `size_t` is `(x + 1) % 2 ^ 64`
  and `a - b` is taken modulo `2 ^ 64`.
* A `std::shared_ptr<UpstreamServer>` is an `Option UpstreamServer`; the null
  pointer is `none`.
* `std::chrono` time points and durations are integers (clock ticks).
* The `while (true)` loops take a fuel argument bounding the number of
  iterations; the result `none` means that the loop has not returned within
  the fuel.
* Clock readings and the draw of the random generator are inputs of the
  operation that performs them.
* An operation of the health checker returns a record of what it did: the
  probes started and the end-to-end sessions constructed, in order, and whether
  it reached undefined behaviour (a null pointer dereferenced, a destroyed
  object read); the record stops at that point. Elsewhere an operation whose
  behaviour is undefined returns `none`.
* A `std::map` is the list of its entries; a weak pointer to a session is the
  identity of the session, and a predicate tells which sessions are alive.
-/

namespace Socks5Balancer

/-- Time point of `std::chrono::system_clock`, in clock ticks. -/
abbrev UpstreamTimePoint := Int

/-- Duration of the configuration (`ConfigTimeDuration`), in clock ticks. -/
abbrev ConfigTimeDuration := Int

/-- Modelled from the spec: the selection rule enumeration `RuleEnum` is declared in the
absent header `ConfigLoader.h`; the spec lists its four variants. -/
inductive RuleEnum where
  | loop
  | one_by_one
  | change_by_time
  | random
  deriving DecidableEq, Repr

/-- Modelled from the spec: one entry of `config.upstream` (declared in the absent
`ConfigLoader.h`); `setConfig` reads `name`, `host`, `port` and `disable`. -/
structure Upstream where
  name : String
  host : String
  port : Nat
  disable : Bool
  deriving DecidableEq, Repr

/-- Modelled from the spec: the configuration value behind `_configLoader->config` (declared in
the absent `ConfigLoader.h`), with the fields `UpstreamPool.cpp` reads. -/
structure Config where
  upstream : List Upstream
  upstreamSelectRule : RuleEnum
  serverChangeTime : ConfigTimeDuration
  tcpCheckStart : ConfigTimeDuration
  tcpCheckPeriod : ConfigTimeDuration
  connectCheckStart : ConfigTimeDuration
  connectCheckPeriod : ConfigTimeDuration
  additionCheckPeriod : ConfigTimeDuration
  sleepTime : ConfigTimeDuration
  testRemoteHost : String
  testRemotePort : Nat
  deriving DecidableEq, Repr

/-- Modelled from the spec: the record `UpstreamServer` is declared in the absent header
`UpstreamPool.h`; these are the fields `UpstreamPool.cpp` reads and writes. -/
structure UpstreamServer where
  index : Nat
  name : String
  host : String
  port : Nat
  disable : Bool
  isOffline : Bool
  lastConnectFailed : Bool
  lastOnlineTime : Option UpstreamTimePoint
  lastConnectTime : Option UpstreamTimePoint
  lastConnectCheckResult : String
  isManualDisable : Bool
  connectCount : Nat
  deriving DecidableEq, Repr

/-- The type `UpstreamServerRef` is `std::shared_ptr<UpstreamServer>`; `none` is the null pointer. -/
abbrev UpstreamServerRef := Option UpstreamServer

/-- Time point of `std::chrono::steady_clock` (the clock of the `boost::asio::steady_timer`s),
in clock ticks. -/
abbrev SteadyTimePoint := Int

/-- The members of `UpstreamPool` that selection, `setConfig` and the health checker read or
write. A timer member is the expiry of the timer it points to, `none` for a null pointer;
`forceCheckerTimer` is a weak pointer, `true` while the timer it refers to is alive. -/
structure UpstreamPool where
  _pool : List UpstreamServerRef
  lastUseUpstreamIndex : Nat
  _configLoader : Config
  lastChangeUpstreamTime : UpstreamTimePoint
  lastConnectComeTime : UpstreamTimePoint
  isAdditionTimerRunning : Bool := false
  additionTimer : Option SteadyTimePoint := none
  tcpCheckerTimer : Option SteadyTimePoint := none
  connectCheckerTimer : Option SteadyTimePoint := none
  forceCheckerTimer : Bool := false
  deriving DecidableEq, Repr

/-- Increment `++x` of a `size_t`. -/
def sizeIncr (x : Nat) : Nat := (x + 1) % 2 ^ 64

/-- The element `_pool[i]`; an index outside the pool, which the selection loops never use, reads as null. -/
def poolAt (pool : List UpstreamServerRef) (i : Nat) : UpstreamServerRef :=
  pool.getD i none

namespace UpstreamPool

/-- Method `UpstreamPool::checkServer`. -/
def checkServer (u : UpstreamServerRef) : Bool :=
  match u with
  | none => false
  | some s =>
    s.lastConnectTime.isSome
      && s.lastOnlineTime.isSome
      && !s.lastConnectFailed
      && !s.isOffline
      && !s.isManualDisable

/-- The `while (true)` loop of `UpstreamPool::getNextServer`: `start` is the saved
`_lastUseUpstreamIndex`, the last argument the current `lastUseUpstreamIndex`.
Returns the returned reference and the value left in `lastUseUpstreamIndex`. -/
def getNextServerLoop (pool : List UpstreamServerRef) (start : Nat) :
    Nat → Nat → Option (UpstreamServerRef × Nat)
  | 0, _ => none
  | fuel + 1, cur =>
    let cur1 := sizeIncr cur
    let cur2 := if cur1 ≥ pool.length then 0 else cur1
    if checkServer (poolAt pool cur2) then
      some (poolAt pool cur2, cur2)
    else if start = cur2 then
      some (none, cur2)
    else
      getNextServerLoop pool start fuel cur2

/-- Method `UpstreamPool::getNextServer`. -/
def getNextServer (fuel : Nat) (p : UpstreamPool) : Option (UpstreamServerRef × UpstreamPool) :=
  if p._pool.isEmpty then
    some (none, p)
  else
    (getNextServerLoop p._pool p.lastUseUpstreamIndex fuel p.lastUseUpstreamIndex).map
      fun r => (r.1, { p with lastUseUpstreamIndex := r.2 })

/-- The `while (true)` loop of `UpstreamPool::tryGetLastServer`. -/
def tryGetLastServerLoop (pool : List UpstreamServerRef) (start : Nat) :
    Nat → Nat → Option (UpstreamServerRef × Nat)
  | 0, _ => none
  | fuel + 1, cur =>
    let cur1 := if cur ≥ pool.length then 0 else cur
    if checkServer (poolAt pool cur1) then
      some (poolAt pool cur1, cur1)
    else
      let cur2 := sizeIncr cur1
      let cur3 := if cur2 ≥ pool.length then 0 else cur2
      if start = cur3 then
        some (none, cur3)
      else
        tryGetLastServerLoop pool start fuel cur3

/-- Method `UpstreamPool::tryGetLastServer`. -/
def tryGetLastServer (fuel : Nat) (p : UpstreamPool) : Option (UpstreamServerRef × UpstreamPool) :=
  if p._pool.isEmpty then
    some (none, p)
  else
    (tryGetLastServerLoop p._pool p.lastUseUpstreamIndex fuel p.lastUseUpstreamIndex).map
      fun r => (r.1, { p with lastUseUpstreamIndex := r.2 })

/-- Method `UpstreamPool::filterValidServer`. -/
def filterValidServer (p : UpstreamPool) : List UpstreamServerRef :=
  p._pool.filter checkServer

/-- The distribution `std::uniform_int_distribution<size_t>(a, b)` applied to a generator whose output is `g`:
a value of the closed range from `a` to `b`; every value of the range is the image of some `g`. -/
def uniformIntDistribution (a b g : Nat) : Nat := a + g % (b - a + 1)

/-- Method `UpstreamPool::getServerBasedOnAddress`. `now` is the clock reading `t` of the
`change_by_time` branch, `now2` the second reading stored into `lastChangeUpstreamTime`,
`g` the output of `randomGenerator`. -/
def getServerBasedOnAddress (fuel : Nat) (now now2 : UpstreamTimePoint) (g : Nat)
    (p : UpstreamPool) : Option (UpstreamServerRef × UpstreamPool) :=
  match p._configLoader.upstreamSelectRule with
  | RuleEnum.loop => getNextServer fuel p
  | RuleEnum.one_by_one => tryGetLastServer fuel p
  | RuleEnum.change_by_time =>
    if now - p.lastChangeUpstreamTime > p._configLoader.serverChangeTime then
      (getNextServer fuel p).map fun r => (r.1, { r.2 with lastChangeUpstreamTime := now2 })
    else
      tryGetLastServer fuel p
  | RuleEnum.random =>
    let rs := filterValidServer p
    if !rs.isEmpty then
      let i := uniformIntDistribution 0 (rs.length - 1) g
      some (rs.getD i none, p)
    else
      some (none, p)

/-- The `for` loop of `UpstreamPool::setConfig`: entry `i` of the configuration becomes the
server built by the constructor `mk` from `(i, name, host, port, disable)`. -/
def buildPool (mk : Nat → String → String → Nat → Bool → UpstreamServer) :
    Nat → List Upstream → List UpstreamServerRef
  | _, [] => []
  | i, r :: rest => some (mk i r.name r.host r.port r.disable) :: buildPool mk (i + 1) rest

/-- Method `UpstreamPool::setConfig`. The constructor of `UpstreamServer` lives in the absent header
and is the parameter `mk`. -/
def setConfig (mk : Nat → String → String → Nat → Bool → UpstreamServer) (c : Config)
    (p : UpstreamPool) : UpstreamPool :=
  { p with _configLoader := c, _pool := buildPool mk 0 c.upstream }

/-- Method `UpstreamPool::forceSetLastUseUpstreamIndex`. -/
def forceSetLastUseUpstreamIndex (i : Nat) (p : UpstreamPool) : UpstreamPool :=
  if i ≥ 0 ∧ i < p._pool.length then { p with lastUseUpstreamIndex := i } else p

/-- Consecutive calls of `getServerBasedOnAddress` with the servers' health unchanged in
between: for each call, in call order, the reference returned and the cursor
`lastUseUpstreamIndex` left by the call; and the final pool state. -/
def selectCalls (fuel : Nat) (now now2 : UpstreamTimePoint) (g : Nat) :
    Nat → UpstreamPool → Option (List (UpstreamServerRef × Nat) × UpstreamPool)
  | 0, p => some ([], p)
  | k + 1, p =>
    match getServerBasedOnAddress fuel now now2 g p with
    | none => none
    | some (s, p1) =>
      match selectCalls fuel now now2 g k p1 with
      | none => none
      | some (ss, p2) => some ((s, p1.lastUseUpstreamIndex) :: ss, p2)

end UpstreamPool

/-! ## Concrete servers and pools used to evaluate the definitions -/

/-- A server that passes `checkServer`. -/
def srvUp (i : Nat) : UpstreamServer :=
  { index := i, name := "u", host := "127.0.0.1", port := 11080 + i, disable := false,
    isOffline := false, lastConnectFailed := false, lastOnlineTime := some 1,
    lastConnectTime := some 1, lastConnectCheckResult := "status_code:200",
    isManualDisable := false, connectCount := 0 }

/-- A server that fails `checkServer` (its TCP probe failed). -/
def srvDown (i : Nat) : UpstreamServer :=
  { srvUp i with isOffline := true }

/-- A configuration with the given rule. -/
def cfgOf (rule : RuleEnum) : Config :=
  { upstream := [], upstreamSelectRule := rule, serverChangeTime := 60,
    tcpCheckStart := 1, tcpCheckPeriod := 5, connectCheckStart := 1, connectCheckPeriod := 300,
    additionCheckPeriod := 10, sleepTime := 1800, testRemoteHost := "example.com",
    testRemotePort := 443 }

/-- A pool state with the given rule, servers and cursor. -/
def poolOf (rule : RuleEnum) (servers : List UpstreamServerRef) (cursor : Nat) : UpstreamPool :=
  { _pool := servers, lastUseUpstreamIndex := cursor, _configLoader := cfgOf rule,
    lastChangeUpstreamTime := 0, lastConnectComeTime := 0 }

/-- A stand-in for the constructor of `UpstreamServer` (absent header), used only to evaluate
`setConfig`; the statements about `setConfig` hold for every constructor. -/
def sampleConstructor (index : Nat) (name host : String) (port : Nat) (disable : Bool) :
    UpstreamServer :=
  { index := index, name := name, host := host, port := port, disable := disable,
    isOffline := true, lastConnectFailed := true, lastOnlineTime := none,
    lastConnectTime := none, lastConnectCheckResult := "", isManualDisable := disable,
    connectCount := 0 }

/-- A configuration with one upstream. -/
def cfgOne : Config :=
  { cfgOf RuleEnum.loop with
    upstream := [{ name := "a", host := "127.0.0.1", port := 11080, disable := false }] }

/-! ## Health checker: probes started and their callbacks -/

/-- A TCP test created by `tcpTest->createTest(host, port)` and run with callbacks that capture
the server `a`; `server` is the pool position of `a`. The class `TcpTest` is declared in the
absent header `TcpTest.h`; its `createTest` is taken to return the test it creates. -/
structure TcpTestStart where
  server : Nat
  host : String
  port : String
  deriving DecidableEq, Repr

/-- The members of a `ConnectTestHttpsSession` that its constructor receives from
`ConnectTestHttps::createTest`. -/
structure ConnectTestHttpsSession where
  targetHost : String
  targetPort : Nat
  targetPath : String
  httpVersion : Nat
  socks5Host : String
  socks5Port : String
  deriving DecidableEq, Repr

/-- An end-to-end test run (`t->run(...)`) with callbacks that capture the server `a`;
`server` is the pool position of `a`, `session` the session `t` points to. -/
structure ConnectTestStart where
  server : Nat
  session : ConnectTestHttpsSession
  deriving DecidableEq, Repr

/-- A probe started by an operation of the pool. -/
inductive ProbeStart where
  | tcp (t : TcpTestStart)
  | connect (t : ConnectTestStart)
  deriving DecidableEq, Repr

/-- The pool position of the server a probe was started for. -/
def ProbeStart.server : ProbeStart → Nat
  | ProbeStart.tcp t => t.server
  | ProbeStart.connect t => t.server

/-- What a step of the health checker did up to its return, or up to the point where its
behaviour becomes undefined: the probes started (`run` called), in order; the sessions
constructed by `ConnectTestHttps::createTest`, in order; and whether undefined behaviour was
reached (a null pointer or a destroyed object was used). Nothing is said about what happens
after that point. -/
structure CheckRun where
  probes : List ProbeStart
  created : List ConnectTestHttpsSession
  undefined : Bool
  deriving DecidableEq, Repr

namespace CheckRun

/-- A step that does nothing and returns. -/
def nothing : CheckRun :=
  { probes := [], created := [], undefined := false }

/-- A step whose behaviour is undefined from its start. -/
def undefinedBehaviour : CheckRun :=
  { probes := [], created := [], undefined := true }

/-- The step that starts one probe and returns. -/
def start (pr : ProbeStart) : CheckRun :=
  { probes := [pr], created := [], undefined := false }

/-- Sequencing of two statements: `b` runs after `a` unless `a` reached undefined behaviour. -/
def andThen (a b : CheckRun) : CheckRun :=
  if a.undefined then
    a
  else
    { probes := a.probes ++ b.probes, created := a.created ++ b.created,
      undefined := b.undefined }

end CheckRun

namespace ConnectTestHttps

/-- Method `ConnectTestHttps::createTest` (`ConnectTestHttps.h`). It constructs the session
`s` from its arguments with `std::make_shared`, registers it in `sessions` and executes
`return std::move(s);` with the return type `std::shared_ptr<ConnectTestHttpsSession> &&`:
the reference returned is to the local `s`, which is destroyed when the method returns.
First component: the session constructed. Second component: the pointer a caller obtains
from `auto t = createTest(...)`; that initialisation reads the destroyed object, which is
undefined, hence `none`. -/
def createTest (socks5Host socks5Port targetHost : String) (targetPort : Nat)
    (targetPath : String) (httpVersion : Nat) :
    ConnectTestHttpsSession × Option ConnectTestHttpsSession :=
  let s : ConnectTestHttpsSession :=
    { targetHost := targetHost, targetPort := targetPort, targetPath := targetPath,
      httpVersion := httpVersion, socks5Host := socks5Host, socks5Port := socks5Port }
  (s, none)

end ConnectTestHttps

namespace UpstreamPool

/-- The success callback of the TCP test in `do_tcpCheckerTimer_impl`, applied to the captured
server `a`; `now` is the clock reading `UpstreamTimePointNow()`. -/
def do_tcpCheckerTimer_impl_onOk (now : UpstreamTimePoint) (a : UpstreamServer) :
    UpstreamServer :=
  let a1 := if a.isOffline then { a with lastConnectFailed := false } else a
  let a2 := { a1 with lastOnlineTime := some now }
  { a2 with isOffline := false }

/-- The failure callback of the TCP test in `do_tcpCheckerTimer_impl`; `reason` is ignored. -/
def do_tcpCheckerTimer_impl_onErr (_reason : String) (a : UpstreamServer) : UpstreamServer :=
  { a with isOffline := true }

/-- The success callback of the TCP test in `do_tcpCheckerOne_impl`. -/
def do_tcpCheckerOne_impl_onOk (now : UpstreamTimePoint) (a : UpstreamServer) :
    UpstreamServer :=
  let a1 := if a.isOffline then { a with lastConnectFailed := false } else a
  let a2 := { a1 with lastOnlineTime := some now }
  { a2 with isOffline := false }

/-- The failure callback of the TCP test in `do_tcpCheckerOne_impl`; `reason` is ignored. -/
def do_tcpCheckerOne_impl_onErr (_reason : String) (a : UpstreamServer) : UpstreamServer :=
  { a with isOffline := true }

/-- The success callback of the end-to-end test in `do_connectCheckerTimer_impl`; `result` is
the value of `static_cast<int>(info.base().result())`, the HTTP status of the response, and
the string stream writes it in decimal. -/
def do_connectCheckerTimer_impl_onOk (now : UpstreamTimePoint) (result : Nat)
    (a : UpstreamServer) : UpstreamServer :=
  let a1 := { a with lastConnectTime := some now }
  let a2 := { a1 with lastConnectFailed := false }
  { a2 with lastConnectCheckResult := "status_code:" ++ toString result }

/-- The failure callback of the end-to-end test in `do_connectCheckerTimer_impl`. -/
def do_connectCheckerTimer_impl_onErr (_reason : String) (a : UpstreamServer) :
    UpstreamServer :=
  { a with lastConnectFailed := true }

/-- The success callback of the end-to-end test in `do_connectCheckerOne_impl`. -/
def do_connectCheckerOne_impl_onOk (now : UpstreamTimePoint) (result : Nat)
    (a : UpstreamServer) : UpstreamServer :=
  let a1 := { a with lastConnectTime := some now }
  let a2 := { a1 with lastConnectFailed := false }
  { a2 with lastConnectCheckResult := "status_code:" ++ toString result }

/-- The failure callback of the end-to-end test in `do_connectCheckerOne_impl`. -/
def do_connectCheckerOne_impl_onErr (_reason : String) (a : UpstreamServer) :
    UpstreamServer :=
  { a with lastConnectFailed := true }

/-- The `for` loop of `do_tcpCheckerTimer_impl` over the pool entries from position `i` on.
Dereferencing a null entry (`a->isManualDisable`) is undefined. -/
def do_tcpCheckerTimer_implFrom : Nat → List UpstreamServerRef → CheckRun
  | _, [] => CheckRun.nothing
  | _, none :: _ => CheckRun.undefinedBehaviour
  | i, some a :: rest =>
    if !a.isManualDisable then
      (CheckRun.start
        (ProbeStart.tcp { server := i, host := a.host, port := toString a.port })).andThen
        (do_tcpCheckerTimer_implFrom (i + 1) rest)
    else
      do_tcpCheckerTimer_implFrom (i + 1) rest

/-- Method `UpstreamPool::do_tcpCheckerTimer_impl`. -/
def do_tcpCheckerTimer_impl (p : UpstreamPool) : CheckRun :=
  do_tcpCheckerTimer_implFrom 0 p._pool

/-- Method `UpstreamPool::do_tcpCheckerOne_impl` for the server `a` at pool position `i`. -/
def do_tcpCheckerOne_impl (i : Nat) (a : UpstreamServerRef) : CheckRun :=
  match a with
  | none => CheckRun.undefinedBehaviour
  | some a =>
    CheckRun.start (ProbeStart.tcp { server := i, host := a.host, port := toString a.port })

/-- The `for` loop of `do_connectCheckerTimer_impl` over the pool entries from position `i`
on. The path argument is the raw string literal of the source, a single backslash, and
`httpVersion` takes its default `11`. The session is constructed inside `createTest`; `t` is
then initialised from the reference `createTest` returns, and `t->run(...)` and the rest of
the loop are reached only if that is defined. -/
def do_connectCheckerTimer_implFrom (c : Config) : Nat → List UpstreamServerRef → CheckRun
  | _, [] => CheckRun.nothing
  | _, none :: _ => CheckRun.undefinedBehaviour
  | i, some a :: rest =>
    if !a.isManualDisable then
      let t := ConnectTestHttps.createTest a.host (toString a.port) c.testRemoteHost
        c.testRemotePort "\\" 11
      match t.2 with
      | none => { probes := [], created := [t.1], undefined := true }
      | some s =>
        CheckRun.andThen
          { probes := [ProbeStart.connect { server := i, session := s }], created := [t.1],
            undefined := false }
          (do_connectCheckerTimer_implFrom c (i + 1) rest)
    else
      do_connectCheckerTimer_implFrom c (i + 1) rest

/-- Method `UpstreamPool::do_connectCheckerTimer_impl`. -/
def do_connectCheckerTimer_impl (p : UpstreamPool) : CheckRun :=
  do_connectCheckerTimer_implFrom p._configLoader 0 p._pool

/-- Method `UpstreamPool::do_connectCheckerOne_impl` for the server `a` at pool position
`i`. -/
def do_connectCheckerOne_impl (c : Config) (i : Nat) (a : UpstreamServerRef) : CheckRun :=
  match a with
  | none => CheckRun.undefinedBehaviour
  | some a =>
    let t := ConnectTestHttps.createTest a.host (toString a.port) c.testRemoteHost
      c.testRemotePort "\\" 11
    match t.2 with
    | none => { probes := [], created := [t.1], undefined := true }
    | some s =>
      { probes := [ProbeStart.connect { server := i, session := s }], created := [t.1],
        undefined := false }

/-- Method `UpstreamPool::forceCheckOne`: what the handler it posts does. -/
def forceCheckOne (index : Nat) (p : UpstreamPool) : CheckRun :=
  if index ≥ 0 ∧ index < p._pool.length then
    (do_tcpCheckerOne_impl index (poolAt p._pool index)).andThen
      (do_connectCheckerOne_impl p._configLoader index (poolAt p._pool index))
  else
    CheckRun.nothing

/-- What one call of `do_AdditionTimer_impl` did: the probe cycles it ran, the duration of the
timer `ct` it created (`none` when it created none) and the state it left. -/
structure RescueAttempt where
  run : CheckRun
  ct : Option ConfigTimeDuration
  pool : UpstreamPool
  deriving DecidableEq, Repr

/-- Method `UpstreamPool::do_AdditionTimer_impl`. The `compare_exchange_strong(old, true)`
with `old = false` succeeds exactly when the flag is false, and sets it. -/
def do_AdditionTimer_impl (p : UpstreamPool) : RescueAttempt :=
  if p.isAdditionTimerRunning then
    { run := CheckRun.nothing, ct := none, pool := p }
  else
    let p1 := { p with isAdditionTimerRunning := true }
    { run := (do_tcpCheckerTimer_impl p1).andThen (do_connectCheckerTimer_impl p1),
      ct := some (p1._configLoader.additionCheckPeriod * 3),
      pool := p1 }

/-- The completion handler of the timer `ct` of `do_AdditionTimer_impl`; it ignores its error
code. -/
def do_AdditionTimer_impl_ctDone (p : UpstreamPool) : UpstreamPool :=
  { p with isAdditionTimerRunning := false }

/-- What one run of a timer handler did: the call of `do_AdditionTimer_impl` it made, with what
that call did (`none` when the handler made no such call); the probe cycles run; and the
state it left (the state reached, when the behaviour became undefined). -/
structure TimerFiring where
  additionImpl : Option RescueAttempt
  run : CheckRun
  pool : UpstreamPool
  deriving DecidableEq, Repr

/-- A handler run that called nothing. -/
def TimerFiring.idle (p : UpstreamPool) : TimerFiring :=
  { additionImpl := none, run := CheckRun.nothing, pool := p }

/-- The last two statements of the handler of `do_AdditionTimer`, reached when what precedes
them returned: `additionTimer->expires_at(additionTimer->expiry() + additionCheckPeriod)` and
the new `async_wait`. Re-arming through a null `additionTimer` is undefined. -/
def do_AdditionTimer_c_rearm (f : TimerFiring) : TimerFiring :=
  if f.run.undefined then
    f
  else
    match f.pool.additionTimer with
    | none => { f with run := f.run.andThen CheckRun.undefinedBehaviour }
    | some expiry =>
      { f with
        pool := { f.pool with
          additionTimer := some (expiry + f.pool._configLoader.additionCheckPeriod) } }

/-- The handler `c` of `UpstreamPool::do_AdditionTimer`: `e` tells whether the error code is
set, `now` is the clock reading. -/
def do_AdditionTimer_c (e : Bool) (now : UpstreamTimePoint) (p : UpstreamPool) : TimerFiring :=
  if e then
    TimerFiring.idle p
  else
    let isAllDown := p._pool.all fun a => !checkServer a
    let f : TimerFiring :=
      if isAllDown then
        if now - p.lastConnectComeTime ≤ p._configLoader.sleepTime then
          let r := do_AdditionTimer_impl p
          { additionImpl := some r, run := r.run, pool := r.pool }
        else
          TimerFiring.idle p
      else
        TimerFiring.idle p
    do_AdditionTimer_c_rearm f

/-- The handler `c` of `UpstreamPool::do_tcpCheckerTimer`. -/
def do_tcpCheckerTimer_c (e : Bool) (now : UpstreamTimePoint) (p : UpstreamPool) : TimerFiring :=
  if e then
    TimerFiring.idle p
  else
    let r : CheckRun :=
      if now - p.lastConnectComeTime ≤ p._configLoader.sleepTime then
        do_tcpCheckerTimer_impl p
      else
        CheckRun.nothing
    if r.undefined then
      { additionImpl := none, run := r, pool := p }
    else
      match p.tcpCheckerTimer with
      | none => { additionImpl := none, run := r.andThen CheckRun.undefinedBehaviour, pool := p }
      | some expiry =>
        { additionImpl := none, run := r,
          pool := { p with tcpCheckerTimer := some (expiry + p._configLoader.tcpCheckPeriod) } }

/-- The handler `c` of `UpstreamPool::do_connectCheckerTimer`. The new expiry is computed, as
in the source, from the expiry of `tcpCheckerTimer`. -/
def do_connectCheckerTimer_c (e : Bool) (now : UpstreamTimePoint) (p : UpstreamPool) :
    TimerFiring :=
  if e then
    TimerFiring.idle p
  else
    let r : CheckRun :=
      if now - p.lastConnectComeTime ≤ p._configLoader.sleepTime then
        do_connectCheckerTimer_impl p
      else
        CheckRun.nothing
    if r.undefined then
      { additionImpl := none, run := r, pool := p }
    else
      match p.connectCheckerTimer, p.tcpCheckerTimer with
      | some _, some tcpExpiry =>
        { additionImpl := none, run := r,
          pool := { p with
            connectCheckerTimer := some (tcpExpiry + p._configLoader.connectCheckPeriod) } }
      | _, _ => { additionImpl := none, run := r.andThen CheckRun.undefinedBehaviour, pool := p }

/-- Method `UpstreamPool::forceCheckNow`: nothing while a force-check timer is alive; otherwise
a timer of 500 ms is created and remembered. Returns whether the timer was created. -/
def forceCheckNow (p : UpstreamPool) : Bool × UpstreamPool :=
  if !(!p.forceCheckerTimer) then
    (false, p)
  else
    (true, { p with forceCheckerTimer := true })

/-- The handler `c` of `UpstreamPool::do_forceCheckNow`; the timer dies with the handler. -/
def do_forceCheckNow_c (e : Bool) (p : UpstreamPool) : TimerFiring :=
  if e then
    TimerFiring.idle { p with forceCheckerTimer := false }
  else
    { additionImpl := none,
      run := (do_tcpCheckerTimer_impl p).andThen (do_connectCheckerTimer_impl p),
      pool := { p with forceCheckerTimer := false } }

end UpstreamPool

/-! ## Executions of the rescue mechanism -/

/-- An event of an execution of the rescue mechanism: a call of `do_AdditionTimer_impl` at
steady-clock time `t`; the completion at time `t` of a pending timer `ct` (named by its
expiry); a change of the servers of the pool (probe callbacks, manual disabling); a call of
`setConfig`. -/
inductive RescueEvent where
  | attempt (t : SteadyTimePoint)
  | ctDone (t : SteadyTimePoint) (expiry : SteadyTimePoint)
  | health (servers : List UpstreamServerRef)
  | setConfig (c : Config)
  deriving DecidableEq, Repr

/-- State of an execution of the rescue mechanism: the pool, the expiries of the timers `ct`
created and not yet completed, the time of the last timed event, the rescue cycles started,
latest first, each with its start time and the `additionCheckPeriod` in force at that time,
and whether the execution has reached undefined behaviour. -/
structure RescueRun where
  pool : UpstreamPool
  pending : List SteadyTimePoint
  clock : SteadyTimePoint
  starts : List (SteadyTimePoint × ConfigTimeDuration)
  undefined : Bool
  deriving DecidableEq, Repr

/-- One event of an execution; `mk` is the constructor of `UpstreamServer` that `setConfig`
uses. Time does not go back, and a timer completes no earlier than its expiry; an event that
breaks this, or that follows undefined behaviour, is not an execution step (`none`). A call
of `do_AdditionTimer_impl` that creates the timer `ct` has started a rescue cycle; if its
probe cycles reach undefined behaviour the execution is undefined from there on. -/
def rescueStep (mk : Nat → String → String → Nat → Bool → UpstreamServer) (s : RescueRun) :
    RescueEvent → Option RescueRun
  | RescueEvent.attempt t =>
    if s.undefined ∨ t < s.clock then
      none
    else
      let r := UpstreamPool.do_AdditionTimer_impl s.pool
      match r.ct with
      | some d =>
        some { pool := r.pool, pending := (t + d) :: s.pending, clock := t,
               starts := (t, s.pool._configLoader.additionCheckPeriod) :: s.starts,
               undefined := r.run.undefined }
      | none =>
        some { pool := r.pool, pending := s.pending, clock := t, starts := s.starts,
               undefined := r.run.undefined }
  | RescueEvent.ctDone t expiry =>
    if s.undefined ∨ t < s.clock ∨ t < expiry ∨ expiry ∉ s.pending then
      none
    else
      some { pool := UpstreamPool.do_AdditionTimer_impl_ctDone s.pool,
             pending := s.pending.erase expiry, clock := t, starts := s.starts,
             undefined := s.undefined }
  | RescueEvent.health servers =>
    if s.undefined then
      none
    else
      some { s with pool := { s.pool with _pool := servers } }
  | RescueEvent.setConfig c =>
    if s.undefined then
      none
    else
      some { s with pool := UpstreamPool.setConfig mk c s.pool }

/-- An execution: the events in order. -/
def rescueRun (mk : Nat → String → String → Nat → Bool → UpstreamServer) (s : RescueRun) :
    List RescueEvent → Option RescueRun
  | [] => some s
  | ev :: rest =>
    match rescueStep mk s ev with
    | none => none
    | some s1 => rescueRun mk s1 rest

/-- Invariant of the executions of the rescue mechanism: a timer `ct` is pending only while
the flag is set, and then it is the one created by the last rescue start, with three times
the period of that start; with the flag clear the last start is at least that long ago; no
start is in the future; any two starts are at least three times the period of the earlier
one apart. -/
def RescueInv (s : RescueRun) : Prop :=
  (s.pending = [] ∨
    (s.pool.isAdditionTimerRunning = true ∧
      ∃ t1 rest, s.starts = t1 :: rest ∧ s.pending = [t1.1 + t1.2 * 3])) ∧
  (s.pool.isAdditionTimerRunning = false →
    s.pending = [] ∧ ∀ t1 rest, s.starts = t1 :: rest → t1.1 + t1.2 * 3 ≤ s.clock) ∧
  (∀ x, x ∈ s.starts → x.1 ≤ s.clock) ∧
  s.starts.Pairwise (fun later earlier => earlier.1 + earlier.2 * 3 ≤ later.1)

/-! ## Delay history (`DelayCollection.h`) -/

namespace DelayCollection

/-- The built-in `a <=> b` of two integer representations (durations, time points): a
`std::strong_ordering`. -/
def threeWay (a b : Int) : Ordering :=
  if a < b then Ordering.lt else if a = b then Ordering.eq else Ordering.gt

/-- The record `TimeHistory::DelayInfo`: a delay in milliseconds and the local wall-clock
time at which it was recorded, in clock ticks. -/
structure TimeHistory.DelayInfo where
  delay : Int
  timeClock : Int
  deriving DecidableEq, Repr

/-- The comparison `DelayInfo::operator<=>`. -/
def TimeHistory.DelayInfo.threeWayCompare (a o : TimeHistory.DelayInfo) : Ordering :=
  if threeWay a.timeClock o.timeClock ≠ Ordering.eq then
    threeWay a.timeClock o.timeClock
  else if threeWay a.delay o.delay ≠ Ordering.eq then
    threeWay a.delay o.delay
  else
    Ordering.eq

/-- The class `TimeHistory`: the deque `q`, oldest element first, and `maxSize` with its
default member initialiser. -/
structure TimeHistory where
  q : List TimeHistory.DelayInfo := []
  maxSize : Nat := 8192
  deriving DecidableEq, Repr

/-- Method `TimeHistory::trim`. -/
def TimeHistory.trim (h : TimeHistory) : TimeHistory :=
  if h.q.length > h.maxSize then
    let needRemove := h.q.length - h.maxSize
    if needRemove = 1 then
      { h with q := h.q.tail }
    else
      { h with q := h.q.drop needRemove }
  else
    h

/-- Method `TimeHistory::addDelayInfo`; `now` is the clock reading taken by the constructor
of `DelayInfo`. The reference it returns is not modelled. -/
def TimeHistory.addDelayInfo (delay : Int) (now : Int) (h : TimeHistory) : TimeHistory :=
  TimeHistory.trim { h with q := h.q ++ [{ delay := delay, timeClock := now }] }

/-- Method `TimeHistory::history`. -/
def TimeHistory.history (h : TimeHistory) : List TimeHistory.DelayInfo :=
  h.q

/-- Method `TimeHistory::setMaxSize`. -/
def TimeHistory.setMaxSize (m : Nat) (h : TimeHistory) : TimeHistory :=
  TimeHistory.trim { h with maxSize := m }

end DelayCollection

/-! ## Statistics registry (`TcpRelayStatisticsInfo.cpp`) -/

/-- Modelled from the spec: the session object `TcpRelaySession` is declared in the absent
header `TcpRelayServer.h`; these are the values of the getters `TcpRelayStatisticsInfo.cpp`
calls. The field `id` stands for the identity of the object. -/
structure TcpRelaySession where
  id : Nat
  nowServer : UpstreamServerRef
  clientEndpointAddrString : String
  listenEndpointAddrString : String
  targetEndpointAddr : String × Nat
  targetEndpointAddrString : String
  deriving DecidableEq, Repr

/-- Modelled from the spec: the record `TcpRelayStatisticsInfo::SessionInfo` is declared in the
absent header `TcpRelayStatisticsInfo.h`; the weak handle `ptr` is the identity of the
session it refers to, `none` for an empty handle. -/
structure TcpRelayStatisticsInfo.SessionInfo where
  upstreamIndex : Nat
  clientEndpointAddrString : String
  listenEndpointAddrString : String
  host : String
  post : Nat
  targetEndpointAddrString : String
  rawPtr : Option Nat
  ptr : Option Nat
  startTime : Int
  deriving DecidableEq, Repr

/-- Modelled from the spec: the record `TcpRelayStatisticsInfo::Info` is declared in the absent
header `TcpRelayStatisticsInfo.h`; `sessions` is the container in sequence order, the
counters are `size_t` values. -/
structure TcpRelayStatisticsInfo.Info where
  sessions : List TcpRelayStatisticsInfo.SessionInfo
  byteUp : Nat
  byteDown : Nat
  byteUpLast : Nat
  byteDownLast : Nat
  byteUpChange : Nat
  byteDownChange : Nat
  byteUpChangeMax : Nat
  byteDownChangeMax : Nat
  connectCount : Nat
  lastUseUpstreamIndex : Nat
  deriving DecidableEq, Repr

/-- The class `TcpRelayStatisticsInfo`: its three maps, as lists of key and bucket. Each
bucket is created by its own `make_shared`, so no bucket is shared between entries. -/
structure TcpRelayStatisticsInfo where
  upstreamIndex : List (Nat × TcpRelayStatisticsInfo.Info)
  clientIndex : List (String × TcpRelayStatisticsInfo.Info)
  listenIndex : List (String × TcpRelayStatisticsInfo.Info)
  deriving DecidableEq, Repr

namespace TcpRelayStatisticsInfo

/-- The test `ptr.expired()`; `live` tells which session objects still exist. -/
def SessionInfo.expired (live : Nat → Bool) (a : SessionInfo) : Bool :=
  match a.ptr with
  | none => true
  | some id => !live id

/-- The `while` loop of `Info::removeExpiredSession` over the container. -/
def Info.removeExpiredSessionLoop (live : Nat → Bool) : List SessionInfo → List SessionInfo
  | [] => []
  | a :: rest =>
    if a.expired live then
      Info.removeExpiredSessionLoop live rest
    else
      a :: Info.removeExpiredSessionLoop live rest

/-- Method `TcpRelayStatisticsInfo::Info::removeExpiredSession`. -/
def Info.removeExpiredSession (live : Nat → Bool) (i : Info) : Info :=
  { i with sessions := Info.removeExpiredSessionLoop live i.sessions }

/-- Subtraction `a - b` of two `size_t` values. -/
def sizeSub (a b : Nat) : Nat := (a + 2 ^ 64 - b % 2 ^ 64) % 2 ^ 64

/-- Method `TcpRelayStatisticsInfo::Info::calcByte`. -/
def Info.calcByte (i : Info) : Info :=
  let newByteUp := i.byteUp
  let newByteDown := i.byteDown
  let i1 := { i with byteUpChange := sizeSub newByteUp i.byteUpLast }
  let i2 := { i1 with byteDownChange := sizeSub newByteDown i1.byteDownLast }
  let i3 := { i2 with byteUpLast := newByteUp }
  let i4 := { i3 with byteDownLast := newByteDown }
  let i5 := if i4.byteUpChange > i4.byteUpChangeMax then
      { i4 with byteUpChangeMax := i4.byteUpChange } else i4
  if i5.byteDownChange > i5.byteDownChangeMax then
    { i5 with byteDownChangeMax := i5.byteDownChange } else i5

/-- Method `TcpRelayStatisticsInfo::SessionInfo::updateTargetInfo`. -/
def SessionInfo.updateTargetInfo (s : Option TcpRelaySession) (a : SessionInfo) : SessionInfo :=
  match s with
  | some p =>
    { a with
      host := p.targetEndpointAddr.1, post := p.targetEndpointAddr.2,
      targetEndpointAddrString := p.targetEndpointAddrString }
  | none => a

/-- One of the three blocks of `updateSessionInfo`, for the map `m` and the key `k`: the body
that looks the record up and modifies it is entered when `find(k) == end()`, where it
dereferences the end iterator, which is undefined (`none`); when the key is found the block
does nothing. -/
def updateSessionInfoBlock {K : Type} [BEq K] (m : List (K × Info)) (k : K) :
    Option (List (K × Info)) :=
  match m.lookup k with
  | none => none
  | some _ => some m

/-- Method `TcpRelayStatisticsInfo::updateSessionInfo`. A null `s` skips the body; a null
`getNowServer()` is dereferenced, which is undefined (`none`). -/
def updateSessionInfo (s : Option TcpRelaySession) (r : TcpRelayStatisticsInfo) :
    Option TcpRelayStatisticsInfo :=
  match s with
  | none => some r
  | some p =>
    match p.nowServer with
    | none => none
    | some ns =>
      match updateSessionInfoBlock r.upstreamIndex ns.index with
      | none => none
      | some m1 =>
        match updateSessionInfoBlock r.clientIndex p.clientEndpointAddrString with
        | none => none
        | some m2 =>
          match updateSessionInfoBlock r.listenIndex p.listenEndpointAddrString with
          | none => none
          | some m3 => some { upstreamIndex := m1, clientIndex := m2, listenIndex := m3 }

/-- Method `TcpRelayStatisticsInfo::calcByteAll`. -/
def calcByteAll (r : TcpRelayStatisticsInfo) : TcpRelayStatisticsInfo :=
  { upstreamIndex := r.upstreamIndex.map fun a => (a.1, a.2.calcByte),
    clientIndex := r.clientIndex.map fun a => (a.1, a.2.calcByte),
    listenIndex := r.listenIndex.map fun a => (a.1, a.2.calcByte) }

/-- Method `TcpRelayStatisticsInfo::removeExpiredSessionAll`. -/
def removeExpiredSessionAll (live : Nat → Bool) (r : TcpRelayStatisticsInfo) :
    TcpRelayStatisticsInfo :=
  { upstreamIndex := r.upstreamIndex.map fun a => (a.1, a.2.removeExpiredSession live),
    clientIndex := r.clientIndex.map fun a => (a.1, a.2.removeExpiredSession live),
    listenIndex := r.listenIndex.map fun a => (a.1, a.2.removeExpiredSession live) }

end TcpRelayStatisticsInfo

/-! ## Concrete sessions and registries used to evaluate the definitions -/

/-- A live session through server 0 whose target has just become `example.com:443`. -/
def sampleSession : TcpRelaySession :=
  { id := 7, nowServer := some (srvUp 0), clientEndpointAddrString := "10.0.0.1:5000",
    listenEndpointAddrString := "0.0.0.0:1080", targetEndpointAddr := ("example.com", 443),
    targetEndpointAddrString := "example.com:443" }

/-- The record made for `sampleSession` before its target was known. -/
def sampleSessionInfo : TcpRelayStatisticsInfo.SessionInfo :=
  { upstreamIndex := 0, clientEndpointAddrString := "10.0.0.1:5000",
    listenEndpointAddrString := "0.0.0.0:1080", host := "", post := 0,
    targetEndpointAddrString := "", rawPtr := some 7, ptr := some 7, startTime := 0 }

/-- A bucket with the given records and byte counters at zero. -/
def sampleInfo (sessions : List TcpRelayStatisticsInfo.SessionInfo) :
    TcpRelayStatisticsInfo.Info :=
  { sessions := sessions, byteUp := 0, byteDown := 0, byteUpLast := 0, byteDownLast := 0,
    byteUpChange := 0, byteDownChange := 0, byteUpChangeMax := 0, byteDownChangeMax := 0,
    connectCount := 1, lastUseUpstreamIndex := 0 }

/-- A registry in which `sampleSession` is indexed under its three keys. -/
def sampleRegistry : TcpRelayStatisticsInfo :=
  { upstreamIndex := [(0, sampleInfo [sampleSessionInfo])],
    clientIndex := [("10.0.0.1:5000", sampleInfo [sampleSessionInfo])],
    listenIndex := [("0.0.0.0:1080", sampleInfo [sampleSessionInfo])] }

namespace UpstreamPool

/-- Method `UpstreamPool::endAdditionTimer`. -/
def endAdditionTimer (p : UpstreamPool) : UpstreamPool :=
  if p.additionTimer.isSome then { p with additionTimer := none } else p

/-- Method `UpstreamPool::endCheckTimer`. -/
def endCheckTimer (p : UpstreamPool) : UpstreamPool :=
  let p1 := if p.tcpCheckerTimer.isSome then { p with tcpCheckerTimer := none } else p
  if p1.connectCheckerTimer.isSome then { p1 with connectCheckerTimer := none } else p1

/-- Method `UpstreamPool::startAdditionTimer`; `now` is the steady-clock reading at which the
timer is created, so that its expiry is `now` plus its duration. -/
def startAdditionTimer (now : SteadyTimePoint) (p : UpstreamPool) : UpstreamPool :=
  if !p.additionTimer.isSome then
    { p with
      additionTimer :=
        some (now + (p._configLoader.tcpCheckStart + p._configLoader.connectCheckStart
          + p._configLoader.tcpCheckPeriod) * 2) }
  else
    p

/-- Method `UpstreamPool::startCheckTimer`; `nowA`, `nowT`, `nowC` are the steady-clock
readings at which the addition, TCP and end-to-end timers are created. -/
def startCheckTimer (nowA nowT nowC : SteadyTimePoint) (p : UpstreamPool) : UpstreamPool :=
  if p.tcpCheckerTimer.isSome ∧ p.connectCheckerTimer.isSome then
    p
  else
    let p1 := endCheckTimer p
    let p2 := endAdditionTimer p1
    let p3 := startAdditionTimer nowA p2
    let p4 := { p3 with tcpCheckerTimer := some (nowT + p3._configLoader.tcpCheckStart) }
    { p4 with connectCheckerTimer := some (nowC + p4._configLoader.connectCheckStart) }

end UpstreamPool

namespace TcpRelayStatisticsInfo

/-- The statement `p->byteUp += b` on the atomic `size_t` counter of a bucket. -/
def Info.addByteUp (b : Nat) (i : Info) : Info :=
  { i with byteUp := (i.byteUp + b) % 2 ^ 64 }

/-- The statement `p->byteDown += b` on the atomic `size_t` counter of a bucket. -/
def Info.addByteDown (b : Nat) (i : Info) : Info :=
  { i with byteDown := (i.byteDown + b) % 2 ^ 64 }

/-- Update in place of the bucket found under key `k`, when there is one (`getInfo` followed
by a write through the returned pointer). -/
def modifyBucket {K : Type} [BEq K] (k : K) (f : Info → Info) :
    List (K × Info) → List (K × Info)
  | [] => []
  | a :: rest => if k == a.1 then (a.1, f a.2) :: rest else a :: modifyBucket k f rest

/-- Method `TcpRelayStatisticsInfo::getInfo`. -/
def getInfo (index : Nat) (r : TcpRelayStatisticsInfo) : Option Info :=
  r.upstreamIndex.lookup index

/-- Method `TcpRelayStatisticsInfo::getInfoClient`. -/
def getInfoClient (addr : String) (r : TcpRelayStatisticsInfo) : Option Info :=
  r.clientIndex.lookup addr

/-- Method `TcpRelayStatisticsInfo::getInfoListen`. -/
def getInfoListen (addr : String) (r : TcpRelayStatisticsInfo) : Option Info :=
  r.listenIndex.lookup addr

/-- Method `TcpRelayStatisticsInfo::addByteUp`. -/
def addByteUp (index : Nat) (b : Nat) (r : TcpRelayStatisticsInfo) : TcpRelayStatisticsInfo :=
  { r with upstreamIndex := modifyBucket index (Info.addByteUp b) r.upstreamIndex }

/-- Method `TcpRelayStatisticsInfo::addByteUpClient`. -/
def addByteUpClient (addr : String) (b : Nat) (r : TcpRelayStatisticsInfo) :
    TcpRelayStatisticsInfo :=
  { r with clientIndex := modifyBucket addr (Info.addByteUp b) r.clientIndex }

/-- Method `TcpRelayStatisticsInfo::addByteUpListen`. -/
def addByteUpListen (addr : String) (b : Nat) (r : TcpRelayStatisticsInfo) :
    TcpRelayStatisticsInfo :=
  { r with listenIndex := modifyBucket addr (Info.addByteUp b) r.listenIndex }

/-- Method `TcpRelayStatisticsInfo::addByteDown`. -/
def addByteDown (index : Nat) (b : Nat) (r : TcpRelayStatisticsInfo) :
    TcpRelayStatisticsInfo :=
  { r with upstreamIndex := modifyBucket index (Info.addByteDown b) r.upstreamIndex }

/-- Method `TcpRelayStatisticsInfo::addByteDownClient`. -/
def addByteDownClient (addr : String) (b : Nat) (r : TcpRelayStatisticsInfo) :
    TcpRelayStatisticsInfo :=
  { r with clientIndex := modifyBucket addr (Info.addByteDown b) r.clientIndex }

/-- Method `TcpRelayStatisticsInfo::addByteDownListen`. -/
def addByteDownListen (addr : String) (b : Nat) (r : TcpRelayStatisticsInfo) :
    TcpRelayStatisticsInfo :=
  { r with listenIndex := modifyBucket addr (Info.addByteDown b) r.listenIndex }

/-- What happens to one bucket: bytes added to a counter, or a call of `calcByte` (`tick`). -/
inductive ByteEvent where
  | addUp (b : Nat)
  | addDown (b : Nat)
  | tick
  deriving DecidableEq, Repr

/-- The number of bytes an event adds to the counter `byteUp`. -/
def ByteEvent.upBytes : ByteEvent → Nat
  | ByteEvent.addUp b => b
  | _ => 0

/-- The number of bytes an event adds to the counter `byteDown`. -/
def ByteEvent.downBytes : ByteEvent → Nat
  | ByteEvent.addDown b => b
  | _ => 0

/-- One event applied to a bucket. -/
def Info.byteStep (i : Info) : ByteEvent → Info
  | ByteEvent.addUp b => i.addByteUp b
  | ByteEvent.addDown b => i.addByteDown b
  | ByteEvent.tick => i.calcByte

/-- An interleaving of byte additions and calls of `calcByte` applied to a bucket: the final
state and, in call order, the pair `(byteUpChange, byteDownChange)` left by each call of
`calcByte`. -/
def Info.byteRun (i : Info) : List ByteEvent → Info × List (Nat × Nat)
  | [] => (i, [])
  | ev :: rest =>
    let i1 := i.byteStep ev
    let r := Info.byteRun i1 rest
    match ev with
    | ByteEvent.tick => (r.1, (i1.byteUpChange, i1.byteDownChange) :: r.2)
    | _ => r

end TcpRelayStatisticsInfo

/-! ## End-to-end probe: SOCKS5 steps (`ConnectTestHttps.h`) -/

namespace ConnectTestHttpsSession

/-- The steps of the probe a completion handler goes on to. -/
inductive Step where
  | do_socks5_handshake_read
  | do_socks5_connect_read
  | do_ssl_handshake
  deriving DecidableEq, Repr

/-- What a step of the probe does: undefined behaviour (a null pointer is dereferenced), a
call of `fail(ec, what)`, which invokes the failure callback, preceded or not by
`do_shutdown()`; an `async_write` of the given bytes; or a call of the next step. -/
inductive Outcome where
  | undefinedBehaviour
  | fail (what : String) (shutdown : Bool)
  | asyncWrite (data : List Nat)
  | next (s : Step)
  deriving DecidableEq, Repr

/-- The address returned by `boost::asio::ip::make_address` when it sets no error: IPv4 with
its 4 bytes or IPv6 with its 16 bytes (`to_bytes()`). -/
inductive IpAddress where
  | v4 (bytes : List Nat)
  | v6 (bytes : List Nat)
  deriving DecidableEq, Repr

/-- The two bytes pushed for the port: `static_cast<uint8_t>(targetPort >> 8)` and
`static_cast<uint8_t>(targetPort & 0xff)`. -/
def portBytes (targetPort : Nat) : List Nat :=
  [(targetPort / 256) % 256, targetPort % 256]

/-- The body of `do_socks5_connect_write` from the first use of `data_send` on, for a given
value of the pointer `data_send`: `none` is the null pointer, `some d` a vector holding `d`.
`targetHost` is the byte sequence of the string, `addr` the result of `make_address`
(`none` when it sets `ec`). Every operation through a null `data_send` is undefined. -/
def do_socks5_connect_write_from (data_send : Option (List Nat)) (targetHost : List Nat)
    (targetPort : Nat) (addr : Option IpAddress) : Outcome :=
  match data_send with
  | none => Outcome.undefinedBehaviour
  | some d0 =>
    let d1 := d0 ++ [0x05, 0x01, 0x00]
    match addr with
    | none =>
      let d2 := d1 ++ [0x03]
      if targetHost.length > 253 then
        Outcome.fail "socks5_connect_write (targetHost.size() > 253)" true
      else
        let d3 := d2 ++ [targetHost.length % 256]
        let d4 := d3 ++ targetHost
        Outcome.asyncWrite (d4 ++ portBytes targetPort)
    | some (IpAddress.v4 v4) =>
      let d2 := d1 ++ [0x01]
      let d3 := d2 ++ v4
      Outcome.asyncWrite (d3 ++ portBytes targetPort)
    | some (IpAddress.v6 v6) =>
      let d2 := d1 ++ [0x04]
      let d3 := d2 ++ v6
      Outcome.asyncWrite (d3 ++ portBytes targetPort)

/-- Method `ConnectTestHttpsSession::do_socks5_connect_write`: the declaration
`std::shared_ptr<std::vector<uint8_t>> data_send;` leaves `data_send` null. -/
def do_socks5_connect_write (targetHost : List Nat) (targetPort : Nat)
    (addr : Option IpAddress) : Outcome :=
  do_socks5_connect_write_from none targetHost targetPort addr

/-- The completion handler of the `async_write` in `do_socks5_handshake_write`; `ec` tells
whether the error code is set; the data sent is the 3-byte greeting. -/
def do_socks5_handshake_write_handler (ec : Bool) (bytes_transferred_ : Nat) : Outcome :=
  if !ec ∨ bytes_transferred_ ≠ [0x05, 0x01, 0x00].length then
    Outcome.fail "socks5_handshake_write" false
  else
    Outcome.next Step.do_socks5_handshake_read

/-- The completion handler of the `async_write` in `do_socks5_connect_write`, for the data
sent `data_send`. -/
def do_socks5_connect_write_handler (data_send : List Nat) (ec : Bool)
    (bytes_transferred_ : Nat) : Outcome :=
  if !ec ∨ bytes_transferred_ ≠ data_send.length then
    Outcome.fail "socks5_connect_write" false
  else
    Outcome.next Step.do_socks5_connect_read

/-- The completion handler of the `async_read_some` in `do_socks5_connect_read`: `r` is the
byte sequence received, so that `bytes_transferred` is its length and the buffer, created
with `MAX_LENGTH` zero bytes, reads as `r` followed by zeros. -/
def do_socks5_connect_read_handler (ec : Bool) (r : List Nat) : Outcome :=
  let bytes_transferred := r.length
  if ec then
    Outcome.fail "socks5_connect_read" false
  else if bytes_transferred < 6
      ∨ r.getD 0 0 ≠ 5
      ∨ r.getD 1 0 ≠ 0x00
      ∨ r.getD 2 0 ≠ 0x00
      ∨ (r.getD 3 0 ≠ 0x01 ∧ r.getD 3 0 ≠ 0x03 ∧ r.getD 3 0 ≠ 0x04) then
    Outcome.fail "socks5_connect_read (bytes_transferred < 6)" true
  else if r.getD 3 0 = 0x03 ∧ bytes_transferred ≠ r.getD 4 0 + 4 + 1 + 2 then
    Outcome.fail "socks5_connect_read (socks5_read_buf->at(3) == 0x03)" true
  else if r.getD 3 0 = 0x01 ∧ bytes_transferred ≠ 4 + 4 + 2 then
    Outcome.fail "socks5_connect_read (socks5_read_buf->at(3) == 0x01)" true
  else if r.getD 3 0 = 0x04 ∧ bytes_transferred ≠ 4 + 16 + 2 then
    Outcome.fail "socks5_connect_read (socks5_read_buf->at(3) == 0x04)" true
  else
    Outcome.next Step.do_ssl_handshake

end ConnectTestHttpsSession

/-! ## Handshake synchronisation (`ProxyHandshakeAuth.h`) -/

namespace ProxyHandshakeAuth

end ProxyHandshakeAuth

open UpstreamPool

/-! ## Arithmetic of the cursor -/

/-- Incrementing an in-range `size_t` cursor and resetting it to `0` when it reaches the pool
size is the successor modulo the pool size. -/
theorem wrap_eq_mod {n c : Nat} (hc : c < n) (hn : n ≤ 2 ^ 64) :
    (if sizeIncr c ≥ n then 0 else sizeIncr c) = (c + 1) % n := by
  unfold sizeIncr
  by_cases h : c + 1 < 2 ^ 64
  · rw [Nat.mod_eq_of_lt h]
    by_cases h2 : c + 1 < n
    · rw [Nat.mod_eq_of_lt h2, if_neg (by omega)]
    · have h3 : c + 1 = n := by omega
      rw [h3, Nat.mod_self, if_pos (le_refl n)]
  · have h3 : c + 1 = 2 ^ 64 := by omega
    have h4 : n = 2 ^ 64 := by omega
    rw [h3, h4, Nat.mod_self, if_neg (by decide)]

theorem add_succ_mod (n c j : Nat) : ((c + 1) % n + j) % n = (c + (j + 1)) % n := by
  rw [Nat.add_mod, Nat.mod_mod, ← Nat.add_mod]
  congr 1
  omega

theorem add_mod_ne_self {n c j : Nat} (hc : c < n) (hj : 0 < j) (hjn : j < n) :
    (c + j) % n ≠ c := by
  by_cases h : c + j < n
  · rw [Nat.mod_eq_of_lt h]; omega
  · rw [Nat.mod_eq_sub_mod (by omega), Nat.mod_eq_of_lt (by omega)]; omega

theorem add_self_mod {n c : Nat} (hc : c < n) : (c + n) % n = c := by
  rw [Nat.add_mod_right, Nat.mod_eq_of_lt hc]

/-! ## The loops, one iteration at a time -/

theorem getNextServerLoop_succ (pool : List UpstreamServerRef) (start fuel cur : Nat)
    (hc : cur < pool.length) (hn : pool.length ≤ 2 ^ 64) :
    getNextServerLoop pool start (fuel + 1) cur =
      if checkServer (poolAt pool ((cur + 1) % pool.length)) then
        some (poolAt pool ((cur + 1) % pool.length), (cur + 1) % pool.length)
      else if start = (cur + 1) % pool.length then
        some (none, (cur + 1) % pool.length)
      else
        getNextServerLoop pool start fuel ((cur + 1) % pool.length) := by
  simp only [getNextServerLoop]
  rw [wrap_eq_mod hc hn]

theorem tryGetLastServerLoop_succ (pool : List UpstreamServerRef) (start fuel cur : Nat)
    (hc : cur < pool.length) (hn : pool.length ≤ 2 ^ 64) :
    tryGetLastServerLoop pool start (fuel + 1) cur =
      if checkServer (poolAt pool cur) then
        some (poolAt pool cur, cur)
      else if start = (cur + 1) % pool.length then
        some (none, (cur + 1) % pool.length)
      else
        tryGetLastServerLoop pool start fuel ((cur + 1) % pool.length) := by
  simp only [tryGetLastServerLoop]
  rw [if_neg (show ¬ cur ≥ pool.length by omega), wrap_eq_mod hc hn]


/-- Skipping `k` iterations of the `getNextServer` loop that neither find an eligible server
nor come back to the saved cursor. -/
theorem getNextServerLoop_skip (pool : List UpstreamServerRef) (start : Nat)
    (hn : pool.length ≤ 2 ^ 64) :
    ∀ (k cur fuel : Nat), cur < pool.length →
      (∀ j, 1 ≤ j → j ≤ k →
        checkServer (poolAt pool ((cur + j) % pool.length)) = false ∧
          start ≠ (cur + j) % pool.length) →
      getNextServerLoop pool start (fuel + k) cur =
        getNextServerLoop pool start fuel ((cur + k) % pool.length) := by
  intro k
  induction k with
  | zero =>
    intro cur fuel hc _
    simp [Nat.mod_eq_of_lt hc]
  | succ k ih =>
    intro cur fuel hc h
    have h1 := h 1 (le_refl 1) (by omega)
    rw [show fuel + (k + 1) = (fuel + k) + 1 by omega, getNextServerLoop_succ pool start _ cur hc hn]
    rw [if_neg (by simp [h1.1]), if_neg h1.2]
    have hc1 : (cur + 1) % pool.length < pool.length := Nat.mod_lt _ (by omega)
    rw [ih ((cur + 1) % pool.length) fuel hc1, add_succ_mod]
    intro j hj1 hjk
    rw [add_succ_mod]
    exact h (j + 1) (by omega) (by omega)

/-- Skipping `k` iterations of the `tryGetLastServer` loop that neither find an eligible server
nor come back to the saved cursor. -/
theorem tryGetLastServerLoop_skip (pool : List UpstreamServerRef) (start : Nat)
    (hn : pool.length ≤ 2 ^ 64) :
    ∀ (k cur fuel : Nat), cur < pool.length →
      (∀ j, j < k →
        checkServer (poolAt pool ((cur + j) % pool.length)) = false ∧
          start ≠ (cur + (j + 1)) % pool.length) →
      tryGetLastServerLoop pool start (fuel + k) cur =
        tryGetLastServerLoop pool start fuel ((cur + k) % pool.length) := by
  intro k
  induction k with
  | zero =>
    intro cur fuel hc _
    simp [Nat.mod_eq_of_lt hc]
  | succ k ih =>
    intro cur fuel hc h
    have h0 := h 0 (by omega)
    rw [Nat.add_zero, Nat.mod_eq_of_lt hc] at h0
    rw [show fuel + (k + 1) = (fuel + k) + 1 by omega,
      tryGetLastServerLoop_succ pool start _ cur hc hn]
    rw [if_neg (by simp [h0.1]), if_neg h0.2]
    have hc1 : (cur + 1) % pool.length < pool.length := Nat.mod_lt _ (by omega)
    rw [ih ((cur + 1) % pool.length) fuel hc1, add_succ_mod]
    intro j hjk
    rw [add_succ_mod, add_succ_mod]
    exact h (j + 1) (by omega)

/-- The `getNextServer` loop returns the first eligible server met, `k` positions after the
cursor, when the saved cursor is not met before. -/
theorem getNextServerLoop_found (pool : List UpstreamServerRef) (start : Nat)
    (hn : pool.length ≤ 2 ^ 64) (k cur fuel : Nat) (hc : cur < pool.length)
    (hk : 1 ≤ k) (hf : k ≤ fuel)
    (hskip : ∀ j, 1 ≤ j → j < k →
      checkServer (poolAt pool ((cur + j) % pool.length)) = false ∧
        start ≠ (cur + j) % pool.length)
    (hfound : checkServer (poolAt pool ((cur + k) % pool.length)) = true) :
    getNextServerLoop pool start fuel cur =
      some (poolAt pool ((cur + k) % pool.length), (cur + k) % pool.length) := by
  obtain ⟨k, rfl⟩ : ∃ k0, k = k0 + 1 := ⟨k - 1, by omega⟩
  obtain ⟨f, rfl⟩ : ∃ f, fuel = (f + 1) + k := ⟨fuel - (k + 1), by omega⟩
  rw [getNextServerLoop_skip pool start hn k cur (f + 1) hc
    (fun j h1 h2 => hskip j h1 (by omega))]
  have hc1 : (cur + k) % pool.length < pool.length := Nat.mod_lt _ (by omega)
  rw [getNextServerLoop_succ pool start f _ hc1 hn, Nat.mod_add_mod, Nat.add_assoc,
    if_pos hfound]

/-- The `getNextServer` loop returns null when it comes back to the saved cursor, `k` positions
after the cursor, without having met an eligible server. -/
theorem getNextServerLoop_wrap (pool : List UpstreamServerRef) (start : Nat)
    (hn : pool.length ≤ 2 ^ 64) (k cur fuel : Nat) (hc : cur < pool.length)
    (hk : 1 ≤ k) (hf : k ≤ fuel)
    (hskip : ∀ j, 1 ≤ j → j < k →
      checkServer (poolAt pool ((cur + j) % pool.length)) = false ∧
        start ≠ (cur + j) % pool.length)
    (hlast : checkServer (poolAt pool ((cur + k) % pool.length)) = false)
    (hwrap : start = (cur + k) % pool.length) :
    getNextServerLoop pool start fuel cur = some (none, start) := by
  obtain ⟨k, rfl⟩ : ∃ k0, k = k0 + 1 := ⟨k - 1, by omega⟩
  obtain ⟨f, rfl⟩ : ∃ f, fuel = (f + 1) + k := ⟨fuel - (k + 1), by omega⟩
  rw [getNextServerLoop_skip pool start hn k cur (f + 1) hc
    (fun j h1 h2 => hskip j h1 (by omega))]
  have hc1 : (cur + k) % pool.length < pool.length := Nat.mod_lt _ (by omega)
  rw [getNextServerLoop_succ pool start f _ hc1 hn, Nat.mod_add_mod, Nat.add_assoc,
    if_neg (by simp [hlast]), if_pos hwrap, ← hwrap]

/-- The `tryGetLastServer` loop returns the first eligible server met, `k` positions from the
cursor (the cursor's own server when `k = 0`). -/
theorem tryGetLastServerLoop_found (pool : List UpstreamServerRef) (start : Nat)
    (hn : pool.length ≤ 2 ^ 64) (k cur fuel : Nat) (hc : cur < pool.length)
    (hf : k < fuel)
    (hskip : ∀ j, j < k →
      checkServer (poolAt pool ((cur + j) % pool.length)) = false ∧
        start ≠ (cur + (j + 1)) % pool.length)
    (hfound : checkServer (poolAt pool ((cur + k) % pool.length)) = true) :
    tryGetLastServerLoop pool start fuel cur =
      some (poolAt pool ((cur + k) % pool.length), (cur + k) % pool.length) := by
  obtain ⟨f, rfl⟩ : ∃ f, fuel = (f + 1) + k := ⟨fuel - (k + 1), by omega⟩
  rw [tryGetLastServerLoop_skip pool start hn k cur (f + 1) hc hskip]
  have hc1 : (cur + k) % pool.length < pool.length := Nat.mod_lt _ (by omega)
  rw [tryGetLastServerLoop_succ pool start f _ hc1 hn, if_pos hfound]

/-- The `tryGetLastServer` loop returns null when, after `k + 1` servers none of which is
eligible, the cursor is back at its saved value. -/
theorem tryGetLastServerLoop_wrap (pool : List UpstreamServerRef) (start : Nat)
    (hn : pool.length ≤ 2 ^ 64) (k cur fuel : Nat) (hc : cur < pool.length)
    (hf : k < fuel)
    (hskip : ∀ j, j < k →
      checkServer (poolAt pool ((cur + j) % pool.length)) = false ∧
        start ≠ (cur + (j + 1)) % pool.length)
    (hlast : checkServer (poolAt pool ((cur + k) % pool.length)) = false)
    (hwrap : start = (cur + (k + 1)) % pool.length) :
    tryGetLastServerLoop pool start fuel cur = some (none, start) := by
  obtain ⟨f, rfl⟩ : ∃ f, fuel = (f + 1) + k := ⟨fuel - (k + 1), by omega⟩
  rw [tryGetLastServerLoop_skip pool start hn k cur (f + 1) hc hskip]
  have hc1 : (cur + k) % pool.length < pool.length := Nat.mod_lt _ (by omega)
  rw [tryGetLastServerLoop_succ pool start f _ hc1 hn, Nat.mod_add_mod, Nat.add_assoc,
    if_neg (by simp [hlast]), if_pos hwrap, ← hwrap]

/-! ## Positions reached from the cursor -/

/-- Every position `i` of the pool is `d` steps after the cursor for some `d` from `1` to `n`,
and for fewer than `n` steps when `i` is not the cursor itself. -/
theorem exists_step_to {n c i : Nat} (hc : c < n) (hi : i < n) :
    ∃ d, 1 ≤ d ∧ d ≤ n ∧ (c + d) % n = i ∧ (i ≠ c → d < n) := by
  by_cases h : c < i
  · refine ⟨i - c, by omega, by omega, ?_, fun _ => by omega⟩
    rw [show c + (i - c) = i by omega, Nat.mod_eq_of_lt hi]
  · refine ⟨i + n - c, by omega, by omega, ?_, fun _ => by omega⟩
    rw [show c + (i + n - c) = i + n by omega, Nat.add_mod_right, Nat.mod_eq_of_lt hi]

/-- When some position satisfies `e`, there is a least number of steps `k`, from `1` to `n`,
after which the position reached from the cursor satisfies `e`. -/
theorem exists_least_step (e : Nat → Bool) {n c : Nat} (hc : c < n)
    (hex : ∃ i, i < n ∧ e i = true) :
    ∃ k, 1 ≤ k ∧ k ≤ n ∧ e ((c + k) % n) = true ∧
      ∀ j, 1 ≤ j → j < k → e ((c + j) % n) = false := by
  obtain ⟨i, hi, hei⟩ := hex
  obtain ⟨d, hd1, hdn, hd, _⟩ := exists_step_to hc hi
  have hP : ∃ k, 1 ≤ k ∧ e ((c + k) % n) = true := ⟨d, hd1, by rw [hd]; exact hei⟩
  refine ⟨Nat.find hP, (Nat.find_spec hP).1, ?_, (Nat.find_spec hP).2, ?_⟩
  · exact le_trans (Nat.find_min' hP ⟨hd1, by rw [hd]; exact hei⟩) hdn
  · intro j hj1 hjk
    have := Nat.find_min hP hjk
    cases hej : e ((c + j) % n) with
    | false => rfl
    | true => exact absurd ⟨hj1, hej⟩ this

/-! ## `getNextServer` and `tryGetLastServer` with the cursor in range -/

theorem with_cursor_self (p : UpstreamPool) :
    { p with lastUseUpstreamIndex := p.lastUseUpstreamIndex } = p := by
  cases p
  rfl

theorem getNextServer_found (p : UpstreamPool) (hn : p._pool.length ≤ 2 ^ 64)
    (hc : p.lastUseUpstreamIndex < p._pool.length) (k fuel : Nat)
    (hk1 : 1 ≤ k) (hkn : k ≤ p._pool.length) (hf : k ≤ fuel)
    (hskip : ∀ j, 1 ≤ j → j < k →
      checkServer (poolAt p._pool ((p.lastUseUpstreamIndex + j) % p._pool.length)) = false)
    (hfound :
      checkServer (poolAt p._pool ((p.lastUseUpstreamIndex + k) % p._pool.length)) = true) :
    getNextServer fuel p =
      some (poolAt p._pool ((p.lastUseUpstreamIndex + k) % p._pool.length),
        { p with lastUseUpstreamIndex := (p.lastUseUpstreamIndex + k) % p._pool.length }) := by
  have hne : p._pool.isEmpty = false := by
    cases hp : p._pool with
    | nil => rw [hp] at hc; simp at hc
    | cons a l => rfl
  unfold getNextServer
  rw [hne, getNextServerLoop_found p._pool p.lastUseUpstreamIndex hn k p.lastUseUpstreamIndex
    fuel hc hk1 hf
    (fun j h1 h2 => ⟨hskip j h1 h2, fun h => add_mod_ne_self hc h1 (by omega) h.symm⟩) hfound]
  rfl

theorem getNextServer_none (p : UpstreamPool) (hn : p._pool.length ≤ 2 ^ 64)
    (hc : p.lastUseUpstreamIndex < p._pool.length) (fuel : Nat) (hf : p._pool.length ≤ fuel)
    (hnone : ∀ i, i < p._pool.length → checkServer (poolAt p._pool i) = false) :
    getNextServer fuel p = some (none, p) := by
  have hne : p._pool.isEmpty = false := by
    cases hp : p._pool with
    | nil => rw [hp] at hc; simp at hc
    | cons a l => rfl
  have hpos : 0 < p._pool.length := by omega
  unfold getNextServer
  rw [hne, getNextServerLoop_wrap p._pool p.lastUseUpstreamIndex hn p._pool.length
    p.lastUseUpstreamIndex fuel hc hpos hf
    (fun j h1 h2 => ⟨hnone _ (Nat.mod_lt _ hpos),
      fun h => add_mod_ne_self hc h1 h2 h.symm⟩)
    (hnone _ (Nat.mod_lt _ hpos)) (add_self_mod hc).symm]
  simp [with_cursor_self]

theorem tryGetLastServer_found (p : UpstreamPool) (hn : p._pool.length ≤ 2 ^ 64)
    (hc : p.lastUseUpstreamIndex < p._pool.length) (k fuel : Nat)
    (hkn : k < p._pool.length) (hf : k < fuel)
    (hskip : ∀ j, j < k →
      checkServer (poolAt p._pool ((p.lastUseUpstreamIndex + j) % p._pool.length)) = false)
    (hfound :
      checkServer (poolAt p._pool ((p.lastUseUpstreamIndex + k) % p._pool.length)) = true) :
    tryGetLastServer fuel p =
      some (poolAt p._pool ((p.lastUseUpstreamIndex + k) % p._pool.length),
        { p with lastUseUpstreamIndex := (p.lastUseUpstreamIndex + k) % p._pool.length }) := by
  have hne : p._pool.isEmpty = false := by
    cases hp : p._pool with
    | nil => rw [hp] at hc; simp at hc
    | cons a l => rfl
  unfold tryGetLastServer
  rw [hne, tryGetLastServerLoop_found p._pool p.lastUseUpstreamIndex hn k p.lastUseUpstreamIndex
    fuel hc hf
    (fun j h1 => ⟨hskip j h1,
      fun h => add_mod_ne_self hc (Nat.succ_pos j) (by omega) h.symm⟩) hfound]
  rfl

theorem tryGetLastServer_none (p : UpstreamPool) (hn : p._pool.length ≤ 2 ^ 64)
    (hc : p.lastUseUpstreamIndex < p._pool.length) (fuel : Nat) (hf : p._pool.length ≤ fuel)
    (hnone : ∀ i, i < p._pool.length → checkServer (poolAt p._pool i) = false) :
    tryGetLastServer fuel p = some (none, p) := by
  have hne : p._pool.isEmpty = false := by
    cases hp : p._pool with
    | nil => rw [hp] at hc; simp at hc
    | cons a l => rfl
  have hpos : 0 < p._pool.length := by omega
  unfold tryGetLastServer
  rw [hne, tryGetLastServerLoop_wrap p._pool p.lastUseUpstreamIndex hn (p._pool.length - 1)
    p.lastUseUpstreamIndex fuel hc (by omega)
    (fun j h1 => ⟨hnone _ (Nat.mod_lt _ hpos),
      fun h => add_mod_ne_self hc (Nat.succ_pos j) (by omega) h.symm⟩)
    (hnone _ (Nat.mod_lt _ hpos))
    (by rw [show p._pool.length - 1 + 1 = p._pool.length by omega]; exact (add_self_mod hc).symm)]
  simp [with_cursor_self]

/-! ## Server eligibility -/

/-- C1: for every upstream server reference `u`, `checkServer u` is true if and only if `u` is
non-null, `lastConnectTime` and `lastOnlineTime` are both present, and `lastConnectFailed`,
`isOffline` and `isManualDisable` are all false. -/
theorem checkServer_iff (u : UpstreamServerRef) :
    checkServer u = true ↔
      ∃ s, u = some s ∧ s.lastConnectTime.isSome = true ∧ s.lastOnlineTime.isSome = true ∧
        s.lastConnectFailed = false ∧ s.isOffline = false ∧ s.isManualDisable = false := by
  cases u with
  | none => simp [checkServer]
  | some s =>
    simp only [checkServer, Bool.and_eq_true, Bool.not_eq_true', Option.some.injEq,
      exists_eq_left']
    tauto

/-! ## Rule `loop` -/

/-- C2: under rule `loop`, with a non-empty pool of size `n` and the cursor `c < n`, the
selection is `getNextServer`; if some server is eligible it returns `pool[(c+k) mod n]` for the
least `k` in `1..n` whose server is eligible and sets the cursor to `(c+k) mod n`; if no server
is eligible it returns null and leaves the cursor equal to `c`. Fuel `n` is enough. -/
theorem getNextServer_loop_rule (p : UpstreamPool) (fuel : Nat) (now now2 : UpstreamTimePoint)
    (g : Nat)
    (hrule : p._configLoader.upstreamSelectRule = RuleEnum.loop)
    (hn : p._pool.length < 2 ^ 64)
    (hc : p.lastUseUpstreamIndex < p._pool.length)
    (hf : p._pool.length ≤ fuel) :
    getServerBasedOnAddress fuel now now2 g p = getNextServer fuel p ∧
    ((∃ i, i < p._pool.length ∧ checkServer (poolAt p._pool i) = true) →
      ∃ k, 1 ≤ k ∧ k ≤ p._pool.length ∧
        checkServer (poolAt p._pool ((p.lastUseUpstreamIndex + k) % p._pool.length)) = true ∧
        (∀ j, 1 ≤ j → j < k →
          checkServer (poolAt p._pool ((p.lastUseUpstreamIndex + j) % p._pool.length)) = false) ∧
        getNextServer fuel p =
          some (poolAt p._pool ((p.lastUseUpstreamIndex + k) % p._pool.length),
            { p with
              lastUseUpstreamIndex := (p.lastUseUpstreamIndex + k) % p._pool.length })) ∧
    ((∀ i, i < p._pool.length → checkServer (poolAt p._pool i) = false) →
      getNextServer fuel p = some (none, p)) := by
  refine ⟨?_, ?_, ?_⟩
  · simp [getServerBasedOnAddress, hrule]
  · intro hex
    obtain ⟨k, hk1, hkn, hfound, hleast⟩ :=
      exists_least_step (fun i => checkServer (poolAt p._pool i)) hc hex
    exact ⟨k, hk1, hkn, hfound, hleast,
      getNextServer_found p (le_of_lt hn) hc k fuel hk1 hkn (le_trans hkn hf) hleast hfound⟩
  · intro hnone
    exact getNextServer_none p (le_of_lt hn) hc fuel hf hnone

/-- Evaluation of C2: servers 0 and 2 eligible, server 1 offline, cursor 1; the call returns
the server `k` steps after the cursor for some `k` from 1 to 3 and moves the cursor there. -/
theorem getNextServer_loop_rule_witness :
    ∃ k, 1 ≤ k ∧ k ≤ 3 ∧
      getNextServer 3
          (poolOf RuleEnum.loop [some (srvUp 0), some (srvDown 1), some (srvUp 2)] 1) =
        some (poolAt [some (srvUp 0), some (srvDown 1), some (srvUp 2)] ((1 + k) % 3),
          poolOf RuleEnum.loop [some (srvUp 0), some (srvDown 1), some (srvUp 2)]
            ((1 + k) % 3)) := by
  obtain ⟨k, h1, h2, _, _, h⟩ := (getNextServer_loop_rule
    (poolOf RuleEnum.loop [some (srvUp 0), some (srvDown 1), some (srvUp 2)] 1) 3 0 0 0
    rfl (by decide) (by decide) (by decide)).2.1 ⟨0, by decide, by decide⟩
  exact ⟨k, h1, h2, h⟩

theorem getServerBasedOnAddress_loop (fuel : Nat) (now now2 : UpstreamTimePoint) (g : Nat)
    (p : UpstreamPool) (hrule : p._configLoader.upstreamSelectRule = RuleEnum.loop) :
    getServerBasedOnAddress fuel now now2 g p = getNextServer fuel p := by
  simp [getServerBasedOnAddress, hrule]

theorem selectCalls_cons {fuel : Nat} {now now2 : UpstreamTimePoint} {g k : Nat}
    {p p1 p2 : UpstreamPool} {s : UpstreamServerRef} {ss : List (UpstreamServerRef × Nat)}
    (h1 : getServerBasedOnAddress fuel now now2 g p = some (s, p1))
    (h2 : selectCalls fuel now now2 g k p1 = some (ss, p2)) :
    selectCalls fuel now now2 g (k + 1) p = some ((s, p1.lastUseUpstreamIndex) :: ss, p2) := by
  simp [selectCalls, h1, h2]

/-- C3: under rule `loop`, with a pool of `n >= 1` servers that are all eligible and the
cursor `c < n`, the `j`-th of consecutive select calls returns the server at index
`(c + j) mod n` (and leaves the cursor there). -/
theorem loop_all_eligible_calls (j : Nat) (fuel : Nat) (now now2 : UpstreamTimePoint) (g : Nat)
    (p : UpstreamPool)
    (hrule : p._configLoader.upstreamSelectRule = RuleEnum.loop)
    (hn : p._pool.length < 2 ^ 64)
    (hc : p.lastUseUpstreamIndex < p._pool.length)
    (hf : 1 ≤ fuel)
    (hall : ∀ i, i < p._pool.length → checkServer (poolAt p._pool i) = true) :
    selectCalls fuel now now2 g j p =
      some ((List.range j).map (fun t =>
          (poolAt p._pool ((p.lastUseUpstreamIndex + (t + 1)) % p._pool.length),
            (p.lastUseUpstreamIndex + (t + 1)) % p._pool.length)),
        { p with lastUseUpstreamIndex := (p.lastUseUpstreamIndex + j) % p._pool.length }) := by
  induction j generalizing p with
  | zero =>
    simp [selectCalls, Nat.mod_eq_of_lt hc, with_cursor_self]
  | succ j ih =>
    have hpos : 0 < p._pool.length := by omega
    have h1 : getServerBasedOnAddress fuel now now2 g p =
        some (poolAt p._pool ((p.lastUseUpstreamIndex + 1) % p._pool.length),
          { p with lastUseUpstreamIndex := (p.lastUseUpstreamIndex + 1) % p._pool.length }) := by
      rw [getServerBasedOnAddress_loop fuel now now2 g p hrule]
      exact getNextServer_found p (le_of_lt hn) hc 1 fuel (le_refl 1) hpos hf
        (fun j h1 h2 => by omega) (hall _ (Nat.mod_lt _ hpos))
    have h2 := ih
      { p with lastUseUpstreamIndex := (p.lastUseUpstreamIndex + 1) % p._pool.length }
      hrule hn (Nat.mod_lt _ hpos) hall
    rw [selectCalls_cons h1 h2, List.range_succ_eq_map]
    simp [add_succ_mod, Function.comp_def]
    refine ⟨fun a _ => ?_, ?_⟩
    · rw [show p.lastUseUpstreamIndex + 1 + (a + 1) = p.lastUseUpstreamIndex + (a + 1 + 1) by
        omega]
      exact ⟨rfl, rfl⟩
    · rw [show p.lastUseUpstreamIndex + 1 + j = p.lastUseUpstreamIndex + (j + 1) by omega]

/-- Evaluation of C3: three eligible servers, cursor 0, three calls return indices 1, 2, 0. -/
theorem loop_all_eligible_calls_witness :
    selectCalls 1 0 0 0 3
        (poolOf RuleEnum.loop [some (srvUp 0), some (srvUp 1), some (srvUp 2)] 0) =
      some ([(some (srvUp 1), 1), (some (srvUp 2), 2), (some (srvUp 0), 0)],
        poolOf RuleEnum.loop [some (srvUp 0), some (srvUp 1), some (srvUp 2)] 0) := by
  rw [loop_all_eligible_calls 3 1 0 0 0
    (poolOf RuleEnum.loop [some (srvUp 0), some (srvUp 1), some (srvUp 2)] 0)
    rfl (by decide) (by decide) (by decide) (by decide)]
  rfl

/-- One call under rule `loop` when some server is eligible: the least step `k` from the
cursor to an eligible server, the reference returned and the resulting state. -/
theorem loop_call_found (fuel : Nat) (now now2 : UpstreamTimePoint) (g : Nat) (p : UpstreamPool)
    (hrule : p._configLoader.upstreamSelectRule = RuleEnum.loop)
    (hn : p._pool.length < 2 ^ 64)
    (hc : p.lastUseUpstreamIndex < p._pool.length)
    (hf : p._pool.length ≤ fuel)
    (hex : ∃ i, i < p._pool.length ∧ checkServer (poolAt p._pool i) = true) :
    ∃ k, 1 ≤ k ∧ k ≤ p._pool.length ∧
      checkServer (poolAt p._pool ((p.lastUseUpstreamIndex + k) % p._pool.length)) = true ∧
      (∀ j, 1 ≤ j → j < k →
        checkServer (poolAt p._pool ((p.lastUseUpstreamIndex + j) % p._pool.length)) = false) ∧
      getServerBasedOnAddress fuel now now2 g p =
        some (poolAt p._pool ((p.lastUseUpstreamIndex + k) % p._pool.length),
          { p with lastUseUpstreamIndex := (p.lastUseUpstreamIndex + k) % p._pool.length }) := by
  obtain ⟨k, hk1, hkn, hfound, hleast⟩ :=
    exists_least_step (fun i => checkServer (poolAt p._pool i)) hc hex
  refine ⟨k, hk1, hkn, hfound, hleast, ?_⟩
  rw [getServerBasedOnAddress_loop fuel now now2 g p hrule]
  exact getNextServer_found p (le_of_lt hn) hc k fuel hk1 hkn (le_trans hkn hf) hleast hfound

/-- Under rule `loop` with the cursor in range, any number of consecutive calls return. -/
theorem loop_calls_total (fuel : Nat) (now now2 : UpstreamTimePoint) (g : Nat) :
    ∀ (m : Nat) (p : UpstreamPool),
      p._configLoader.upstreamSelectRule = RuleEnum.loop →
      p._pool.length < 2 ^ 64 →
      p.lastUseUpstreamIndex < p._pool.length →
      p._pool.length ≤ fuel →
      ∃ ss q, selectCalls fuel now now2 g m p = some (ss, q) := by
  intro m
  induction m with
  | zero => intro p _ _ _ _; exact ⟨[], p, rfl⟩
  | succ m ih =>
    intro p hrule hn hc hf
    by_cases hex : ∃ i, i < p._pool.length ∧ checkServer (poolAt p._pool i) = true
    · obtain ⟨k, _, _, _, _, hcall⟩ := loop_call_found fuel now now2 g p hrule hn hc hf hex
      obtain ⟨ss, q, hrest⟩ := ih
        { p with lastUseUpstreamIndex := (p.lastUseUpstreamIndex + k) % p._pool.length }
        hrule hn (Nat.mod_lt _ (by omega)) hf
      exact ⟨_, _, selectCalls_cons hcall hrest⟩
    · have hnone : ∀ i, i < p._pool.length → checkServer (poolAt p._pool i) = false := by
        intro i hi
        cases h : checkServer (poolAt p._pool i) with
        | false => rfl
        | true => exact absurd ⟨i, hi, h⟩ hex
      have hcall : getServerBasedOnAddress fuel now now2 g p = some (none, p) := by
        rw [getServerBasedOnAddress_loop fuel now now2 g p hrule]
        exact getNextServer_none p (le_of_lt hn) hc fuel hf hnone
      obtain ⟨ss, q, hrest⟩ := ih p hrule hn hc hf
      exact ⟨_, _, selectCalls_cons hcall hrest⟩

/-- Under rule `loop`, an eligible server `d` steps after the cursor is returned by one of the
next `d` calls. -/
theorem loop_calls_hit (fuel : Nat) (now now2 : UpstreamTimePoint) (g : Nat) (i : Nat) :
    ∀ (m d : Nat) (p : UpstreamPool),
      p._configLoader.upstreamSelectRule = RuleEnum.loop →
      p._pool.length < 2 ^ 64 →
      p.lastUseUpstreamIndex < p._pool.length →
      p._pool.length ≤ fuel →
      1 ≤ d → d ≤ m →
      (p.lastUseUpstreamIndex + d) % p._pool.length = i →
      checkServer (poolAt p._pool i) = true →
      ∃ ss q, selectCalls fuel now now2 g m p = some (ss, q) ∧ (poolAt p._pool i, i) ∈ ss := by
  intro m
  induction m with
  | zero => intro d p _ _ _ _ h1 h2; omega
  | succ m ih =>
    intro d p hrule hn hc hf hd1 hdm hdi hei
    have hpos : 0 < p._pool.length := by omega
    have hi : i < p._pool.length := by rw [← hdi]; exact Nat.mod_lt _ hpos
    obtain ⟨k, hk1, hkn, hfound, hleast, hcall⟩ :=
      loop_call_found fuel now now2 g p hrule hn hc hf ⟨i, hi, hei⟩
    have hkd : k ≤ d := by
      by_contra hlt
      have := hleast d hd1 (by omega)
      rw [hdi, hei] at this
      exact Bool.noConfusion this
    by_cases hkeq : k = d
    · obtain ⟨ss, q, hrest⟩ := loop_calls_total fuel now now2 g m
        { p with lastUseUpstreamIndex := (p.lastUseUpstreamIndex + k) % p._pool.length }
        hrule hn (Nat.mod_lt _ hpos) hf
      refine ⟨_, _, selectCalls_cons hcall hrest, ?_⟩
      rw [hkeq, hdi]
      exact List.mem_cons_self _ _
    · obtain ⟨ss, q, hrest, hmem⟩ := ih (d - k)
        { p with lastUseUpstreamIndex := (p.lastUseUpstreamIndex + k) % p._pool.length }
        hrule hn (Nat.mod_lt _ hpos) hf (by omega) (by omega)
        (by
          show ((p.lastUseUpstreamIndex + k) % p._pool.length + (d - k)) % p._pool.length = i
          rw [Nat.mod_add_mod, show p.lastUseUpstreamIndex + k + (d - k) =
            p.lastUseUpstreamIndex + d by omega, hdi])
        hei
      exact ⟨_, _, selectCalls_cons hcall hrest, List.mem_cons_of_mem _ hmem⟩

/-- When some position satisfies `e`, there is a first such position. -/
theorem exists_least_index (e : Nat → Bool) {n : Nat} (hex : ∃ i, i < n ∧ e i = true) :
    ∃ i, i < n ∧ e i = true ∧ ∀ j, j < i → e j = false := by
  obtain ⟨i0, hi0, hei0⟩ := hex
  have hP : ∃ i, e i = true := ⟨i0, hei0⟩
  refine ⟨Nat.find hP, lt_of_le_of_lt (Nat.find_min' hP hei0) hi0, Nat.find_spec hP, ?_⟩
  intro j hj
  cases hej : e j with
  | false => rfl
  | true => exact absurd hej (Nat.find_min hP hj)

/-- With a stale cursor (at or beyond the pool size) the first iteration of `getNextServer`
resets the cursor to `0`, and the call returns the first eligible server of the pool. -/
theorem getNextServer_stale_found (p : UpstreamPool) (hn : p._pool.length ≤ 2 ^ 64)
    (hc : p._pool.length ≤ p.lastUseUpstreamIndex) (hc64 : p.lastUseUpstreamIndex < 2 ^ 64)
    (i fuel : Nat) (hi : i < p._pool.length) (hf : i < fuel)
    (hskip : ∀ j, j < i → checkServer (poolAt p._pool j) = false)
    (hfound : checkServer (poolAt p._pool i) = true) :
    getNextServer fuel p = some (poolAt p._pool i, { p with lastUseUpstreamIndex := i }) := by
  have hne : p._pool.isEmpty = false := by
    cases hp : p._pool with
    | nil => rw [hp] at hi; simp at hi
    | cons a l => rfl
  have hpos : 0 < p._pool.length := by omega
  have hwrap : (if sizeIncr p.lastUseUpstreamIndex ≥ p._pool.length then 0
      else sizeIncr p.lastUseUpstreamIndex) = 0 := by
    unfold sizeIncr
    by_cases h : p.lastUseUpstreamIndex + 1 < 2 ^ 64
    · rw [Nat.mod_eq_of_lt h, if_pos (by omega)]
    · rw [show p.lastUseUpstreamIndex + 1 = 2 ^ 64 by omega, Nat.mod_self,
        if_neg (by omega)]
  obtain ⟨f, rfl⟩ : ∃ f, fuel = f + 1 := ⟨fuel - 1, by omega⟩
  unfold getNextServer
  rw [hne]
  simp only [getNextServerLoop, hwrap]
  by_cases hi0 : i = 0
  · subst hi0
    rw [if_pos hfound]
    rfl
  · rw [if_neg (show ¬ checkServer (poolAt p._pool 0) = true by simp [hskip 0 (by omega)]),
      if_neg (show ¬ p.lastUseUpstreamIndex = 0 by omega),
      getNextServerLoop_found p._pool p.lastUseUpstreamIndex hn i 0 f hpos (by omega)
        (by omega)
        (fun j h1 h2 => by
          rw [Nat.zero_add, Nat.mod_eq_of_lt (by omega)]
          exact ⟨hskip j h2, by omega⟩)
        (by rw [Nat.zero_add, Nat.mod_eq_of_lt hi]; exact hfound)]
    simp [Nat.mod_eq_of_lt hi]

/-- One call under rule `loop` when some server is eligible, for every cursor value of a
`size_t`: it returns an eligible server and leaves the cursor on its position. -/
theorem loop_call_returns_eligible (fuel : Nat) (now now2 : UpstreamTimePoint) (g : Nat)
    (p : UpstreamPool)
    (hrule : p._configLoader.upstreamSelectRule = RuleEnum.loop)
    (hn : p._pool.length < 2 ^ 64)
    (hc64 : p.lastUseUpstreamIndex < 2 ^ 64)
    (hf : p._pool.length ≤ fuel)
    (hex : ∃ i, i < p._pool.length ∧ checkServer (poolAt p._pool i) = true) :
    ∃ c1, c1 < p._pool.length ∧ checkServer (poolAt p._pool c1) = true ∧
      getServerBasedOnAddress fuel now now2 g p =
        some (poolAt p._pool c1, { p with lastUseUpstreamIndex := c1 }) := by
  by_cases hc : p.lastUseUpstreamIndex < p._pool.length
  · obtain ⟨k, _, _, hfound, _, hcall⟩ :=
      loop_call_found fuel now now2 g p hrule hn hc hf hex
    exact ⟨_, Nat.mod_lt _ (by omega), hfound, hcall⟩
  · obtain ⟨i, hi, hei, hleast⟩ :=
      exists_least_index (fun i => checkServer (poolAt p._pool i)) hex
    refine ⟨i, hi, hei, ?_⟩
    rw [getServerBasedOnAddress_loop fuel now now2 g p hrule]
    exact getNextServer_stale_found p (le_of_lt hn) (by omega) hc64 i fuel hi (by omega)
      hleast hei

/-- C4, as stated, fails: with a single eligible server (index 1 of three, cursor 0) two
consecutive select calls under rule `loop` return the same server, at the same index. -/
theorem loop_consecutive_same_server :
    selectCalls 3 0 0 0 2
        (poolOf RuleEnum.loop [some (srvDown 0), some (srvUp 1), some (srvDown 2)] 0) =
      some ([(some (srvUp 1), 1), (some (srvUp 1), 1)],
        poolOf RuleEnum.loop [some (srvDown 0), some (srvUp 1), some (srvDown 2)] 1) := by
  decide

/-- C4, amended: under rule `loop`, for every cursor value, with the servers' health unchanged
between the calls and at least two eligible servers in the pool, two consecutive select calls
return eligible servers at distinct pool positions `c1` and `c2` (distinct servers when the
pool has no duplicate entry); the cursor is left on the position of the server returned. -/
theorem loop_consecutive_distinct (fuel : Nat) (now now2 : UpstreamTimePoint) (g : Nat)
    (p : UpstreamPool) (i1 i2 : Nat)
    (hrule : p._configLoader.upstreamSelectRule = RuleEnum.loop)
    (hn : p._pool.length < 2 ^ 64)
    (hc64 : p.lastUseUpstreamIndex < 2 ^ 64)
    (hf : p._pool.length ≤ fuel)
    (hi1 : i1 < p._pool.length) (hi2 : i2 < p._pool.length) (hne : i1 ≠ i2)
    (he1 : checkServer (poolAt p._pool i1) = true)
    (he2 : checkServer (poolAt p._pool i2) = true) :
    ∃ c1 c2, c1 < p._pool.length ∧ c2 < p._pool.length ∧ c1 ≠ c2 ∧
      checkServer (poolAt p._pool c1) = true ∧ checkServer (poolAt p._pool c2) = true ∧
      (p._pool.Nodup → poolAt p._pool c1 ≠ poolAt p._pool c2) ∧
      selectCalls fuel now now2 g 2 p =
        some ([(poolAt p._pool c1, c1), (poolAt p._pool c2, c2)],
          { p with lastUseUpstreamIndex := c2 }) := by
  have hpos : 0 < p._pool.length := by omega
  obtain ⟨c1, hc1, hfound1, hcall1⟩ :=
    loop_call_returns_eligible fuel now now2 g p hrule hn hc64 hf ⟨i1, hi1, he1⟩
  obtain ⟨k2, hk21, hk2n, hfound2, hleast2, hcall2⟩ :=
    loop_call_found fuel now now2 g { p with lastUseUpstreamIndex := c1 }
      hrule hn hc1 hf ⟨i1, hi1, he1⟩
  -- an eligible position other than the one just returned
  obtain ⟨i, hi, hic, hei⟩ : ∃ i, i < p._pool.length ∧ i ≠ c1 ∧
      checkServer (poolAt p._pool i) = true := by
    by_cases h : i1 = c1
    · exact ⟨i2, hi2, fun h2 => hne (h.trans h2.symm), he2⟩
    · exact ⟨i1, hi1, h, he1⟩
  obtain ⟨d, hd1, _, hdi, hdn⟩ := exists_step_to hc1 hi
  have hk2lt : k2 < p._pool.length := by
    by_contra hge
    have := hleast2 d hd1 (by have := hdn hic; omega)
    simp only at this
    rw [hdi, hei] at this
    exact Bool.noConfusion this
  have hc12 : c1 ≠ (c1 + k2) % p._pool.length :=
    fun h => add_mod_ne_self hc1 hk21 hk2lt h.symm
  refine ⟨c1, (c1 + k2) % p._pool.length, hc1, Nat.mod_lt _ hpos, hc12, hfound1, hfound2,
    ?_, ?_⟩
  · intro hnd heq
    unfold poolAt at heq
    rw [List.getD_eq_getElem _ _ hc1, List.getD_eq_getElem _ _ (Nat.mod_lt _ hpos)] at heq
    exact hc12 (hnd.getElem_inj_iff.1 heq)
  · exact selectCalls_cons hcall1 (selectCalls_cons hcall2 rfl)

/-- Evaluation of the amended C4: servers 0 and 2 eligible, cursor 0. -/
theorem loop_consecutive_distinct_witness :
    ∃ c1 c2, c1 < 3 ∧ c2 < 3 ∧ c1 ≠ c2 ∧
      selectCalls 3 0 0 0 2
          (poolOf RuleEnum.loop [some (srvUp 0), some (srvDown 1), some (srvUp 2)] 0) =
        some ([(poolAt [some (srvUp 0), some (srvDown 1), some (srvUp 2)] c1, c1),
            (poolAt [some (srvUp 0), some (srvDown 1), some (srvUp 2)] c2, c2)],
          poolOf RuleEnum.loop [some (srvUp 0), some (srvDown 1), some (srvUp 2)] c2) := by
  obtain ⟨c1, c2, h1, h2, h12, _, _, _, h⟩ := loop_consecutive_distinct 3 0 0 0
    (poolOf RuleEnum.loop [some (srvUp 0), some (srvDown 1), some (srvUp 2)] 0) 0 2
    rfl (by decide) (by decide) (by decide) (by decide) (by decide) (by decide)
    (by decide) (by decide)
  exact ⟨c1, c2, h1, h2, h12, h⟩

/-- C5: under rule `loop`, with a non-empty pool of size `n`, the cursor in range and the
servers' health fixed, `n` consecutive select calls all return, and every eligible server of
the pool is returned (with the cursor left on its position) by at least one of them. -/
theorem loop_full_rotation_visits_eligible (fuel : Nat) (now now2 : UpstreamTimePoint)
    (g : Nat) (p : UpstreamPool)
    (hrule : p._configLoader.upstreamSelectRule = RuleEnum.loop)
    (hn : p._pool.length < 2 ^ 64)
    (hc : p.lastUseUpstreamIndex < p._pool.length)
    (hf : p._pool.length ≤ fuel) :
    ∃ ss q, selectCalls fuel now now2 g p._pool.length p = some (ss, q) ∧
      ∀ i, i < p._pool.length → checkServer (poolAt p._pool i) = true →
        (poolAt p._pool i, i) ∈ ss := by
  obtain ⟨ss, q, hcalls⟩ := loop_calls_total fuel now now2 g p._pool.length p hrule hn hc hf
  refine ⟨ss, q, hcalls, ?_⟩
  intro i hi hei
  obtain ⟨d, hd1, hdn, hdi, _⟩ := exists_step_to hc hi
  obtain ⟨ss1, q1, hcalls1, hmem⟩ :=
    loop_calls_hit fuel now now2 g i p._pool.length d p hrule hn hc hf hd1 hdn hdi hei
  rw [hcalls] at hcalls1
  cases hcalls1
  exact hmem

/-- Evaluation of C5: servers 0 and 2 eligible, cursor 1, three calls. -/
theorem loop_full_rotation_visits_eligible_witness :
    ∃ ss q,
      selectCalls 3 0 0 0 3
          (poolOf RuleEnum.loop [some (srvUp 0), some (srvDown 1), some (srvUp 2)] 1) =
        some (ss, q) ∧
      (some (srvUp 0), 0) ∈ ss ∧ (some (srvUp 2), 2) ∈ ss := by
  obtain ⟨ss, q, h, hall⟩ := loop_full_rotation_visits_eligible 3 0 0 0
    (poolOf RuleEnum.loop [some (srvUp 0), some (srvDown 1), some (srvUp 2)] 1)
    rfl (by decide) (by decide) (by decide)
  exact ⟨ss, q, h, hall 0 (by decide) (by decide), hall 2 (by decide) (by decide)⟩

/-! ## Rule `one_by_one` -/

theorem getServerBasedOnAddress_one_by_one (fuel : Nat) (now now2 : UpstreamTimePoint) (g : Nat)
    (p : UpstreamPool) (hrule : p._configLoader.upstreamSelectRule = RuleEnum.one_by_one) :
    getServerBasedOnAddress fuel now now2 g p = tryGetLastServer fuel p := by
  simp [getServerBasedOnAddress, hrule]

/-- With the cursor on an eligible server, `tryGetLastServer` returns it and changes nothing. -/
theorem tryGetLastServer_here (p : UpstreamPool) (hn : p._pool.length ≤ 2 ^ 64)
    (hc : p.lastUseUpstreamIndex < p._pool.length) (fuel : Nat) (hf : 1 ≤ fuel)
    (he : checkServer (poolAt p._pool p.lastUseUpstreamIndex) = true) :
    tryGetLastServer fuel p = some (poolAt p._pool p.lastUseUpstreamIndex, p) := by
  have h := tryGetLastServer_found p hn hc 0 fuel (by omega) hf (fun j hj => by omega)
    (by rw [Nat.add_zero, Nat.mod_eq_of_lt hc]; exact he)
  rw [h, Nat.add_zero, Nat.mod_eq_of_lt hc, with_cursor_self]

/-- With the cursor on a server that is not eligible and some server eligible,
`tryGetLastServer` returns the first eligible server after the cursor, fewer than `n` steps
away, and moves the cursor there. -/
theorem tryGetLastServer_ahead (p : UpstreamPool) (hn : p._pool.length ≤ 2 ^ 64)
    (hc : p.lastUseUpstreamIndex < p._pool.length) (fuel : Nat) (hf : p._pool.length ≤ fuel)
    (he : checkServer (poolAt p._pool p.lastUseUpstreamIndex) = false)
    (hex : ∃ i, i < p._pool.length ∧ checkServer (poolAt p._pool i) = true) :
    ∃ k, 1 ≤ k ∧ k ≤ p._pool.length - 1 ∧
      checkServer (poolAt p._pool ((p.lastUseUpstreamIndex + k) % p._pool.length)) = true ∧
      (∀ j, 1 ≤ j → j < k →
        checkServer (poolAt p._pool ((p.lastUseUpstreamIndex + j) % p._pool.length)) = false) ∧
      tryGetLastServer fuel p =
        some (poolAt p._pool ((p.lastUseUpstreamIndex + k) % p._pool.length),
          { p with lastUseUpstreamIndex := (p.lastUseUpstreamIndex + k) % p._pool.length }) := by
  obtain ⟨k, hk1, hkn, hfound, hleast⟩ :=
    exists_least_step (fun i => checkServer (poolAt p._pool i)) hc hex
  have hkne : k ≠ p._pool.length := by
    intro h
    rw [h] at hfound
    simp only [add_self_mod hc] at hfound
    rw [he] at hfound
    exact Bool.noConfusion hfound
  refine ⟨k, hk1, by omega, hfound, hleast, ?_⟩
  refine tryGetLastServer_found p hn hc k fuel (by omega) (by omega) ?_ hfound
  intro j hj
  by_cases hj0 : j = 0
  · rw [hj0, Nat.add_zero, Nat.mod_eq_of_lt hc]; exact he
  · exact hleast j (by omega) hj

/-- C6: under rule `one_by_one`, with a non-empty pool of size `n` and the cursor `c < n`, the
selection is `tryGetLastServer`; if `pool[c]` is eligible it returns `pool[c]` and leaves the
cursor at `c`; otherwise it returns `pool[(c+k) mod n]` for the least `k` in `1..n-1` whose
server is eligible and sets the cursor there, or returns null with the cursor back at `c` when
no server is eligible. A second call with unchanged health returns the same reference and
does not move the cursor. Fuel `n` is enough. -/
theorem tryGetLastServer_one_by_one_rule (p : UpstreamPool) (fuel : Nat)
    (now now2 : UpstreamTimePoint) (g : Nat)
    (hrule : p._configLoader.upstreamSelectRule = RuleEnum.one_by_one)
    (hn : p._pool.length < 2 ^ 64)
    (hc : p.lastUseUpstreamIndex < p._pool.length)
    (hf : p._pool.length ≤ fuel) :
    getServerBasedOnAddress fuel now now2 g p = tryGetLastServer fuel p ∧
    (checkServer (poolAt p._pool p.lastUseUpstreamIndex) = true →
      tryGetLastServer fuel p = some (poolAt p._pool p.lastUseUpstreamIndex, p)) ∧
    (checkServer (poolAt p._pool p.lastUseUpstreamIndex) = false →
      (∃ i, i < p._pool.length ∧ checkServer (poolAt p._pool i) = true) →
      ∃ k, 1 ≤ k ∧ k ≤ p._pool.length - 1 ∧
        checkServer (poolAt p._pool ((p.lastUseUpstreamIndex + k) % p._pool.length)) = true ∧
        (∀ j, 1 ≤ j → j < k →
          checkServer (poolAt p._pool ((p.lastUseUpstreamIndex + j) % p._pool.length)) = false) ∧
        tryGetLastServer fuel p =
          some (poolAt p._pool ((p.lastUseUpstreamIndex + k) % p._pool.length),
            { p with
              lastUseUpstreamIndex := (p.lastUseUpstreamIndex + k) % p._pool.length })) ∧
    ((∀ i, i < p._pool.length → checkServer (poolAt p._pool i) = false) →
      tryGetLastServer fuel p = some (none, p)) ∧
    (∃ s q, getServerBasedOnAddress fuel now now2 g p = some (s, q) ∧
      getServerBasedOnAddress fuel now now2 g q = some (s, q)) := by
  have hpos : 0 < p._pool.length := by omega
  have hn1 := le_of_lt hn
  refine ⟨getServerBasedOnAddress_one_by_one fuel now now2 g p hrule,
    fun he => tryGetLastServer_here p hn1 hc fuel (by omega) he,
    fun he hex => tryGetLastServer_ahead p hn1 hc fuel hf he hex,
    fun hnone => tryGetLastServer_none p hn1 hc fuel hf hnone, ?_⟩
  rw [getServerBasedOnAddress_one_by_one fuel now now2 g p hrule]
  by_cases he : checkServer (poolAt p._pool p.lastUseUpstreamIndex) = true
  · refine ⟨_, p, tryGetLastServer_here p hn1 hc fuel (by omega) he, ?_⟩
    rw [getServerBasedOnAddress_one_by_one fuel now now2 g p hrule]
    exact tryGetLastServer_here p hn1 hc fuel (by omega) he
  · have he0 : checkServer (poolAt p._pool p.lastUseUpstreamIndex) = false := by
      simpa using he
    by_cases hex : ∃ i, i < p._pool.length ∧ checkServer (poolAt p._pool i) = true
    · obtain ⟨k, _, _, hfound, _, hcall⟩ := tryGetLastServer_ahead p hn1 hc fuel hf he0 hex
      refine ⟨_, _, hcall, ?_⟩
      rw [getServerBasedOnAddress_one_by_one fuel now now2 g
        { p with lastUseUpstreamIndex := (p.lastUseUpstreamIndex + k) % p._pool.length } hrule]
      exact tryGetLastServer_here
        { p with lastUseUpstreamIndex := (p.lastUseUpstreamIndex + k) % p._pool.length }
        hn1 (Nat.mod_lt _ hpos) fuel (by omega) hfound
    · have hnone : ∀ i, i < p._pool.length → checkServer (poolAt p._pool i) = false := by
        intro i hi
        cases h : checkServer (poolAt p._pool i) with
        | false => rfl
        | true => exact absurd ⟨i, hi, h⟩ hex
      refine ⟨_, p, tryGetLastServer_none p hn1 hc fuel hf hnone, ?_⟩
      rw [getServerBasedOnAddress_one_by_one fuel now now2 g p hrule]
      exact tryGetLastServer_none p hn1 hc fuel hf hnone

/-- Evaluation of C6: cursor 2 on an offline server, server 1 the only eligible one; the
first call moves the cursor to 1, the second returns the same server and leaves it there. -/
theorem tryGetLastServer_one_by_one_rule_witness :
    ∃ s q,
      getServerBasedOnAddress 3 0 0 0
          (poolOf RuleEnum.one_by_one [some (srvDown 0), some (srvUp 1), some (srvDown 2)] 2) =
        some (s, q) ∧
      getServerBasedOnAddress 3 0 0 0 q = some (s, q) :=
  (tryGetLastServer_one_by_one_rule
    (poolOf RuleEnum.one_by_one [some (srvDown 0), some (srvUp 1), some (srvDown 2)] 2)
    3 0 0 0 rfl (by decide) (by decide) (by decide)).2.2.2.2

/-! ## Rule `change_by_time` -/

/-- C7: under rule `change_by_time`, for every pool, cursor, fuel and clock reading `now`: if
`now - lastChangeUpstreamTime > serverChangeTime` the call returns exactly when
`getNextServer` (rule `loop`) does, with the same reference and cursor, and
`lastChangeUpstreamTime` becomes the clock reading `now2` taken after it; otherwise the call
is `tryGetLastServer` (rule `one_by_one`) and `lastChangeUpstreamTime` is unchanged. -/
theorem change_by_time_rule (p : UpstreamPool) (fuel : Nat) (now now2 : UpstreamTimePoint)
    (g : Nat)
    (hrule : p._configLoader.upstreamSelectRule = RuleEnum.change_by_time) :
    (now - p.lastChangeUpstreamTime > p._configLoader.serverChangeTime →
      getServerBasedOnAddress fuel now now2 g p =
          (getNextServer fuel p).map
            (fun r => (r.1, { r.2 with lastChangeUpstreamTime := now2 })) ∧
        ∀ s q, getServerBasedOnAddress fuel now now2 g p = some (s, q) →
          q.lastChangeUpstreamTime = now2 ∧
          ∃ q1, getNextServer fuel p = some (s, q1) ∧
            q.lastUseUpstreamIndex = q1.lastUseUpstreamIndex) ∧
    (¬ now - p.lastChangeUpstreamTime > p._configLoader.serverChangeTime →
      getServerBasedOnAddress fuel now now2 g p = tryGetLastServer fuel p ∧
        ∀ s q, getServerBasedOnAddress fuel now now2 g p = some (s, q) →
          q.lastChangeUpstreamTime = p.lastChangeUpstreamTime) := by
  constructor
  · intro hgt
    have heq : getServerBasedOnAddress fuel now now2 g p =
        (getNextServer fuel p).map
          (fun r => (r.1, { r.2 with lastChangeUpstreamTime := now2 })) := by
      simp [getServerBasedOnAddress, hrule, hgt]
    refine ⟨heq, ?_⟩
    intro s q h
    rw [heq] at h
    cases hnext : getNextServer fuel p with
    | none => rw [hnext] at h; cases h
    | some r =>
      rw [hnext] at h
      cases h
      exact ⟨rfl, r.2, rfl, rfl⟩
  · intro hle
    have heq : getServerBasedOnAddress fuel now now2 g p = tryGetLastServer fuel p := by
      simp [getServerBasedOnAddress, hrule, hle]
    refine ⟨heq, ?_⟩
    intro s q h
    rw [heq] at h
    unfold tryGetLastServer at h
    split at h
    · cases h; rfl
    · cases hloop : tryGetLastServerLoop p._pool p.lastUseUpstreamIndex fuel
          p.lastUseUpstreamIndex with
      | none => rw [hloop] at h; cases h
      | some r => rw [hloop] at h; cases h; rfl

/-- Evaluation of C7 past the change time: servers 0 and 2 eligible, cursor 0, last change at
time 0, `serverChangeTime` 60 and the clock at 100, then 101. -/
theorem change_by_time_rule_witness :
    getServerBasedOnAddress 3 100 101 0
        (poolOf RuleEnum.change_by_time [some (srvUp 0), some (srvDown 1), some (srvUp 2)] 0) =
      some (some (srvUp 2),
        { poolOf RuleEnum.change_by_time [some (srvUp 0), some (srvDown 1), some (srvUp 2)] 2
          with lastChangeUpstreamTime := 101 }) := by
  rw [((change_by_time_rule
    (poolOf RuleEnum.change_by_time [some (srvUp 0), some (srvDown 1), some (srvUp 2)] 0)
    3 100 101 0 rfl).1 (by decide)).1]
  decide

/-! ## Rule `random` -/

/-- C8: under rule `random`, for every pool and every output `g` of the generator, the call
returns and leaves the pool state, cursor included, unchanged; it returns null if and only
if no server of the pool is eligible; otherwise the reference returned is the element at the
drawn index, which is below the number `k` of eligible servers, of the eligible servers
listed in pool order, hence an eligible member of the pool; and every index below `k` is
drawn for some `g`. -/
theorem random_rule (p : UpstreamPool) (fuel : Nat) (now now2 : UpstreamTimePoint) (g : Nat)
    (hrule : p._configLoader.upstreamSelectRule = RuleEnum.random) :
    ∃ s, getServerBasedOnAddress fuel now now2 g p = some (s, p) ∧
      (s = none ↔ ∀ u, u ∈ p._pool → checkServer u = false) ∧
      (s ≠ none →
        uniformIntDistribution 0 ((p._pool.filter checkServer).length - 1) g
            < (p._pool.filter checkServer).length ∧
          (p._pool.filter checkServer)[uniformIntDistribution 0
            ((p._pool.filter checkServer).length - 1) g]? = some s ∧
          s ∈ p._pool ∧ checkServer s = true) ∧
      (∀ i, i < (p._pool.filter checkServer).length →
        ∃ g1, uniformIntDistribution 0 ((p._pool.filter checkServer).length - 1) g1 = i) := by
  have hsurj : ∀ i, i < (p._pool.filter checkServer).length →
      ∃ g1, uniformIntDistribution 0 ((p._pool.filter checkServer).length - 1) g1 = i := by
    intro i hi
    refine ⟨i, ?_⟩
    unfold uniformIntDistribution
    rw [Nat.zero_add, Nat.sub_zero, Nat.mod_eq_of_lt (by omega)]
  cases hrs : p._pool.filter checkServer with
  | nil =>
    refine ⟨none, ?_, ?_, fun h => absurd rfl h, by rw [← hrs]; exact hsurj⟩
    · simp [getServerBasedOnAddress, hrule, filterValidServer, hrs]
    · simp only [true_iff]
      intro u hu
      cases h : checkServer u with
      | false => rfl
      | true =>
        have : u ∈ p._pool.filter checkServer := List.mem_filter.2 ⟨hu, h⟩
        rw [hrs] at this
        cases this
  | cons a l =>
    have hlt : uniformIntDistribution 0 ((a :: l).length - 1) g < (a :: l).length := by
      unfold uniformIntDistribution
      have := Nat.mod_lt g (show 0 < (a :: l).length - 1 - 0 + 1 by omega)
      simp only [List.length_cons] at this ⊢
      omega
    have hmem : (a :: l)[uniformIntDistribution 0 ((a :: l).length - 1) g] ∈
        p._pool.filter checkServer := by
      rw [hrs]
      exact List.getElem_mem _
    have hmem2 := List.mem_filter.1 hmem
    have hsome : (a :: l)[uniformIntDistribution 0 ((a :: l).length - 1) g] ≠ none := by
      intro h
      have h2 := hmem2.2
      rw [h] at h2
      exact Bool.noConfusion h2
    refine ⟨(a :: l)[uniformIntDistribution 0 ((a :: l).length - 1) g], ?_, ?_, ?_,
      by rw [← hrs]; exact hsurj⟩
    · simp only [getServerBasedOnAddress, hrule, filterValidServer, hrs]
      rw [List.getD_eq_getElem _ _ hlt]
      rfl
    · constructor
      · intro h; exact absurd h hsome
      · intro h
        have h2 := hmem2.2
        rw [h _ hmem2.1] at h2
        exact Bool.noConfusion h2
    · intro _
      exact ⟨hlt, List.getElem?_eq_getElem hlt, hmem2.1, hmem2.2⟩

/-- Evaluation of C8: servers 0 and 2 eligible, generator output 5; the call returns a
non-null reference and the pool state, with the cursor at 1, is unchanged. -/
theorem random_rule_witness :
    ∃ s,
      getServerBasedOnAddress 0 0 0 5
          (poolOf RuleEnum.random [some (srvUp 0), some (srvDown 1), some (srvUp 2)] 1) =
        some (s, poolOf RuleEnum.random [some (srvUp 0), some (srvDown 1), some (srvUp 2)] 1) ∧
      s ≠ none := by
  obtain ⟨s, h, hnone, _, _⟩ := random_rule
    (poolOf RuleEnum.random [some (srvUp 0), some (srvDown 1), some (srvUp 2)] 1) 0 0 0 5 rfl
  refine ⟨s, h, fun hs => ?_⟩
  have h0 := hnone.1 hs (some (srvUp 0)) (by decide)
  exact absurd h0 (by decide)

/-! ## Empty pool -/

/-- C9: for every selection rule, every cursor value and every fuel, select on an empty pool
returns null (and leaves the pool empty and the cursor where it was). -/
theorem empty_pool_returns_none (p : UpstreamPool) (fuel : Nat)
    (now now2 : UpstreamTimePoint) (g : Nat) (hempty : p._pool = []) :
    ∃ q, getServerBasedOnAddress fuel now now2 g p = some (none, q) ∧
      q._pool = [] ∧ q.lastUseUpstreamIndex = p.lastUseUpstreamIndex := by
  cases hrule : p._configLoader.upstreamSelectRule with
  | loop =>
    exact ⟨p, by simp [getServerBasedOnAddress, hrule, getNextServer, hempty], hempty, rfl⟩
  | one_by_one =>
    exact ⟨p, by simp [getServerBasedOnAddress, hrule, tryGetLastServer, hempty], hempty, rfl⟩
  | change_by_time =>
    by_cases hgt : now - p.lastChangeUpstreamTime > p._configLoader.serverChangeTime
    · exact ⟨{ p with lastChangeUpstreamTime := now2 },
        by simp [getServerBasedOnAddress, hrule, getNextServer, hempty, hgt], hempty, rfl⟩
    · exact ⟨p, by
        simp only [getServerBasedOnAddress, hrule, tryGetLastServer, hempty, hgt]
        simp, hempty, rfl⟩
  | random =>
    exact ⟨p, by simp [getServerBasedOnAddress, hrule, filterValidServer, hempty], hempty, rfl⟩

/-- Evaluation of C9: an empty pool under rule `change_by_time` with a stale cursor. -/
theorem empty_pool_returns_none_witness :
    ∃ q, getServerBasedOnAddress 0 100 101 0 (poolOf RuleEnum.change_by_time [] 7) =
        some (none, q) ∧
      q._pool = [] ∧ q.lastUseUpstreamIndex = 7 :=
  empty_pool_returns_none (poolOf RuleEnum.change_by_time [] 7) 0 100 101 0 rfl

/-! ## `setConfig` -/

/-- C10, as stated, fails: `setConfig` on a pool whose cursor is 2 leaves the cursor at 2, not
at 0 (and the new pool has a single server, so the cursor is out of range). -/
theorem setConfig_cursor_not_reset :
    (setConfig sampleConstructor cfgOne
        (poolOf RuleEnum.loop [some (srvUp 0), some (srvUp 1), some (srvUp 2)] 2)
      ).lastUseUpstreamIndex = 2 ∧
    (setConfig sampleConstructor cfgOne
        (poolOf RuleEnum.loop [some (srvUp 0), some (srvUp 1), some (srvUp 2)] 2)
      )._pool.length = 1 ∧
    ¬ ((setConfig sampleConstructor cfgOne
          (poolOf RuleEnum.loop [some (srvUp 0), some (srvUp 1), some (srvUp 2)] 2)
        ).lastUseUpstreamIndex = 0 ∧
      (setConfig sampleConstructor cfgOne
          (poolOf RuleEnum.loop [some (srvUp 0), some (srvUp 1), some (srvUp 2)] 2)
        ).lastChangeUpstreamTime =
        (poolOf RuleEnum.loop [some (srvUp 0), some (srvUp 1), some (srvUp 2)] 2
          ).lastChangeUpstreamTime) := by
  decide

theorem buildPool_length (mk : Nat → String → String → Nat → Bool → UpstreamServer) :
    ∀ (l : List Upstream) (i : Nat), (buildPool mk i l).length = l.length := by
  intro l
  induction l with
  | nil => intro i; rfl
  | cons r rest ih => intro i; simp [buildPool, ih]

/-- C10, amended: for every pool state, every configuration and every constructor of
`UpstreamServer`, after `setConfig` the cursor `lastUseUpstreamIndex` and
`lastChangeUpstreamTime` both have the values they had before the call; the configuration is
the new one and the pool has one server per configured upstream. -/
theorem setConfig_preserves_cursor_and_time
    (mk : Nat → String → String → Nat → Bool → UpstreamServer) (c : Config) (p : UpstreamPool) :
    (setConfig mk c p).lastUseUpstreamIndex = p.lastUseUpstreamIndex ∧
      (setConfig mk c p).lastChangeUpstreamTime = p.lastChangeUpstreamTime ∧
      (setConfig mk c p)._configLoader = c ∧
      (setConfig mk c p)._pool.length = c.upstream.length :=
  ⟨rfl, rfl, rfl, buildPool_length mk c.upstream 0⟩

/-! ## Health checker: probe callbacks -/

/-- C11: for every server state, the success callback of the TCP probe (in the full cycle and
in the single-server check) yields `isOffline = false`, `lastOnlineTime = now`, and
`lastConnectFailed = false` if the server was offline before, otherwise `lastConnectFailed`
unchanged, and changes no other field; the failure callback yields `isOffline = true` and
leaves `lastOnlineTime` and every other field unchanged. -/
theorem tcp_probe_callbacks (now : UpstreamTimePoint) (reason : String) (a : UpstreamServer) :
    (do_tcpCheckerTimer_impl_onOk now a).isOffline = false ∧
    (do_tcpCheckerTimer_impl_onOk now a).lastOnlineTime = some now ∧
    (a.isOffline = true → (do_tcpCheckerTimer_impl_onOk now a).lastConnectFailed = false) ∧
    (a.isOffline = false →
      (do_tcpCheckerTimer_impl_onOk now a).lastConnectFailed = a.lastConnectFailed) ∧
    do_tcpCheckerTimer_impl_onOk now a =
      { a with
        isOffline := false, lastOnlineTime := some now,
        lastConnectFailed := (do_tcpCheckerTimer_impl_onOk now a).lastConnectFailed } ∧
    do_tcpCheckerOne_impl_onOk now a = do_tcpCheckerTimer_impl_onOk now a ∧
    (do_tcpCheckerTimer_impl_onErr reason a).isOffline = true ∧
    (do_tcpCheckerTimer_impl_onErr reason a).lastOnlineTime = a.lastOnlineTime ∧
    (do_tcpCheckerTimer_impl_onErr reason a).lastConnectFailed = a.lastConnectFailed ∧
    do_tcpCheckerTimer_impl_onErr reason a = { a with isOffline := true } ∧
    do_tcpCheckerOne_impl_onErr reason a = do_tcpCheckerTimer_impl_onErr reason a := by
  refine ⟨rfl, rfl, ?_, ?_, ?_, rfl, rfl, rfl, rfl, rfl, rfl⟩
  · intro h
    simp [do_tcpCheckerTimer_impl_onOk, h]
  · intro h
    simp [do_tcpCheckerTimer_impl_onOk, h]
  · cases h : a.isOffline <;> simp [do_tcpCheckerTimer_impl_onOk, h]

/-- C12: for every server state and observed HTTP status `n`, the success callback of the
end-to-end probe (in the full cycle and in the single-server check) yields
`lastConnectTime = now`, `lastConnectFailed = false` and `lastConnectCheckResult` equal to
`status_code:` followed by the decimal digits of `n`, and changes no other field; the failure
callback sets `lastConnectFailed = true` and leaves `lastConnectTime`,
`lastConnectCheckResult` and every other field unchanged. -/
theorem connect_probe_callbacks (now : UpstreamTimePoint) (n : Nat) (reason : String)
    (a : UpstreamServer) :
    (do_connectCheckerTimer_impl_onOk now n a).lastConnectTime = some now ∧
    (do_connectCheckerTimer_impl_onOk now n a).lastConnectFailed = false ∧
    (do_connectCheckerTimer_impl_onOk now n a).lastConnectCheckResult =
      "status_code:" ++ String.mk (Nat.toDigits 10 n) ∧
    do_connectCheckerTimer_impl_onOk now n a =
      { a with
        lastConnectTime := some now, lastConnectFailed := false,
        lastConnectCheckResult := "status_code:" ++ String.mk (Nat.toDigits 10 n) } ∧
    (do_connectCheckerTimer_impl_onOk now 200 a).lastConnectCheckResult = "status_code:200" ∧
    do_connectCheckerOne_impl_onOk now n a = do_connectCheckerTimer_impl_onOk now n a ∧
    (do_connectCheckerTimer_impl_onErr reason a).lastConnectFailed = true ∧
    (do_connectCheckerTimer_impl_onErr reason a).lastConnectTime = a.lastConnectTime ∧
    (do_connectCheckerTimer_impl_onErr reason a).lastConnectCheckResult =
      a.lastConnectCheckResult ∧
    do_connectCheckerTimer_impl_onErr reason a = { a with lastConnectFailed := true } ∧
    do_connectCheckerOne_impl_onErr reason a = do_connectCheckerTimer_impl_onErr reason a := by
  refine ⟨rfl, rfl, rfl, rfl, ?_, rfl, rfl, rfl, rfl, rfl, rfl⟩
  show "status_code:" ++ toString 200 = "status_code:200"
  decide

/-! ## Health checker: which probes a cycle starts -/

theorem poolAt_eq_some_iff (l : List UpstreamServerRef) (j : Nat) (a : UpstreamServer) :
    poolAt l j = some a ↔ l[j]? = some (some a) := by
  unfold poolAt
  rw [List.getD_eq_getElem?_getD]
  cases h : l[j]? with
  | none => simp
  | some x => simp

/-- The loop of `do_tcpCheckerTimer_impl` constructs no end-to-end session; every probe it
starts is the TCP test of an entry whose `isManualDisable` is false; it returns exactly when
the entries it visits are not null, and then every entry whose `isManualDisable` is false has
its TCP test started. -/
theorem do_tcpCheckerTimer_implFrom_spec :
    ∀ (l : List UpstreamServerRef) (i : Nat),
      (do_tcpCheckerTimer_implFrom i l).created = [] ∧
      (∀ pr, pr ∈ (do_tcpCheckerTimer_implFrom i l).probes →
        ∃ j a, l[j]? = some (some a) ∧ a.isManualDisable = false ∧
          pr = ProbeStart.tcp { server := i + j, host := a.host, port := toString a.port }) ∧
      ((do_tcpCheckerTimer_implFrom i l).undefined = false ↔ ∀ u, u ∈ l → u ≠ none) ∧
      ((∀ u, u ∈ l → u ≠ none) → ∀ j a, l[j]? = some (some a) → a.isManualDisable = false →
        ProbeStart.tcp { server := i + j, host := a.host, port := toString a.port } ∈
          (do_tcpCheckerTimer_implFrom i l).probes) := by
  intro l
  induction l with
  | nil =>
    intro i
    simp [do_tcpCheckerTimer_implFrom, CheckRun.nothing]
  | cons u rest ih =>
    intro i
    obtain ⟨hc, hsound, hdef, hcover⟩ := ih (i + 1)
    cases u with
    | none =>
      refine ⟨rfl, fun pr hpr => ?_, ?_, fun hnn => ?_⟩
      · simp [do_tcpCheckerTimer_implFrom, CheckRun.undefinedBehaviour] at hpr
      · simp [do_tcpCheckerTimer_implFrom, CheckRun.undefinedBehaviour]
      · exact absurd rfl (hnn none (List.mem_cons_self _ _))
    | some a0 =>
      cases hd : a0.isManualDisable with
      | true =>
        have hrw : do_tcpCheckerTimer_implFrom i (some a0 :: rest) =
            do_tcpCheckerTimer_implFrom (i + 1) rest := by
          simp [do_tcpCheckerTimer_implFrom, hd]
        rw [hrw]
        refine ⟨hc, fun pr hpr => ?_, ?_, fun hnn j a hj hda => ?_⟩
        · obtain ⟨j, a, hj, hda, hpr2⟩ := hsound pr hpr
          refine ⟨j + 1, a, by simpa using hj, hda, ?_⟩
          rw [hpr2, show i + (j + 1) = i + 1 + j by omega]
        · rw [hdef]
          simp
        · cases j with
          | zero =>
            have ha : a0 = a := by simpa using hj
            rw [ha] at hd
            rw [hd] at hda
            cases hda
          | succ j =>
            have := hcover (fun v hv => hnn v (List.mem_cons_of_mem _ hv)) j a
              (by simpa using hj) hda
            rw [show i + (j + 1) = i + 1 + j by omega]
            exact this
      | false =>
        have hrw : do_tcpCheckerTimer_implFrom i (some a0 :: rest) =
            { probes := ProbeStart.tcp { server := i, host := a0.host, port := toString a0.port }
                :: (do_tcpCheckerTimer_implFrom (i + 1) rest).probes,
              created := (do_tcpCheckerTimer_implFrom (i + 1) rest).created,
              undefined := (do_tcpCheckerTimer_implFrom (i + 1) rest).undefined } := by
          simp [do_tcpCheckerTimer_implFrom, hd, CheckRun.andThen, CheckRun.start]
        rw [hrw]
        refine ⟨hc, fun pr hpr => ?_, ?_, fun hnn j a hj hda => ?_⟩
        · rcases List.mem_cons.1 hpr with h | h
          · exact ⟨0, a0, by simp, hd, by rw [Nat.add_zero]; exact h⟩
          · obtain ⟨j, a, hj, hda, hpr2⟩ := hsound pr h
            refine ⟨j + 1, a, by simpa using hj, hda, ?_⟩
            rw [hpr2, show i + (j + 1) = i + 1 + j by omega]
        · show (do_tcpCheckerTimer_implFrom (i + 1) rest).undefined = false ↔ _
          rw [hdef]
          simp
        · cases j with
          | zero =>
            have ha : a0 = a := by simpa using hj
            rw [← ha]
            exact List.mem_cons_self _ _
          | succ j =>
            have := hcover (fun v hv => hnn v (List.mem_cons_of_mem _ hv)) j a
              (by simpa using hj) hda
            rw [show i + (j + 1) = i + 1 + j by omega]
            exact List.mem_cons_of_mem _ this

/-- The loop of `do_connectCheckerTimer_impl` starts no probe at all. It returns exactly when
every entry it visits is a server whose `isManualDisable` is true, and then it has constructed
no session; otherwise its behaviour is undefined at the first null entry or at the first
entry whose `isManualDisable` is false, for which `createTest` has constructed a session with
the server's host and port, the configured target and the path made of one backslash. -/
theorem do_connectCheckerTimer_implFrom_spec (c : Config) :
    ∀ (l : List UpstreamServerRef) (i : Nat),
      (do_connectCheckerTimer_implFrom c i l).probes = [] ∧
      (∀ s, s ∈ (do_connectCheckerTimer_implFrom c i l).created →
        s.targetPath = "\\" ∧ s.targetHost = c.testRemoteHost ∧
        s.targetPort = c.testRemotePort ∧ s.httpVersion = 11 ∧
        ∃ (j : Nat) (a : UpstreamServer), l[j]? = some (some a) ∧ a.isManualDisable = false ∧
          s.socks5Host = a.host ∧ s.socks5Port = toString a.port) ∧
      ((do_connectCheckerTimer_implFrom c i l).undefined = false ↔
        ∀ u, u ∈ l → ∃ a, u = some a ∧ a.isManualDisable = true) ∧
      ((do_connectCheckerTimer_implFrom c i l).undefined = false →
        (do_connectCheckerTimer_implFrom c i l).created = []) := by
  intro l
  induction l with
  | nil =>
    intro i
    simp [do_connectCheckerTimer_implFrom, CheckRun.nothing]
  | cons u rest ih =>
    intro i
    obtain ⟨hp, hsess, hdef, hcr⟩ := ih (i + 1)
    cases u with
    | none =>
      refine ⟨rfl, fun s hs => ?_, ?_, fun h => ?_⟩
      · simp [do_connectCheckerTimer_implFrom, CheckRun.undefinedBehaviour] at hs
      · simp [do_connectCheckerTimer_implFrom, CheckRun.undefinedBehaviour]
      · simp [do_connectCheckerTimer_implFrom, CheckRun.undefinedBehaviour] at h
    | some a0 =>
      cases hd : a0.isManualDisable with
      | true =>
        have hrw : do_connectCheckerTimer_implFrom c i (some a0 :: rest) =
            do_connectCheckerTimer_implFrom c (i + 1) rest := by
          simp [do_connectCheckerTimer_implFrom, hd]
        rw [hrw]
        refine ⟨hp, fun s hs => ?_, ?_, hcr⟩
        · obtain ⟨h1, h2, h3, h4, j, a, hj, hda, h5, h6⟩ := hsess s hs
          exact ⟨h1, h2, h3, h4, j + 1, a, by simpa using hj, hda, h5, h6⟩
        · rw [hdef]
          simp [hd]
      | false =>
        have hrw : do_connectCheckerTimer_implFrom c i (some a0 :: rest) =
            { probes := [],
              created := [{ targetHost := c.testRemoteHost, targetPort := c.testRemotePort,
                            targetPath := "\\", httpVersion := 11, socks5Host := a0.host,
                            socks5Port := toString a0.port }],
              undefined := true } := by
          simp [do_connectCheckerTimer_implFrom, hd, ConnectTestHttps.createTest]
        rw [hrw]
        refine ⟨rfl, fun s hs => ?_, ?_, fun h => ?_⟩
        · have hs2 : s = { targetHost := c.testRemoteHost, targetPort := c.testRemotePort,
                            targetPath := "\\", httpVersion := 11, socks5Host := a0.host,
                            socks5Port := toString a0.port } := by simpa using hs
          rw [hs2]
          exact ⟨rfl, rfl, rfl, rfl, 0, a0, by simp, hd, rfl, rfl⟩
        · constructor
          · intro h
            cases h
          · intro h
            obtain ⟨a, ha, hda⟩ := h (some a0) (List.mem_cons_self _ _)
            have : a0 = a := Option.some.inj ha
            rw [← this, hd] at hda
            cases hda
        · cases h

/-- C13 at a concrete input: the only server of the pool has `isManualDisable = true`. The
full TCP cycle starts nothing for it, but the handler posted by `forceCheckOne(0)` starts a
TCP probe for it: `do_tcpCheckerOne_impl` has no `isManualDisable` test. It then calls
`do_connectCheckerOne_impl`, whose `createTest` constructs the session and returns a reference
to a destroyed pointer, so that no end-to-end probe is run. For every pool and every index of
a server, `forceCheckOne` starts the TCP probe of that server whatever its
`isManualDisable`. The full end-to-end cycle, for a server that is not disabled, constructs
the session and starts no probe either. -/
theorem forceCheckOne_probes_disabled_server :
    (poolAt (poolOf RuleEnum.loop [some { srvUp 0 with isManualDisable := true }] 0)._pool 0 =
        some { srvUp 0 with isManualDisable := true }) ∧
    do_tcpCheckerTimer_impl
        (poolOf RuleEnum.loop [some { srvUp 0 with isManualDisable := true }] 0) =
      CheckRun.nothing ∧
    forceCheckOne 0 (poolOf RuleEnum.loop [some { srvUp 0 with isManualDisable := true }] 0) =
      { probes := [ProbeStart.tcp { server := 0, host := "127.0.0.1", port := "11080" }],
        created := [{ targetHost := "example.com", targetPort := 443, targetPath := "\\",
                      httpVersion := 11, socks5Host := "127.0.0.1", socks5Port := "11080" }],
        undefined := true } ∧
    (∀ (p : UpstreamPool) (i : Nat) (a : UpstreamServer), poolAt p._pool i = some a →
      (forceCheckOne i p).probes =
        [ProbeStart.tcp { server := i, host := a.host, port := toString a.port }] ∧
      (forceCheckOne i p).undefined = true) ∧
    do_connectCheckerTimer_impl (poolOf RuleEnum.loop [some (srvUp 0)] 0) =
      { probes := [],
        created := [{ targetHost := "example.com", targetPort := 443, targetPath := "\\",
                      httpVersion := 11, socks5Host := "127.0.0.1", socks5Port := "11080" }],
        undefined := true } := by
  refine ⟨by decide, by decide, by decide, ?_, by decide⟩
  intro p i a hi
  have hlt : i < p._pool.length := by
    rw [poolAt_eq_some_iff] at hi
    exact (List.getElem?_eq_some_iff.1 hi).1
  simp [forceCheckOne, hlt, hi, do_tcpCheckerOne_impl, do_connectCheckerOne_impl,
    CheckRun.andThen, CheckRun.start, ConnectTestHttps.createTest]

/-! ## Health checker: the addition timer and the rescue cycle -/

/-- The result of `do_AdditionTimer_impl`, by the value of the flag: with the flag set it
does nothing; with the flag clear it sets the flag, creates the timer `ct` of three times
`additionCheckPeriod` and runs the TCP cycle and then the end-to-end cycle. -/
theorem do_AdditionTimer_impl_spec (p : UpstreamPool) :
    (p.isAdditionTimerRunning = true →
      do_AdditionTimer_impl p = { run := CheckRun.nothing, ct := none, pool := p }) ∧
    (p.isAdditionTimerRunning = false →
      do_AdditionTimer_impl p =
        { run := (do_tcpCheckerTimer_impl p).andThen (do_connectCheckerTimer_impl p),
          ct := some (p._configLoader.additionCheckPeriod * 3),
          pool := { p with isAdditionTimerRunning := true } }) := by
  constructor
  · intro h
    simp [do_AdditionTimer_impl, h]
  · intro h
    simp only [do_AdditionTimer_impl, h, Bool.false_eq_true, if_false]
    rfl

/-- The probes of the TCP cycle followed by the end-to-end cycle are those of the TCP cycle;
the two return exactly when every pool entry is a server whose `isManualDisable` is true, and
then nothing was started. -/
theorem both_cycles_spec (p : UpstreamPool) :
    ((do_tcpCheckerTimer_impl p).andThen (do_connectCheckerTimer_impl p)).probes =
      (do_tcpCheckerTimer_impl p).probes ∧
    (((do_tcpCheckerTimer_impl p).andThen (do_connectCheckerTimer_impl p)).undefined = false ↔
      ∀ u, u ∈ p._pool → ∃ a, u = some a ∧ a.isManualDisable = true) := by
  obtain ⟨_, _, htdef, _⟩ := do_tcpCheckerTimer_implFrom_spec p._pool 0
  obtain ⟨hcp, _, hcdef, _⟩ := do_connectCheckerTimer_implFrom_spec p._configLoader p._pool 0
  unfold do_tcpCheckerTimer_impl do_connectCheckerTimer_impl CheckRun.andThen
  cases hu : (do_tcpCheckerTimer_implFrom 0 p._pool).undefined with
  | true =>
    refine ⟨by simp, ?_⟩
    simp only [if_true, hu, Bool.true_eq_false, false_iff]
    intro hall
    have : (do_tcpCheckerTimer_implFrom 0 p._pool).undefined = false :=
      htdef.2 (fun u hu2 h => by
        obtain ⟨a, ha, _⟩ := hall u hu2
        rw [h] at ha
        cases ha)
    rw [hu] at this
    cases this
  | false =>
    simp only [Bool.false_eq_true, if_false, hcp, List.append_nil, true_and]
    exact hcdef

/-- The re-arming step of the addition timer handler changes neither the record of the call
of `do_AdditionTimer_impl`, nor the probes and sessions, nor the pool entries, nor the flag. -/
theorem do_AdditionTimer_c_rearm_frame (f : TimerFiring) :
    (do_AdditionTimer_c_rearm f).additionImpl = f.additionImpl ∧
    (do_AdditionTimer_c_rearm f).run.probes = f.run.probes ∧
    (do_AdditionTimer_c_rearm f).run.created = f.run.created ∧
    (do_AdditionTimer_c_rearm f).pool._pool = f.pool._pool ∧
    (do_AdditionTimer_c_rearm f).pool.isAdditionTimerRunning =
      f.pool.isAdditionTimerRunning ∧
    (f.run.undefined = false → ∀ x, f.pool.additionTimer = some x →
      (do_AdditionTimer_c_rearm f).run.undefined = false ∧
      (do_AdditionTimer_c_rearm f).pool.additionTimer =
        some (x + f.pool._configLoader.additionCheckPeriod)) := by
  unfold do_AdditionTimer_c_rearm
  cases hu : f.run.undefined with
  | true =>
    simp only [if_true]
    exact ⟨trivial, trivial, trivial, trivial, trivial, fun h => (by cases h)⟩
  | false =>
    simp only [Bool.false_eq_true, if_false]
    cases ht : f.pool.additionTimer with
    | none =>
      refine ⟨rfl, ?_, ?_, rfl, rfl, fun _ x hx => by cases hx⟩
      · simp [CheckRun.andThen, hu, CheckRun.undefinedBehaviour]
      · simp [CheckRun.andThen, hu, CheckRun.undefinedBehaviour]
    | some y =>
      refine ⟨rfl, rfl, rfl, rfl, rfl, fun _ x hx => ?_⟩
      cases hx
      exact ⟨hu, rfl⟩

/-- C14: on each firing of the addition timer (handler run without error code), for every
pool state, the handler calls `do_AdditionTimer_impl` if and only if every server of the pool
fails `checkServer` and `now - lastConnectComeTime <= sleepTime`. When the condition holds,
what the handler did is what `do_AdditionTimer_impl` did on the state of the pool, followed
by the re-arming of the timer: with the flag clear, the flag is set, the timer of three times
`additionCheckPeriod` is created and the probes of the TCP cycle are started. When it does
not hold, the handler starts no probe, constructs no session and leaves the pool entries and
the flag as they were. A run with the error code set does nothing. -/
theorem addition_timer_attempts_rescue_iff (now : UpstreamTimePoint) (p : UpstreamPool) :
    ((do_AdditionTimer_c false now p).additionImpl ≠ none ↔
      (∀ u, u ∈ p._pool → checkServer u = false) ∧
        now - p.lastConnectComeTime ≤ p._configLoader.sleepTime) ∧
    ((∀ u, u ∈ p._pool → checkServer u = false) ∧
        now - p.lastConnectComeTime ≤ p._configLoader.sleepTime →
      do_AdditionTimer_c false now p =
        do_AdditionTimer_c_rearm
          { additionImpl := some (do_AdditionTimer_impl p),
            run := (do_AdditionTimer_impl p).run, pool := (do_AdditionTimer_impl p).pool } ∧
      (do_AdditionTimer_c false now p).additionImpl = some (do_AdditionTimer_impl p) ∧
      (do_AdditionTimer_c false now p).run.probes = (do_AdditionTimer_impl p).run.probes ∧
      (do_AdditionTimer_c false now p).pool.isAdditionTimerRunning = true ∧
      (p.isAdditionTimerRunning = false →
        ((do_AdditionTimer_c false now p).additionImpl.bind fun r => r.ct) =
          some (p._configLoader.additionCheckPeriod * 3) ∧
        (do_AdditionTimer_c false now p).run.probes = (do_tcpCheckerTimer_impl p).probes)) ∧
    (¬ ((∀ u, u ∈ p._pool → checkServer u = false) ∧
        now - p.lastConnectComeTime ≤ p._configLoader.sleepTime) →
      do_AdditionTimer_c false now p = do_AdditionTimer_c_rearm (TimerFiring.idle p) ∧
      (do_AdditionTimer_c false now p).additionImpl = none ∧
      (do_AdditionTimer_c false now p).run.probes = [] ∧
      (do_AdditionTimer_c false now p).run.created = [] ∧
      (do_AdditionTimer_c false now p).pool._pool = p._pool ∧
      (do_AdditionTimer_c false now p).pool.isAdditionTimerRunning =
        p.isAdditionTimerRunning) ∧
    do_AdditionTimer_c true now p = TimerFiring.idle p := by
  have hall : (p._pool.all fun a => !checkServer a) = true ↔
      ∀ u, u ∈ p._pool → checkServer u = false := by
    simp [List.all_eq_true]
  have hyes : (∀ u, u ∈ p._pool → checkServer u = false) ∧
        now - p.lastConnectComeTime ≤ p._configLoader.sleepTime →
      do_AdditionTimer_c false now p =
        do_AdditionTimer_c_rearm
          { additionImpl := some (do_AdditionTimer_impl p),
            run := (do_AdditionTimer_impl p).run, pool := (do_AdditionTimer_impl p).pool } := by
    rintro ⟨h1, h2⟩
    simp only [do_AdditionTimer_c, Bool.false_eq_true, if_false, hall.2 h1, if_true, h2]
  have hno : ¬ ((∀ u, u ∈ p._pool → checkServer u = false) ∧
        now - p.lastConnectComeTime ≤ p._configLoader.sleepTime) →
      do_AdditionTimer_c false now p = do_AdditionTimer_c_rearm (TimerFiring.idle p) := by
    intro h
    by_cases hdown : (p._pool.all fun a => !checkServer a) = true
    · have h2 : ¬ now - p.lastConnectComeTime ≤ p._configLoader.sleepTime :=
        fun h2 => h ⟨hall.1 hdown, h2⟩
      simp only [do_AdditionTimer_c, Bool.false_eq_true, if_false, hdown, if_true, h2]
    · simp only [do_AdditionTimer_c, Bool.false_eq_true, if_false, hdown]
  have hflag : (do_AdditionTimer_impl p).pool.isAdditionTimerRunning = true := by
    cases hf : p.isAdditionTimerRunning with
    | true =>
      rw [(do_AdditionTimer_impl_spec p).1 hf]
      exact hf
    | false =>
      rw [(do_AdditionTimer_impl_spec p).2 hf]
  refine ⟨?_, fun hc => ?_, fun hc => ?_, by simp [do_AdditionTimer_c]⟩
  · by_cases hc : (∀ u, u ∈ p._pool → checkServer u = false) ∧
        now - p.lastConnectComeTime ≤ p._configLoader.sleepTime
    · rw [hyes hc, (do_AdditionTimer_c_rearm_frame _).1]
      simp only [ne_eq, reduceCtorEq, not_false_eq_true, true_iff]
      exact hc
    · rw [hno hc, (do_AdditionTimer_c_rearm_frame _).1]
      simp only [TimerFiring.idle, ne_eq, not_true_eq_false, false_iff]
      exact hc
  · obtain ⟨f1, f2, _, _, f5, _⟩ := do_AdditionTimer_c_rearm_frame
      { additionImpl := some (do_AdditionTimer_impl p),
        run := (do_AdditionTimer_impl p).run, pool := (do_AdditionTimer_impl p).pool }
    refine ⟨hyes hc, ?_, ?_, ?_, fun hf => ⟨?_, ?_⟩⟩
    · rw [hyes hc, f1]
    · rw [hyes hc, f2]
    · rw [hyes hc, f5]
      exact hflag
    · rw [hyes hc, f1, (do_AdditionTimer_impl_spec p).2 hf]
      rfl
    · rw [hyes hc, f2, (do_AdditionTimer_impl_spec p).2 hf]
      exact (both_cycles_spec p).1
  · obtain ⟨f1, f2, f3, f4, f5, _⟩ := do_AdditionTimer_c_rearm_frame (TimerFiring.idle p)
    refine ⟨hno hc, ?_, ?_, ?_, ?_, ?_⟩
    · rw [hno hc, f1]; rfl
    · rw [hno hc, f2]; rfl
    · rw [hno hc, f3]; rfl
    · rw [hno hc, f4]; rfl
    · rw [hno hc, f5]; rfl

/-- Evaluation of C14. The only server is offline, a client came at time 0, the clock is at
10 and `sleepTime` is 1800: the handler calls `do_AdditionTimer_impl`, which sets the flag,
creates the timer of `3 * 10` and starts the TCP probe of the server; its end-to-end cycle
then stops at `createTest`. With the server eligible instead, nothing is called and the timer
is re-armed from 100 to 110. -/
theorem addition_timer_attempts_rescue_iff_witness :
    (do_AdditionTimer_c false 10
        { poolOf RuleEnum.loop [some (srvDown 0)] 0 with additionTimer := some 100 }
      ).additionImpl ≠ none ∧
    do_AdditionTimer_c false 10
        { poolOf RuleEnum.loop [some (srvDown 0)] 0 with additionTimer := some 100 } =
      { additionImpl := some
          { run :=
              { probes := [ProbeStart.tcp { server := 0, host := "127.0.0.1", port := "11080" }],
                created := [{ targetHost := "example.com", targetPort := 443,
                              targetPath := "\\", httpVersion := 11,
                              socks5Host := "127.0.0.1", socks5Port := "11080" }],
                undefined := true },
            ct := some 30,
            pool := { poolOf RuleEnum.loop [some (srvDown 0)] 0 with
              additionTimer := some 100, isAdditionTimerRunning := true } },
        run :=
          { probes := [ProbeStart.tcp { server := 0, host := "127.0.0.1", port := "11080" }],
            created := [{ targetHost := "example.com", targetPort := 443,
                          targetPath := "\\", httpVersion := 11,
                          socks5Host := "127.0.0.1", socks5Port := "11080" }],
            undefined := true },
        pool := { poolOf RuleEnum.loop [some (srvDown 0)] 0 with
          additionTimer := some 100, isAdditionTimerRunning := true } } ∧
    do_AdditionTimer_c false 10
        { poolOf RuleEnum.loop [some (srvUp 0)] 0 with additionTimer := some 100 } =
      { additionImpl := none, run := CheckRun.nothing,
        pool := { poolOf RuleEnum.loop [some (srvUp 0)] 0 with additionTimer := some 110 } } :=
  ⟨(addition_timer_attempts_rescue_iff 10
      { poolOf RuleEnum.loop [some (srvDown 0)] 0 with additionTimer := some 100 }).1.2
      ⟨by decide, by decide⟩,
    by decide, by decide⟩

/-- Method `setConfig` does not touch the flag `isAdditionTimerRunning`. -/
theorem setConfig_keeps_flag (mk : Nat → String → String → Nat → Bool → UpstreamServer)
    (c : Config) (p : UpstreamPool) :
    (setConfig mk c p).isAdditionTimerRunning = p.isAdditionTimerRunning := rfl

/-- The step of an execution that calls `do_AdditionTimer_impl`, by the value of the flag. -/
theorem rescueStep_attempt (mk : Nat → String → String → Nat → Bool → UpstreamServer)
    (s s1 : RescueRun) (t : SteadyTimePoint)
    (hstep : rescueStep mk s (RescueEvent.attempt t) = some s1) :
    s.undefined = false ∧ s.clock ≤ t ∧
    ((s.pool.isAdditionTimerRunning = true ∧
        s1 = { pool := s.pool, pending := s.pending, clock := t, starts := s.starts,
               undefined := false }) ∨
      (s.pool.isAdditionTimerRunning = false ∧
        s1 = { pool := { s.pool with isAdditionTimerRunning := true },
               pending := (t + s.pool._configLoader.additionCheckPeriod * 3) :: s.pending,
               clock := t,
               starts := (t, s.pool._configLoader.additionCheckPeriod) :: s.starts,
               undefined :=
                 ((do_tcpCheckerTimer_impl s.pool).andThen
                   (do_connectCheckerTimer_impl s.pool)).undefined })) := by
  unfold rescueStep at hstep
  by_cases hbad : s.undefined = true ∨ t < s.clock
  · simp [hbad] at hstep
  · simp only [hbad, if_false] at hstep
    have hu : s.undefined = false := by
      cases h : s.undefined with
      | false => rfl
      | true => exact absurd (Or.inl h) hbad
    have hclock : s.clock ≤ t := by
      by_contra h
      exact hbad (Or.inr (by linarith))
    refine ⟨hu, hclock, ?_⟩
    cases hflag : s.pool.isAdditionTimerRunning with
    | true =>
      left
      rw [(do_AdditionTimer_impl_spec s.pool).1 hflag] at hstep
      simp only [Option.some.injEq] at hstep
      exact ⟨rfl, hstep.symm⟩
    | false =>
      right
      rw [(do_AdditionTimer_impl_spec s.pool).2 hflag] at hstep
      simp only [Option.some.injEq] at hstep
      exact ⟨rfl, hstep.symm⟩

/-- Each execution step preserves the invariant. -/
theorem rescueStep_invariant (mk : Nat → String → String → Nat → Bool → UpstreamServer)
    (s s1 : RescueRun) (ev : RescueEvent)
    (hinv : RescueInv s) (hstep : rescueStep mk s ev = some s1) : RescueInv s1 := by
  obtain ⟨hB, hC, hE, hD⟩ := hinv
  cases ev with
  | attempt t =>
    obtain ⟨_, hclock, h⟩ := rescueStep_attempt mk s s1 t hstep
    rcases h with ⟨hflag, hs1⟩ | ⟨hflag, hs1⟩
    · subst hs1
      refine ⟨hB, fun h => ?_, fun x hx => ?_, hD⟩
      · rw [hflag] at h; cases h
      · have := hE x hx
        show x.1 ≤ t
        linarith
    · subst hs1
      obtain ⟨hpend, hlast⟩ := hC hflag
      refine ⟨?_, ?_, ?_, ?_⟩
      · right
        refine ⟨rfl, (t, s.pool._configLoader.additionCheckPeriod), s.starts, rfl, ?_⟩
        show (t + s.pool._configLoader.additionCheckPeriod * 3) :: s.pending = _
        rw [hpend]
      · intro h
        cases h
      · intro x hx
        show x.1 ≤ t
        rcases List.mem_cons.1 hx with h | h
        · rw [h]
        · have := hE x h
          linarith
      · show ((t, s.pool._configLoader.additionCheckPeriod) :: s.starts).Pairwise _
        refine List.Pairwise.cons ?_ hD
        intro x hx
        show x.1 + x.2 * 3 ≤ t
        cases hst : s.starts with
        | nil => rw [hst] at hx; cases hx
        | cons t1 rest =>
          have h1 := hlast t1 rest hst
          rw [hst] at hx hD
          rcases List.mem_cons.1 hx with h | h
          · rw [h]; linarith
          · have h2 := (List.pairwise_cons.1 hD).1 x h
            have h3 := hE t1 (by rw [hst]; exact List.mem_cons_self _ _)
            linarith
  | ctDone t expiry =>
    unfold rescueStep at hstep
    by_cases hbad : s.undefined = true ∨ t < s.clock ∨ t < expiry ∨ expiry ∉ s.pending
    · simp [hbad] at hstep
    · simp only [hbad, if_false, Option.some.injEq] at hstep
      subst hstep
      have hclock : s.clock ≤ t := by
        by_contra h
        exact hbad (Or.inr (Or.inl (by linarith)))
      have hexp : expiry ≤ t := by
        by_contra h
        exact hbad (Or.inr (Or.inr (Or.inl (by linarith))))
      have hmem : expiry ∈ s.pending := by
        by_contra h
        exact hbad (Or.inr (Or.inr (Or.inr h)))
      rcases hB with hnil | ⟨_, t1, rest, hst, hpend⟩
      · rw [hnil] at hmem; cases hmem
      · have hexp1 : expiry = t1.1 + t1.2 * 3 := by
          rw [hpend] at hmem
          simpa using hmem
        refine ⟨Or.inl ?_, fun _ => ⟨?_, ?_⟩, fun x hx => ?_, hD⟩
        · show s.pending.erase expiry = []
          rw [hpend, hexp1]
          simp
        · show s.pending.erase expiry = []
          rw [hpend, hexp1]
          simp
        · intro t2 rest2 hst2
          have hst3 : s.starts = t2 :: rest2 := hst2
          rw [hst] at hst3
          have : t1 = t2 := (List.cons.inj hst3).1
          show t2.1 + t2.2 * 3 ≤ t
          rw [← this]
          linarith
        · have := hE x hx
          show x.1 ≤ t
          linarith
  | health servers =>
    unfold rescueStep at hstep
    cases hu : s.undefined with
    | true => simp [hu] at hstep
    | false =>
      simp only [hu, Bool.false_eq_true, if_false, Option.some.injEq] at hstep
      subst hstep
      exact ⟨hB, hC, hE, hD⟩
  | setConfig c =>
    unfold rescueStep at hstep
    cases hu : s.undefined with
    | true => simp [hu] at hstep
    | false =>
      simp only [hu, Bool.false_eq_true, if_false, Option.some.injEq] at hstep
      subst hstep
      exact ⟨hB, hC, hE, hD⟩

/-- Every execution preserves the invariant. -/
theorem rescueRun_invariant (mk : Nat → String → String → Nat → Bool → UpstreamServer) :
    ∀ (events : List RescueEvent) (s s1 : RescueRun),
      RescueInv s → rescueRun mk s events = some s1 → RescueInv s1 := by
  intro events
  induction events with
  | nil =>
    intro s s1 hinv hrun
    simp only [rescueRun, Option.some.injEq] at hrun
    rw [← hrun]
    exact hinv
  | cons ev rest ih =>
    intro s s1 hinv hrun
    unfold rescueRun at hrun
    cases hstep : rescueStep mk s ev with
    | none => simp [hstep] at hrun
    | some s2 =>
      simp only [hstep] at hrun
      exact ih s2 s1 (rescueStep_invariant mk s s2 ev hinv hstep) hrun

/-- In an execution without a call of `setConfig` the period recorded with every rescue start
is the `additionCheckPeriod` of the configuration. -/
theorem rescueRun_period (mk : Nat → String → String → Nat → Bool → UpstreamServer)
    (P : ConfigTimeDuration) :
    ∀ (events : List RescueEvent) (s s1 : RescueRun),
      (∀ c, RescueEvent.setConfig c ∉ events) →
      s.pool._configLoader.additionCheckPeriod = P → (∀ x, x ∈ s.starts → x.2 = P) →
      rescueRun mk s events = some s1 →
      s1.pool._configLoader.additionCheckPeriod = P ∧ ∀ x, x ∈ s1.starts → x.2 = P := by
  intro events
  induction events with
  | nil =>
    intro s s1 _ hP hS hrun
    simp only [rescueRun, Option.some.injEq] at hrun
    rw [← hrun]
    exact ⟨hP, hS⟩
  | cons ev rest ih =>
    intro s s1 hno hP hS hrun
    unfold rescueRun at hrun
    cases hstep : rescueStep mk s ev with
    | none => simp [hstep] at hrun
    | some s2 =>
      simp only [hstep] at hrun
      have hno2 : ∀ c, RescueEvent.setConfig c ∉ rest :=
        fun c h => hno c (List.mem_cons_of_mem _ h)
      have h2 : s2.pool._configLoader.additionCheckPeriod = P ∧
          ∀ x, x ∈ s2.starts → x.2 = P := by
        cases ev with
        | attempt t =>
          obtain ⟨_, _, h⟩ := rescueStep_attempt mk s s2 t hstep
          rcases h with ⟨_, hs2⟩ | ⟨_, hs2⟩
          · subst hs2
            exact ⟨hP, hS⟩
          · subst hs2
            refine ⟨hP, fun x hx => ?_⟩
            rcases List.mem_cons.1 hx with h | h
            · rw [h]; exact hP
            · exact hS x h
        | ctDone t expiry =>
          unfold rescueStep at hstep
          by_cases hbad : s.undefined = true ∨ t < s.clock ∨ t < expiry ∨ expiry ∉ s.pending
          · simp [hbad] at hstep
          · simp only [hbad, if_false, Option.some.injEq] at hstep
            subst hstep
            exact ⟨hP, hS⟩
        | health servers =>
          unfold rescueStep at hstep
          cases hu : s.undefined with
          | true => simp [hu] at hstep
          | false =>
            simp only [hu, Bool.false_eq_true, if_false, Option.some.injEq] at hstep
            subst hstep
            exact ⟨hP, hS⟩
        | setConfig c => exact absurd (List.mem_cons_self _ _) (hno c)
      exact ih s2 s1 hno2 h2.1 h2.2 hrun

/-- C15: rescue cycles are single-flight. With the flag clear `do_AdditionTimer_impl` sets the
flag, creates the timer of three times `additionCheckPeriod` and runs the TCP cycle and then
the end-to-end cycle: the TCP probe of every server that is not manually disabled is started
(no pool entry being null), and the call returns exactly when every server is manually
disabled, the end-to-end cycle stopping otherwise at its first `createTest`. It starts probes
only when the flag was clear; with the flag set it starts no probe and changes no state. The
completion of the timer clears the flag, `setConfig` does not touch it, and no step of an
execution other than that completion clears it. Hence in every execution (time never going
back, a timer completing no earlier than its expiry, followed up to the point where the
behaviour becomes undefined) any two rescue cycle starts are at least three times the
`additionCheckPeriod` of the earlier start apart, which is the `additionCheckPeriod` of the
pool when `setConfig` is not called. -/
theorem rescue_single_flight (mk : Nat → String → String → Nat → Bool → UpstreamServer)
    (p : UpstreamPool) :
    (p.isAdditionTimerRunning = false →
      do_AdditionTimer_impl p =
        { run := (do_tcpCheckerTimer_impl p).andThen (do_connectCheckerTimer_impl p),
          ct := some (p._configLoader.additionCheckPeriod * 3),
          pool := { p with isAdditionTimerRunning := true } } ∧
      ((∀ u, u ∈ p._pool → u ≠ none) →
        ∀ i a, poolAt p._pool i = some a → a.isManualDisable = false →
          ProbeStart.tcp { server := i, host := a.host, port := toString a.port } ∈
            (do_AdditionTimer_impl p).run.probes) ∧
      ((do_AdditionTimer_impl p).run.undefined = false ↔
        ∀ u, u ∈ p._pool → ∃ a, u = some a ∧ a.isManualDisable = true)) ∧
    ((do_AdditionTimer_impl p).run.probes ≠ [] → p.isAdditionTimerRunning = false) ∧
    (p.isAdditionTimerRunning = true →
      do_AdditionTimer_impl p = { run := CheckRun.nothing, ct := none, pool := p }) ∧
    (do_AdditionTimer_impl_ctDone p).isAdditionTimerRunning = false ∧
    (∀ c, (setConfig mk c p).isAdditionTimerRunning = p.isAdditionTimerRunning) ∧
    (∀ s ev s1, rescueStep mk s ev = some s1 → s.pool.isAdditionTimerRunning = true →
      s1.pool.isAdditionTimerRunning = false →
      ∃ t x, ev = RescueEvent.ctDone t x ∧ x ≤ t ∧ x ∈ s.pending) ∧
    (∀ t0 events s1,
      rescueRun mk { pool := p, pending := [], clock := t0, starts := [], undefined := false }
        events = some s1 →
      s1.starts.Pairwise (fun later earlier => earlier.1 + earlier.2 * 3 ≤ later.1) ∧
      ((∀ c, RescueEvent.setConfig c ∉ events) →
        s1.starts.Pairwise
          (fun later earlier =>
            earlier.1 + p._configLoader.additionCheckPeriod * 3 ≤ later.1))) := by
  refine ⟨fun hf => ⟨(do_AdditionTimer_impl_spec p).2 hf, ?_, ?_⟩, ?_,
    (do_AdditionTimer_impl_spec p).1, rfl, fun _ => rfl, ?_, ?_⟩
  · intro hnn i a hi hd
    rw [(do_AdditionTimer_impl_spec p).2 hf]
    show _ ∈ ((do_tcpCheckerTimer_impl p).andThen (do_connectCheckerTimer_impl p)).probes
    rw [(both_cycles_spec p).1]
    rw [poolAt_eq_some_iff] at hi
    have := (do_tcpCheckerTimer_implFrom_spec p._pool 0).2.2.2 hnn i a hi hd
    rw [Nat.zero_add] at this
    exact this
  · rw [(do_AdditionTimer_impl_spec p).2 hf]
    exact (both_cycles_spec p).2
  · intro hne
    cases hf : p.isAdditionTimerRunning with
    | false => rfl
    | true =>
      rw [(do_AdditionTimer_impl_spec p).1 hf] at hne
      exact absurd rfl hne
  · intro s ev s1 hstep hon hoff
    cases ev with
    | attempt t =>
      exfalso
      obtain ⟨_, _, h⟩ := rescueStep_attempt mk s s1 t hstep
      rcases h with ⟨_, hs1⟩ | ⟨hflag, _⟩
      · subst hs1
        rw [hon] at hoff
        cases hoff
      · rw [hon] at hflag
        cases hflag
    | ctDone t x =>
      unfold rescueStep at hstep
      by_cases hbad : s.undefined = true ∨ t < s.clock ∨ t < x ∨ x ∉ s.pending
      · simp [hbad] at hstep
      · refine ⟨t, x, rfl, ?_, ?_⟩
        · by_contra h
          exact hbad (Or.inr (Or.inr (Or.inl (by linarith))))
        · by_contra h
          exact hbad (Or.inr (Or.inr (Or.inr h)))
    | health servers =>
      exfalso
      unfold rescueStep at hstep
      cases hu : s.undefined with
      | true => simp [hu] at hstep
      | false =>
        simp only [hu, Bool.false_eq_true, if_false, Option.some.injEq] at hstep
        subst hstep
        rw [hon] at hoff
        cases hoff
    | setConfig c =>
      exfalso
      unfold rescueStep at hstep
      cases hu : s.undefined with
      | true => simp [hu] at hstep
      | false =>
        simp only [hu, Bool.false_eq_true, if_false, Option.some.injEq] at hstep
        subst hstep
        have hoff2 : s.pool.isAdditionTimerRunning = false := hoff
        rw [hon] at hoff2
        cases hoff2
  · intro t0 events s1 hrun
    have hinit : RescueInv
        { pool := p, pending := [], clock := t0, starts := [], undefined := false } :=
      ⟨Or.inl rfl, fun _ => ⟨rfl, fun t1 rest h => (by cases h)⟩,
        fun x hx => (by cases hx), List.Pairwise.nil⟩
    have hpair := (rescueRun_invariant mk events _ s1 hinit hrun).2.2.2
    refine ⟨hpair, fun hno => ?_⟩
    have hper := (rescueRun_period mk p._configLoader.additionCheckPeriod events _ s1 hno rfl
      (fun x hx => (by cases hx)) hrun).2
    refine List.Pairwise.imp_of_mem ?_ hpair
    intro later earlier _ hmem h
    rw [← hper earlier hmem]
    exact h

/-- Evaluation of C15 on a pool whose only server is manually disabled, with
`additionCheckPeriod = 10`: a rescue starts at time 0, the attempt at time 5 is suppressed,
the timer completes at 30 and the next rescue starts at 31. With a server that is not
manually disabled the first rescue starts the TCP probe and then reaches undefined behaviour
in the end-to-end cycle. -/
theorem rescue_single_flight_witness :
    rescueRun sampleConstructor
        { pool := poolOf RuleEnum.loop [some { srvDown 0 with isManualDisable := true }] 0,
          pending := [], clock := 0, starts := [], undefined := false }
        [RescueEvent.attempt 0, RescueEvent.attempt 5, RescueEvent.ctDone 30 30,
          RescueEvent.attempt 31] =
      some
        { pool :=
            { poolOf RuleEnum.loop [some { srvDown 0 with isManualDisable := true }] 0 with
              isAdditionTimerRunning := true },
          pending := [61], clock := 31, starts := [(31, 10), (0, 10)], undefined := false } ∧
    [((31 : Int), (10 : Int)), (0, 10)].Pairwise
      (fun later earlier => earlier.1 + earlier.2 * 3 ≤ later.1) ∧
    (rescueRun sampleConstructor
        { pool := poolOf RuleEnum.loop [some (srvDown 0)] 0,
          pending := [], clock := 0, starts := [], undefined := false }
        [RescueEvent.attempt 0]).map (fun s => (s.starts, s.undefined)) =
      some ([(0, 10)], true) := by
  have hrun : rescueRun sampleConstructor
        { pool := poolOf RuleEnum.loop [some { srvDown 0 with isManualDisable := true }] 0,
          pending := [], clock := 0, starts := [], undefined := false }
        [RescueEvent.attempt 0, RescueEvent.attempt 5, RescueEvent.ctDone 30 30,
          RescueEvent.attempt 31] =
      some
        { pool :=
            { poolOf RuleEnum.loop [some { srvDown 0 with isManualDisable := true }] 0 with
              isAdditionTimerRunning := true },
          pending := [61], clock := 31, starts := [(31, 10), (0, 10)], undefined := false } := by
    decide
  exact ⟨hrun,
    ((rescue_single_flight sampleConstructor
      (poolOf RuleEnum.loop [some { srvDown 0 with isManualDisable := true }] 0)).2.2.2.2.2.2
        0 _ _ hrun).1,
    by decide⟩

/-! ## Delay history -/

open DelayCollection in
/-- Method `trim` keeps the last `maxSize` elements (all of them when there are fewer). -/
theorem trim_eq_drop (h : TimeHistory) :
    (TimeHistory.trim h).q = h.q.drop (h.q.length - h.maxSize) ∧
      (TimeHistory.trim h).maxSize = h.maxSize := by
  unfold TimeHistory.trim
  by_cases hgt : h.q.length > h.maxSize
  · by_cases h1 : h.q.length - h.maxSize = 1
    · simp [hgt, h1, List.drop_one]
    · simp [hgt, h1]
  · have h0 : h.q.length - h.maxSize = 0 := by omega
    simp [hgt, h0]

open DelayCollection in
/-- C16: `TimeHistory` is a capped FIFO. For every history `h` with cap `maxSize`,
`addDelayInfo` leaves the last `min(|h|+1, maxSize)` elements of `h` followed by the new
sample, in insertion order, and `setMaxSize(m)` leaves the last `min(|h|, m)` elements of `h`
in order; so after each operation `history()` has at most cap elements and, for a cap of at
least 1, its newest element is the most recently appended sample. The default cap is 8192
and the default history is empty. -/
theorem timeHistory_capped_fifo (h : TimeHistory) (d now : Int) (m : Nat) :
    (h.addDelayInfo d now).history =
      (h.q ++ [({ delay := d, timeClock := now } : TimeHistory.DelayInfo)]).drop
        ((h.q.length + 1) - min (h.q.length + 1) h.maxSize) ∧
    (h.addDelayInfo d now).history.length = min (h.q.length + 1) h.maxSize ∧
    (h.addDelayInfo d now).history.length ≤ (h.addDelayInfo d now).maxSize ∧
    (h.addDelayInfo d now).maxSize = h.maxSize ∧
    (1 ≤ h.maxSize →
      (h.addDelayInfo d now).history.getLast? = some { delay := d, timeClock := now }) ∧
    (h.setMaxSize m).history = h.q.drop (h.q.length - min h.q.length m) ∧
    (h.setMaxSize m).history.length = min h.q.length m ∧
    (h.setMaxSize m).history.length ≤ (h.setMaxSize m).maxSize ∧
    (h.setMaxSize m).maxSize = m ∧
    (1 ≤ m → (h.setMaxSize m).history.getLast? = h.q.getLast?) ∧
    ({} : TimeHistory).maxSize = 8192 ∧ ({} : TimeHistory).history = [] := by
  have ha := trim_eq_drop { h with q := h.q ++ [(⟨d, now⟩ : TimeHistory.DelayInfo)] }
  have hs := trim_eq_drop { h with maxSize := m }
  simp only [List.length_append, List.length_singleton] at ha
  have haq : (h.addDelayInfo d now).history =
      (h.q ++ [(⟨d, now⟩ : TimeHistory.DelayInfo)]).drop (h.q.length + 1 - h.maxSize) := ha.1
  have ham : (h.addDelayInfo d now).maxSize = h.maxSize := ha.2
  have hsq : (h.setMaxSize m).history = h.q.drop (h.q.length - m) := hs.1
  have hsm : (h.setMaxSize m).maxSize = m := hs.2
  refine ⟨?_, ?_, ?_, ham, ?_, ?_, ?_, ?_, hsm, ?_, rfl, rfl⟩
  · rw [haq]
    congr 1
    omega
  · rw [haq, List.length_drop, List.length_append, List.length_singleton]
    omega
  · rw [haq, ham, List.length_drop, List.length_append, List.length_singleton]
    omega
  · intro h1
    rw [haq, List.getLast?_drop, List.length_append, List.length_singleton,
      if_neg (by omega), List.getLast?_concat]
  · rw [hsq]
    congr 1
    omega
  · rw [hsq, List.length_drop]
    omega
  · rw [hsq, hsm, List.length_drop]
    omega
  · intro h1
    rw [hsq, List.getLast?_drop]
    by_cases hl : h.q.length ≤ h.q.length - m
    · have h0 : h.q = [] := List.eq_nil_of_length_eq_zero (by omega)
      rw [if_pos hl, h0]
      rfl
    · rw [if_neg hl]

open DelayCollection in
theorem threeWay_cases (x y : Int) :
    (x < y ∧ threeWay x y = Ordering.lt) ∨ (x = y ∧ threeWay x y = Ordering.eq) ∨
      (y < x ∧ threeWay x y = Ordering.gt) := by
  unfold threeWay
  rcases lt_trichotomy x y with h | h | h
  · left; exact ⟨h, by rw [if_pos h]⟩
  · right; left; exact ⟨h, by rw [if_neg (by omega), if_pos h]⟩
  · right; right; exact ⟨h, by rw [if_neg (by omega), if_neg (by omega)]⟩

open DelayCollection in
/-- The value of `DelayInfo::operator<=>` in each of the five cases. -/
theorem threeWayCompare_cases (a b : TimeHistory.DelayInfo) :
    (a.timeClock < b.timeClock ∧ a.threeWayCompare b = Ordering.lt) ∨
    (b.timeClock < a.timeClock ∧ a.threeWayCompare b = Ordering.gt) ∨
    (a.timeClock = b.timeClock ∧ a.delay < b.delay ∧ a.threeWayCompare b = Ordering.lt) ∨
    (a.timeClock = b.timeClock ∧ b.delay < a.delay ∧ a.threeWayCompare b = Ordering.gt) ∨
    (a.timeClock = b.timeClock ∧ a.delay = b.delay ∧ a.threeWayCompare b = Ordering.eq) := by
  unfold TimeHistory.DelayInfo.threeWayCompare
  rcases threeWay_cases a.timeClock b.timeClock with ⟨h, ht⟩ | ⟨h, ht⟩ | ⟨h, ht⟩
  · left
    exact ⟨h, by rw [ht]; rfl⟩
  · rcases threeWay_cases a.delay b.delay with ⟨g, hd⟩ | ⟨g, hd⟩ | ⟨g, hd⟩
    · right; right; left
      exact ⟨h, g, by rw [ht, hd]; rfl⟩
    · right; right; right; right
      exact ⟨h, g, by rw [ht, hd]; rfl⟩
    · right; right; right; left
      exact ⟨h, g, by rw [ht, hd]; rfl⟩
  · right; left
    exact ⟨h, by rw [ht]; rfl⟩

open DelayCollection in
/-- C17: the comparison of `DelayInfo` is the lexicographic order on `(timeClock, delay)`:
`a < b` iff `a.timeClock < b.timeClock`, or the time clocks are equal and
`a.delay < b.delay`; it reports equal iff both fields are equal (the records are equal);
`a > b` iff `b < a`; and the order is total, antisymmetric and transitive. -/
theorem delayInfo_lexicographic (a b c : TimeHistory.DelayInfo) :
    (a.threeWayCompare b = Ordering.lt ↔
      a.timeClock < b.timeClock ∨ (a.timeClock = b.timeClock ∧ a.delay < b.delay)) ∧
    (a.threeWayCompare b = Ordering.eq ↔ a.timeClock = b.timeClock ∧ a.delay = b.delay) ∧
    (a.threeWayCompare b = Ordering.eq ↔ a = b) ∧
    (a.threeWayCompare b = Ordering.gt ↔ b.threeWayCompare a = Ordering.lt) ∧
    (a.threeWayCompare b = Ordering.lt ∨ a = b ∨ b.threeWayCompare a = Ordering.lt) ∧
    (a.threeWayCompare b ≠ Ordering.gt → b.threeWayCompare a ≠ Ordering.gt → a = b) ∧
    (a.threeWayCompare b = Ordering.lt → b.threeWayCompare c = Ordering.lt →
      a.threeWayCompare c = Ordering.lt) ∧
    (a.threeWayCompare b ≠ Ordering.gt → b.threeWayCompare c ≠ Ordering.gt →
      a.threeWayCompare c ≠ Ordering.gt) := by
  have hext : ∀ x y : TimeHistory.DelayInfo,
      x.timeClock = y.timeClock → x.delay = y.delay → x = y := by
    intro x y h1 h2
    cases x; cases y
    simp only at h1 h2
    rw [h1, h2]
  have hab := threeWayCompare_cases a b
  have hba := threeWayCompare_cases b a
  have hbc := threeWayCompare_cases b c
  have hac := threeWayCompare_cases a c
  refine ⟨?_, ?_, ?_, ?_, ?_, ?_, ?_, ?_⟩
  · rcases hab with ⟨h, e⟩ | ⟨h, e⟩ | ⟨h, g, e⟩ | ⟨h, g, e⟩ | ⟨h, g, e⟩ <;> rw [e] <;>
      simp <;> omega
  · rcases hab with ⟨h, e⟩ | ⟨h, e⟩ | ⟨h, g, e⟩ | ⟨h, g, e⟩ | ⟨h, g, e⟩ <;> rw [e] <;>
      simp <;> omega
  · rcases hab with ⟨h, e⟩ | ⟨h, e⟩ | ⟨h, g, e⟩ | ⟨h, g, e⟩ | ⟨h, g, e⟩
    · rw [e]; simp; intro hh; rw [hh] at h; omega
    · rw [e]; simp; intro hh; rw [hh] at h; omega
    · rw [e]; simp; intro hh; rw [hh] at g; omega
    · rw [e]; simp; intro hh; rw [hh] at g; omega
    · rw [e]; simp; exact hext a b h g
  · rcases hab with ⟨h, e⟩ | ⟨h, e⟩ | ⟨h, g, e⟩ | ⟨h, g, e⟩ | ⟨h, g, e⟩ <;>
      rcases hba with ⟨h', e'⟩ | ⟨h', e'⟩ | ⟨h', g', e'⟩ | ⟨h', g', e'⟩ | ⟨h', g', e'⟩ <;>
      first | omega | (rw [e, e']; decide)
  · rcases hab with ⟨h, e⟩ | ⟨h, e⟩ | ⟨h, g, e⟩ | ⟨h, g, e⟩ | ⟨h, g, e⟩
    · exact Or.inl e
    · rcases hba with ⟨h', e'⟩ | ⟨h', e'⟩ | ⟨h', g', e'⟩ | ⟨h', g', e'⟩ | ⟨h', g', e'⟩ <;>
        first | omega | exact Or.inr (Or.inr e')
    · exact Or.inl e
    · rcases hba with ⟨h', e'⟩ | ⟨h', e'⟩ | ⟨h', g', e'⟩ | ⟨h', g', e'⟩ | ⟨h', g', e'⟩ <;>
        first | omega | exact Or.inr (Or.inr e')
    · exact Or.inr (Or.inl (hext a b h g))
  · intro h1 h2
    rcases hab with ⟨h, e⟩ | ⟨h, e⟩ | ⟨h, g, e⟩ | ⟨h, g, e⟩ | ⟨h, g, e⟩ <;>
      rcases hba with ⟨h', e'⟩ | ⟨h', e'⟩ | ⟨h', g', e'⟩ | ⟨h', g', e'⟩ | ⟨h', g', e'⟩ <;>
      first | omega | exact absurd e h1 | exact absurd e' h2 | exact hext a b h g
  · intro h1 h2
    rcases hab with ⟨h, e⟩ | ⟨h, e⟩ | ⟨h, g, e⟩ | ⟨h, g, e⟩ | ⟨h, g, e⟩ <;>
      rcases hbc with ⟨h', e'⟩ | ⟨h', e'⟩ | ⟨h', g', e'⟩ | ⟨h', g', e'⟩ | ⟨h', g', e'⟩ <;>
      rcases hac with ⟨k, f⟩ | ⟨k, f⟩ | ⟨k, l, f⟩ | ⟨k, l, f⟩ | ⟨k, l, f⟩ <;>
      first
        | omega
        | exact f
        | exact absurd (e.symm.trans h1) (by decide)
        | exact absurd (e'.symm.trans h2) (by decide)
  · intro h1 h2
    rcases hab with ⟨h, e⟩ | ⟨h, e⟩ | ⟨h, g, e⟩ | ⟨h, g, e⟩ | ⟨h, g, e⟩ <;>
      rcases hbc with ⟨h', e'⟩ | ⟨h', e'⟩ | ⟨h', g', e'⟩ | ⟨h', g', e'⟩ | ⟨h', g', e'⟩ <;>
      rcases hac with ⟨k, f⟩ | ⟨k, f⟩ | ⟨k, l, f⟩ | ⟨k, l, f⟩ | ⟨k, l, f⟩ <;>
      first | omega | exact absurd e h1 | exact absurd e' h2 | (rw [f]; decide)

/-! ## Statistics registry -/

open TcpRelayStatisticsInfo in
theorem sizeSub_eq_emod (a b : Nat) :
    ((sizeSub a b : Nat) : Int) = ((a : Int) - (b : Int)) % 2 ^ 64 := by
  unfold sizeSub
  omega

open TcpRelayStatisticsInfo in
theorem sizeSub_eq_sub (a b : Nat) (hba : b ≤ a) (ha : a < 2 ^ 64) : sizeSub a b = a - b := by
  unfold sizeSub
  rw [Nat.mod_eq_of_lt (show b < 2 ^ 64 by omega)]
  omega

open TcpRelayStatisticsInfo in
/-- The state left by `calcByte`, field by field. -/
theorem calcByte_eq (i : Info) :
    i.calcByte =
      { i with
        byteUpChange := sizeSub i.byteUp i.byteUpLast,
        byteDownChange := sizeSub i.byteDown i.byteDownLast,
        byteUpLast := i.byteUp,
        byteDownLast := i.byteDown,
        byteUpChangeMax := max i.byteUpChangeMax (sizeSub i.byteUp i.byteUpLast),
        byteDownChangeMax := max i.byteDownChangeMax (sizeSub i.byteDown i.byteDownLast) } := by
  cases i
  simp only [Info.calcByte]
  split_ifs with h1 h2 h2 <;> dsimp only at h1 h2 ⊢ <;>
    simp only [Info.mk.injEq, true_and, and_true] <;> omega

open TcpRelayStatisticsInfo in
/-- C18: for every bucket state, `calcByte` sets `byteUpChange = byteUp - byteUpLast(old)`
(the `size_t` subtraction, exact when `byteUpLast <= byteUp`), `byteUpLast = byteUp` and
`byteUpChangeMax = max(byteUpChangeMax(old), byteUpChange)`, symmetrically for the Down
fields, and leaves `byteUp`, `byteDown` and the other fields unchanged; with the previous
snapshot 0 and `byteUp = 1500` it gives `byteUpChange = 1500` and
`byteUpChangeMax = max(prior, 1500)`. `calcByteAll` applies it to every bucket of the three
maps. -/
theorem calcByte_tick (i : Info) (r : TcpRelayStatisticsInfo) :
    ((i.calcByte.byteUpChange : Int) = ((i.byteUp : Int) - (i.byteUpLast : Int)) % 2 ^ 64) ∧
    (i.byteUpLast ≤ i.byteUp → i.byteUp < 2 ^ 64 →
      i.calcByte.byteUpChange = i.byteUp - i.byteUpLast) ∧
    i.calcByte.byteUpLast = i.byteUp ∧
    i.calcByte.byteUpChangeMax = max i.byteUpChangeMax i.calcByte.byteUpChange ∧
    ((i.calcByte.byteDownChange : Int) =
      ((i.byteDown : Int) - (i.byteDownLast : Int)) % 2 ^ 64) ∧
    (i.byteDownLast ≤ i.byteDown → i.byteDown < 2 ^ 64 →
      i.calcByte.byteDownChange = i.byteDown - i.byteDownLast) ∧
    i.calcByte.byteDownLast = i.byteDown ∧
    i.calcByte.byteDownChangeMax = max i.byteDownChangeMax i.calcByte.byteDownChange ∧
    i.calcByte.byteUp = i.byteUp ∧ i.calcByte.byteDown = i.byteDown ∧
    i.calcByte.sessions = i.sessions ∧ i.calcByte.connectCount = i.connectCount ∧
    i.calcByte.lastUseUpstreamIndex = i.lastUseUpstreamIndex ∧
    (i.byteUpLast = 0 → i.byteUp = 1500 →
      i.calcByte.byteUpChange = 1500 ∧
        i.calcByte.byteUpChangeMax = max i.byteUpChangeMax 1500) ∧
    (calcByteAll r).upstreamIndex = r.upstreamIndex.map (fun a => (a.1, a.2.calcByte)) ∧
    (calcByteAll r).clientIndex = r.clientIndex.map (fun a => (a.1, a.2.calcByte)) ∧
    (calcByteAll r).listenIndex = r.listenIndex.map (fun a => (a.1, a.2.calcByte)) := by
  have hup : i.calcByte.byteUpChange = sizeSub i.byteUp i.byteUpLast := by
    rw [calcByte_eq]
  have hdown : i.calcByte.byteDownChange = sizeSub i.byteDown i.byteDownLast := by
    rw [calcByte_eq]
  have hupmax : i.calcByte.byteUpChangeMax = max i.byteUpChangeMax i.calcByte.byteUpChange := by
    rw [hup, calcByte_eq]
  have hdownmax : i.calcByte.byteDownChangeMax =
      max i.byteDownChangeMax i.calcByte.byteDownChange := by
    rw [hdown, calcByte_eq]
  refine ⟨?_, ?_, by rw [calcByte_eq], hupmax, ?_, ?_, by rw [calcByte_eq], hdownmax,
    by rw [calcByte_eq], by rw [calcByte_eq], by rw [calcByte_eq], by rw [calcByte_eq],
    by rw [calcByte_eq], ?_, rfl, rfl, rfl⟩
  · rw [hup]; exact sizeSub_eq_emod _ _
  · intro h1 h2; rw [hup]; exact sizeSub_eq_sub _ _ h1 h2
  · rw [hdown]; exact sizeSub_eq_emod _ _
  · intro h1 h2; rw [hdown]; exact sizeSub_eq_sub _ _ h1 h2
  · intro h0 h1
    have hc : i.calcByte.byteUpChange = 1500 := by
      rw [hup, h0, h1]
      decide
    exact ⟨hc, by rw [hupmax, hc]⟩

open TcpRelayStatisticsInfo in
/-- Whenever `updateSessionInfo` returns, the registry is exactly what it was: the code that
refreshes a record is reached only where the bucket lookup failed. -/
theorem updateSessionInfo_unchanged (s : Option TcpRelaySession)
    (r r1 : TcpRelayStatisticsInfo) (h : updateSessionInfo s r = some r1) : r1 = r := by
  unfold updateSessionInfo updateSessionInfoBlock at h
  cases s with
  | none => simp at h; exact h.symm
  | some p =>
    simp only at h
    cases hns : p.nowServer with
    | none => simp [hns] at h
    | some ns =>
      simp only [hns] at h
      cases h1 : r.upstreamIndex.lookup ns.index with
      | none => simp [h1] at h
      | some b1 =>
        cases h2 : r.clientIndex.lookup p.clientEndpointAddrString with
        | none => simp [h1, h2] at h
        | some b2 =>
          cases h3 : r.listenIndex.lookup p.listenEndpointAddrString with
          | none => simp [h1, h2, h3] at h
          | some b3 =>
            simp only [h1, h2, h3, Option.some.injEq] at h
            rw [← h]

open TcpRelayStatisticsInfo in
/-- C19 at a concrete input: the session is indexed under its three keys with a record whose
target string is still empty, and its target has become `example.com:443`;
`updateSessionInfo` returns the registry unchanged, so the three records keep the empty
target string instead of the session's current one. -/
theorem updateSessionInfo_leaves_target_stale :
    updateSessionInfo (some sampleSession) sampleRegistry = some sampleRegistry ∧
    (sampleRegistry.upstreamIndex.lookup 0).map
        (fun i => i.sessions.map (fun a => a.targetEndpointAddrString)) = some [""] ∧
    (sampleRegistry.clientIndex.lookup "10.0.0.1:5000").map
        (fun i => i.sessions.map (fun a => a.targetEndpointAddrString)) = some [""] ∧
    (sampleRegistry.listenIndex.lookup "0.0.0.0:1080").map
        (fun i => i.sessions.map (fun a => a.targetEndpointAddrString)) = some [""] ∧
    sampleSession.targetEndpointAddrString = "example.com:443" ∧
    (SessionInfo.updateTargetInfo (some sampleSession) sampleSessionInfo
      ).targetEndpointAddrString = "example.com:443" := by
  decide

open TcpRelayStatisticsInfo in
theorem removeExpiredSessionLoop_eq_filter (live : Nat → Bool) :
    ∀ l : List SessionInfo,
      Info.removeExpiredSessionLoop live l = l.filter (fun a => !a.expired live) := by
  intro l
  induction l with
  | nil => rfl
  | cons a rest ih =>
    unfold Info.removeExpiredSessionLoop
    cases h : a.expired live <;> simp [h, ih]

open TcpRelayStatisticsInfo in
/-- C20: for every bucket, `removeExpiredSession` leaves exactly the records whose weak
session handle is not expired, in their original relative order, removes all the others and
changes no other field; applied a second time with no handle expiring in between it leaves
the bucket unchanged. `removeExpiredSessionAll` does this for every bucket of the three maps
and is idempotent too. -/
theorem removeExpiredSession_prune (live : Nat → Bool) (i : Info)
    (r : TcpRelayStatisticsInfo) :
    i.removeExpiredSession live =
      { i with sessions := i.sessions.filter (fun a => !a.expired live) } ∧
    (∀ a, a ∈ (i.removeExpiredSession live).sessions ↔
      a ∈ i.sessions ∧ a.expired live = false) ∧
    (i.removeExpiredSession live).sessions.Sublist i.sessions ∧
    (i.removeExpiredSession live).removeExpiredSession live = i.removeExpiredSession live ∧
    (removeExpiredSessionAll live r).upstreamIndex =
      r.upstreamIndex.map (fun a => (a.1, a.2.removeExpiredSession live)) ∧
    (removeExpiredSessionAll live r).clientIndex =
      r.clientIndex.map (fun a => (a.1, a.2.removeExpiredSession live)) ∧
    (removeExpiredSessionAll live r).listenIndex =
      r.listenIndex.map (fun a => (a.1, a.2.removeExpiredSession live)) ∧
    removeExpiredSessionAll live (removeExpiredSessionAll live r) =
      removeExpiredSessionAll live r := by
  have heq : ∀ j : Info, j.removeExpiredSession live =
      { j with sessions := j.sessions.filter (fun a => !a.expired live) } := by
    intro j
    unfold Info.removeExpiredSession
    rw [removeExpiredSessionLoop_eq_filter]
  have hidem : ∀ j : Info,
      (j.removeExpiredSession live).removeExpiredSession live = j.removeExpiredSession live := by
    intro j
    rw [heq (j.removeExpiredSession live), heq j]
    simp [List.filter_filter]
  refine ⟨heq i, ?_, ?_, hidem i, rfl, rfl, rfl, ?_⟩
  · intro a
    rw [heq i]
    simp [List.mem_filter]
  · rw [heq i]
    exact List.filter_sublist _
  · unfold removeExpiredSessionAll
    simp only [List.map_map, Function.comp_def, hidem]

/-! ## Selection with a stale cursor, and the two loops compared -/

/-- With the saved cursor at or beyond the pool size and no eligible server, the loop of
`getNextServer` never returns: the cursor stays below the pool size and never meets the
saved value. -/
theorem getNextServerLoop_stale_diverges (pool : List UpstreamServerRef) (start : Nat)
    (hpos : 0 < pool.length) (hstart : pool.length ≤ start)
    (hnone : ∀ i, i < pool.length → checkServer (poolAt pool i) = false) :
    ∀ fuel cur, getNextServerLoop pool start fuel cur = none := by
  intro fuel
  induction fuel with
  | zero => intro cur; rfl
  | succ f ih =>
    intro cur
    have h2 : (if sizeIncr cur ≥ pool.length then 0 else sizeIncr cur) < pool.length := by
      split_ifs <;> omega
    simp only [getNextServerLoop]
    rw [if_neg (show ¬ checkServer (poolAt pool
        (if sizeIncr cur ≥ pool.length then 0 else sizeIncr cur)) = true by
        rw [hnone _ h2]; simp),
      if_neg (show ¬ start = (if sizeIncr cur ≥ pool.length then 0 else sizeIncr cur) by
        omega), ih]

/-- With the saved cursor at or beyond the pool size and no eligible server, the loop of
`tryGetLastServer` never returns. -/
theorem tryGetLastServerLoop_stale_diverges (pool : List UpstreamServerRef) (start : Nat)
    (hpos : 0 < pool.length) (hstart : pool.length ≤ start)
    (hnone : ∀ i, i < pool.length → checkServer (poolAt pool i) = false) :
    ∀ fuel cur, tryGetLastServerLoop pool start fuel cur = none := by
  intro fuel
  induction fuel with
  | zero => intro cur; rfl
  | succ f ih =>
    intro cur
    have h1 : (if cur ≥ pool.length then 0 else cur) < pool.length := by
      split_ifs <;> omega
    have h3 : (if sizeIncr (if cur ≥ pool.length then 0 else cur) ≥ pool.length then 0
        else sizeIncr (if cur ≥ pool.length then 0 else cur)) < pool.length := by
      split_ifs <;> omega
    simp only [tryGetLastServerLoop]
    rw [if_neg (show ¬ checkServer (poolAt pool (if cur ≥ pool.length then 0 else cur)) = true by
        rw [hnone _ h1]; simp),
      if_neg (show ¬ start =
          (if sizeIncr (if cur ≥ pool.length then 0 else cur) ≥ pool.length then 0
            else sizeIncr (if cur ≥ pool.length then 0 else cur)) by omega), ih]

/-- With a non-empty pool, a cursor at or beyond the pool size and no eligible server,
neither `getNextServer` nor `tryGetLastServer` returns, whatever the fuel. -/
theorem stale_cursor_never_returns (p : UpstreamPool) (hpos : 0 < p._pool.length)
    (hstale : p._pool.length ≤ p.lastUseUpstreamIndex)
    (hnone : ∀ i, i < p._pool.length → checkServer (poolAt p._pool i) = false) (fuel : Nat) :
    getNextServer fuel p = none ∧ tryGetLastServer fuel p = none := by
  have hne : p._pool.isEmpty = false := by
    cases hp : p._pool with
    | nil => rw [hp] at hpos; simp at hpos
    | cons a l => rfl
  unfold getNextServer tryGetLastServer
  rw [hne, getNextServerLoop_stale_diverges p._pool _ hpos hstale hnone,
    tryGetLastServerLoop_stale_diverges p._pool _ hpos hstale hnone]
  exact ⟨rfl, rfl⟩

/-- C27 at a concrete input: `setConfig` replaces a pool of three servers, cursor 2, by a pool
of one server that has passed no probe yet; the cursor is still 2, and from that state
neither `getNextServer` nor `tryGetLastServer` returns, whatever the number of iterations
allowed (the claim says they return null). -/
theorem stale_cursor_after_setConfig_never_returns :
    (setConfig sampleConstructor cfgOne
        (poolOf RuleEnum.loop [some (srvUp 0), some (srvUp 1), some (srvUp 2)] 2)
      ).lastUseUpstreamIndex = 2 ∧
    (setConfig sampleConstructor cfgOne
        (poolOf RuleEnum.loop [some (srvUp 0), some (srvUp 1), some (srvUp 2)] 2)
      )._pool.length = 1 ∧
    ∀ fuel,
      getNextServer fuel
          (setConfig sampleConstructor cfgOne
            (poolOf RuleEnum.loop [some (srvUp 0), some (srvUp 1), some (srvUp 2)] 2)) = none ∧
      tryGetLastServer fuel
          (setConfig sampleConstructor cfgOne
            (poolOf RuleEnum.loop [some (srvUp 0), some (srvUp 1), some (srvUp 2)] 2)) = none :=
  ⟨by decide, by decide, fun fuel =>
    stale_cursor_never_returns _ (by decide) (by decide) (by decide) fuel⟩

/-- C28: for every non-empty pool and cursor `c` below the pool size whose server is not
eligible, `getNextServer` and `tryGetLastServer` started from the same state both return
(fuel `n` is enough), with the same reference and the same resulting state, cursor included;
hence the two differ only when the cursor's own server is eligible. -/
theorem loop_and_one_by_one_agree (p : UpstreamPool) (fuel : Nat)
    (hn : p._pool.length < 2 ^ 64)
    (hc : p.lastUseUpstreamIndex < p._pool.length)
    (hf : p._pool.length ≤ fuel)
    (he : checkServer (poolAt p._pool p.lastUseUpstreamIndex) = false) :
    ∃ r, getNextServer fuel p = some r ∧ tryGetLastServer fuel p = some r := by
  by_cases hex : ∃ i, i < p._pool.length ∧ checkServer (poolAt p._pool i) = true
  · obtain ⟨k, hk1, hkn, hfound, hleast⟩ :=
      exists_least_step (fun i => checkServer (poolAt p._pool i)) hc hex
    have hkne : k ≠ p._pool.length := by
      intro h
      rw [h] at hfound
      simp only [add_self_mod hc] at hfound
      rw [he] at hfound
      exact Bool.noConfusion hfound
    refine ⟨_, getNextServer_found p (le_of_lt hn) hc k fuel hk1 hkn (by omega) hleast hfound,
      tryGetLastServer_found p (le_of_lt hn) hc k fuel (by omega) (by omega) ?_ hfound⟩
    intro j hj
    by_cases hj0 : j = 0
    · rw [hj0, Nat.add_zero, Nat.mod_eq_of_lt hc]; exact he
    · exact hleast j (by omega) hj
  · have hnone : ∀ i, i < p._pool.length → checkServer (poolAt p._pool i) = false := by
      intro i hi
      cases h : checkServer (poolAt p._pool i) with
      | false => rfl
      | true => exact absurd ⟨i, hi, h⟩ hex
    exact ⟨_, getNextServer_none p (le_of_lt hn) hc fuel hf hnone,
      tryGetLastServer_none p (le_of_lt hn) hc fuel hf hnone⟩

/-- Evaluation of C28: cursor 1 on an offline server, servers 0 and 2 eligible; both calls
return server 2 and leave the cursor at 2. -/
theorem loop_and_one_by_one_agree_witness :
    ∃ r,
      getNextServer 3
          (poolOf RuleEnum.loop [some (srvUp 0), some (srvDown 1), some (srvUp 2)] 1) =
        some r ∧
      tryGetLastServer 3
          (poolOf RuleEnum.loop [some (srvUp 0), some (srvDown 1), some (srvUp 2)] 1) =
        some r ∧
      r.1 = some (srvUp 2) ∧ r.2.lastUseUpstreamIndex = 2 := by
  obtain ⟨r, h1, h2⟩ := loop_and_one_by_one_agree
    (poolOf RuleEnum.loop [some (srvUp 0), some (srvDown 1), some (srvUp 2)] 1) 3
    (by decide) (by decide) (by decide) (by decide)
  have h3 : getNextServer 3
      (poolOf RuleEnum.loop [some (srvUp 0), some (srvDown 1), some (srvUp 2)] 1) =
      some (some (srvUp 2),
        poolOf RuleEnum.loop [some (srvUp 0), some (srvDown 1), some (srvUp 2)] 2) := by
    decide
  rw [h3] at h1
  cases h1
  exact ⟨_, h3, h2, rfl, rfl⟩

/-! ## The cursor stays in range -/

/-- Whenever the loop of `getNextServer` returns on a non-empty pool, the cursor it leaves is
below the pool size. -/
theorem getNextServerLoop_cursor_lt (pool : List UpstreamServerRef) (start : Nat)
    (hpos : 0 < pool.length) :
    ∀ fuel cur r, getNextServerLoop pool start fuel cur = some r → r.2 < pool.length := by
  intro fuel
  induction fuel with
  | zero => intro cur r h; cases h
  | succ f ih =>
    intro cur r h
    simp only [getNextServerLoop] at h
    generalize hcur2 : (if sizeIncr cur ≥ pool.length then 0 else sizeIncr cur) = cur2 at h
    have h2 : cur2 < pool.length := by
      rw [← hcur2]
      split_ifs <;> omega
    by_cases hcheck : checkServer (poolAt pool cur2) = true
    · rw [if_pos hcheck] at h
      cases h
      exact h2
    · rw [if_neg hcheck] at h
      by_cases hs : start = cur2
      · rw [if_pos hs] at h
        cases h
        exact h2
      · rw [if_neg hs] at h
        exact ih cur2 r h

/-- Whenever the loop of `tryGetLastServer` returns on a non-empty pool, the cursor it leaves
is below the pool size. -/
theorem tryGetLastServerLoop_cursor_lt (pool : List UpstreamServerRef) (start : Nat)
    (hpos : 0 < pool.length) :
    ∀ fuel cur r, tryGetLastServerLoop pool start fuel cur = some r → r.2 < pool.length := by
  intro fuel
  induction fuel with
  | zero => intro cur r h; cases h
  | succ f ih =>
    intro cur r h
    simp only [tryGetLastServerLoop] at h
    generalize hcur1 : (if cur ≥ pool.length then 0 else cur) = cur1 at h
    have h1 : cur1 < pool.length := by
      rw [← hcur1]
      split_ifs <;> omega
    generalize hcur3 : (if sizeIncr cur1 ≥ pool.length then 0 else sizeIncr cur1) = cur3 at h
    have h3 : cur3 < pool.length := by
      rw [← hcur3]
      split_ifs <;> omega
    by_cases hcheck : checkServer (poolAt pool cur1) = true
    · rw [if_pos hcheck] at h
      cases h
      exact h1
    · rw [if_neg hcheck] at h
      by_cases hs : start = cur3
      · rw [if_pos hs] at h
        cases h
        exact h3
      · rw [if_neg hs] at h
        exact ih cur3 r h

theorem getNextServer_cursor_lt (p : UpstreamPool) (hpos : 0 < p._pool.length) (fuel : Nat)
    (r : UpstreamServerRef × UpstreamPool) (h : getNextServer fuel p = some r) :
    r.2.lastUseUpstreamIndex < r.2._pool.length ∧ r.2._pool = p._pool ∧
      r.2.lastChangeUpstreamTime = p.lastChangeUpstreamTime := by
  have hne : p._pool.isEmpty = false := by
    cases hp : p._pool with
    | nil => rw [hp] at hpos; simp at hpos
    | cons a l => rfl
  unfold getNextServer at h
  rw [hne] at h
  simp only [Bool.false_eq_true, if_false] at h
  cases hloop : getNextServerLoop p._pool p.lastUseUpstreamIndex fuel p.lastUseUpstreamIndex with
  | none => rw [hloop] at h; cases h
  | some x =>
    rw [hloop] at h
    cases h
    exact ⟨getNextServerLoop_cursor_lt p._pool _ hpos fuel _ x hloop, rfl, rfl⟩

theorem tryGetLastServer_cursor_lt (p : UpstreamPool) (hpos : 0 < p._pool.length) (fuel : Nat)
    (r : UpstreamServerRef × UpstreamPool) (h : tryGetLastServer fuel p = some r) :
    r.2.lastUseUpstreamIndex < r.2._pool.length ∧ r.2._pool = p._pool ∧
      r.2.lastChangeUpstreamTime = p.lastChangeUpstreamTime := by
  have hne : p._pool.isEmpty = false := by
    cases hp : p._pool with
    | nil => rw [hp] at hpos; simp at hpos
    | cons a l => rfl
  unfold tryGetLastServer at h
  rw [hne] at h
  simp only [Bool.false_eq_true, if_false] at h
  cases hloop : tryGetLastServerLoop p._pool p.lastUseUpstreamIndex fuel
      p.lastUseUpstreamIndex with
  | none => rw [hloop] at h; cases h
  | some x =>
    rw [hloop] at h
    cases h
    exact ⟨tryGetLastServerLoop_cursor_lt p._pool _ hpos fuel _ x hloop, rfl, rfl⟩

/-- With the cursor in range and fuel `n`, `getNextServer` returns. -/
theorem getNextServer_total (p : UpstreamPool) (hn : p._pool.length ≤ 2 ^ 64)
    (hc : p.lastUseUpstreamIndex < p._pool.length) (fuel : Nat) (hf : p._pool.length ≤ fuel) :
    ∃ r, getNextServer fuel p = some r := by
  by_cases hex : ∃ i, i < p._pool.length ∧ checkServer (poolAt p._pool i) = true
  · obtain ⟨k, hk1, hkn, hfound, hleast⟩ :=
      exists_least_step (fun i => checkServer (poolAt p._pool i)) hc hex
    exact ⟨_, getNextServer_found p hn hc k fuel hk1 hkn (by omega) hleast hfound⟩
  · have hnone : ∀ i, i < p._pool.length → checkServer (poolAt p._pool i) = false := by
      intro i hi
      cases h : checkServer (poolAt p._pool i) with
      | false => rfl
      | true => exact absurd ⟨i, hi, h⟩ hex
    exact ⟨_, getNextServer_none p hn hc fuel hf hnone⟩

/-- With the cursor in range and fuel `n`, `tryGetLastServer` returns. -/
theorem tryGetLastServer_total (p : UpstreamPool) (hn : p._pool.length ≤ 2 ^ 64)
    (hc : p.lastUseUpstreamIndex < p._pool.length) (fuel : Nat) (hf : p._pool.length ≤ fuel) :
    ∃ r, tryGetLastServer fuel p = some r := by
  by_cases he : checkServer (poolAt p._pool p.lastUseUpstreamIndex) = true
  · exact ⟨_, tryGetLastServer_here p hn hc fuel (by omega) he⟩
  · have he0 : checkServer (poolAt p._pool p.lastUseUpstreamIndex) = false := by
      simpa using he
    by_cases hex : ∃ i, i < p._pool.length ∧ checkServer (poolAt p._pool i) = true
    · obtain ⟨k, _, _, _, _, hcall⟩ := tryGetLastServer_ahead p hn hc fuel hf he0 hex
      exact ⟨_, hcall⟩
    · have hnone : ∀ i, i < p._pool.length → checkServer (poolAt p._pool i) = false := by
        intro i hi
        cases h : checkServer (poolAt p._pool i) with
        | false => rfl
        | true => exact absurd ⟨i, hi, h⟩ hex
      exact ⟨_, tryGetLastServer_none p hn hc fuel hf hnone⟩

/-- C29: cursor bounds invariant. For every non-empty pool with `lastUseUpstreamIndex` below
the pool size, the cursor is below the pool size (and the pool is unchanged) after
`getNextServer`, after `tryGetLastServer`, after a selection under any rule, and after
`forceSetLastUseUpstreamIndex(i)` for every `i`, which sets the cursor to `i` when `i` is
below the pool size and changes nothing otherwise; and with fuel `n` these calls return. -/
theorem cursor_stays_in_range (p : UpstreamPool)
    (hc : p.lastUseUpstreamIndex < p._pool.length) :
    (∀ fuel r, getNextServer fuel p = some r →
      r.2.lastUseUpstreamIndex < r.2._pool.length ∧ r.2._pool = p._pool) ∧
    (∀ fuel r, tryGetLastServer fuel p = some r →
      r.2.lastUseUpstreamIndex < r.2._pool.length ∧ r.2._pool = p._pool) ∧
    (∀ fuel now now2 g r, getServerBasedOnAddress fuel now now2 g p = some r →
      r.2.lastUseUpstreamIndex < r.2._pool.length ∧ r.2._pool = p._pool) ∧
    (∀ i,
      (forceSetLastUseUpstreamIndex i p).lastUseUpstreamIndex <
          (forceSetLastUseUpstreamIndex i p)._pool.length ∧
        (i < p._pool.length → forceSetLastUseUpstreamIndex i p =
          { p with lastUseUpstreamIndex := i }) ∧
        (¬ i < p._pool.length → forceSetLastUseUpstreamIndex i p = p)) ∧
    (p._pool.length < 2 ^ 64 → ∀ fuel now now2 g, p._pool.length ≤ fuel →
      (∃ r, getNextServer fuel p = some r) ∧ (∃ r, tryGetLastServer fuel p = some r) ∧
        ∃ r, getServerBasedOnAddress fuel now now2 g p = some r) := by
  have hpos : 0 < p._pool.length := by omega
  have hnext := fun fuel r h => getNextServer_cursor_lt p hpos fuel r h
  have htry := fun fuel r h => tryGetLastServer_cursor_lt p hpos fuel r h
  refine ⟨fun fuel r h => ⟨(hnext fuel r h).1, (hnext fuel r h).2.1⟩,
    fun fuel r h => ⟨(htry fuel r h).1, (htry fuel r h).2.1⟩, ?_, ?_, ?_⟩
  · intro fuel now now2 g r h
    unfold getServerBasedOnAddress at h
    cases hrule : p._configLoader.upstreamSelectRule with
    | loop =>
      simp only [hrule] at h
      exact ⟨(hnext fuel r h).1, (hnext fuel r h).2.1⟩
    | one_by_one =>
      simp only [hrule] at h
      exact ⟨(htry fuel r h).1, (htry fuel r h).2.1⟩
    | change_by_time =>
      simp only [hrule] at h
      by_cases hgt : now - p.lastChangeUpstreamTime > p._configLoader.serverChangeTime
      · rw [if_pos hgt] at h
        cases hcall : getNextServer fuel p with
        | none => rw [hcall] at h; cases h
        | some x =>
          rw [hcall] at h
          cases h
          exact ⟨(hnext fuel x hcall).1, (hnext fuel x hcall).2.1⟩
      · rw [if_neg hgt] at h
        exact ⟨(htry fuel r h).1, (htry fuel r h).2.1⟩
    | random =>
      simp only [hrule] at h
      split_ifs at h <;> cases h <;> exact ⟨hc, rfl⟩
  · intro i
    by_cases hi : i < p._pool.length
    · have hv : forceSetLastUseUpstreamIndex i p = { p with lastUseUpstreamIndex := i } := by
        unfold forceSetLastUseUpstreamIndex
        rw [if_pos ⟨Nat.zero_le _, hi⟩]
      rw [hv]
      exact ⟨hi, fun _ => rfl, fun h => absurd hi h⟩
    · have hv : forceSetLastUseUpstreamIndex i p = p := by
        unfold forceSetLastUseUpstreamIndex
        rw [if_neg (fun h => hi h.2)]
      rw [hv]
      exact ⟨hc, fun h => absurd h hi, fun _ => rfl⟩
  · intro hn fuel now now2 g hf
    have h1 := getNextServer_total p (le_of_lt hn) hc fuel hf
    have h2 := tryGetLastServer_total p (le_of_lt hn) hc fuel hf
    refine ⟨h1, h2, ?_⟩
    unfold getServerBasedOnAddress
    cases hrule : p._configLoader.upstreamSelectRule with
    | loop => exact h1
    | one_by_one => exact h2
    | change_by_time =>
      simp only
      by_cases hgt : now - p.lastChangeUpstreamTime > p._configLoader.serverChangeTime
      · rw [if_pos hgt]
        obtain ⟨x, hx⟩ := h1
        exact ⟨_, by rw [hx]; rfl⟩
      · rw [if_neg hgt]
        exact h2
    | random =>
      simp only
      split_ifs
      · exact ⟨_, rfl⟩
      · exact ⟨_, rfl⟩

/-- Evaluation of C29: three servers, cursor 1; `forceSetLastUseUpstreamIndex(7)` changes
nothing, and a selection returns with the cursor below the pool size. -/
theorem cursor_stays_in_range_witness :
    forceSetLastUseUpstreamIndex 7
        (poolOf RuleEnum.loop [some (srvUp 0), some (srvDown 1), some (srvUp 2)] 1) =
      poolOf RuleEnum.loop [some (srvUp 0), some (srvDown 1), some (srvUp 2)] 1 ∧
    ∃ r,
      getServerBasedOnAddress 3 0 0 0
          (poolOf RuleEnum.loop [some (srvUp 0), some (srvDown 1), some (srvUp 2)] 1) =
        some r ∧
      r.2.lastUseUpstreamIndex < r.2._pool.length := by
  have h := cursor_stays_in_range
    (poolOf RuleEnum.loop [some (srvUp 0), some (srvDown 1), some (srvUp 2)] 1) (by decide)
  obtain ⟨r, hr⟩ := (h.2.2.2.2 (by decide) 3 0 0 0 (by decide)).2.2
  exact ⟨(h.2.2.2.1 7).2.2 (by decide), r, hr, (h.2.2.1 3 0 0 0 r hr).1⟩

/-! ## Health checker: timers of the periodic cycles and probe arguments -/

/-- The handler of the end-to-end timer, when it returns, has re-armed the timer at the expiry
of `tcpCheckerTimer` plus `connectCheckPeriod`, whatever its own previous expiry. -/
theorem do_connectCheckerTimer_c_expiry (now : UpstreamTimePoint) (p : UpstreamPool)
    (own tcp : SteadyTimePoint)
    (hown : p.connectCheckerTimer = some own) (htcp : p.tcpCheckerTimer = some tcp)
    (h : (do_connectCheckerTimer_c false now p).run.undefined = false) :
    (do_connectCheckerTimer_c false now p).pool.connectCheckerTimer =
      some (tcp + p._configLoader.connectCheckPeriod) := by
  unfold do_connectCheckerTimer_c at h ⊢
  simp only [Bool.false_eq_true, if_false, hown, htcp] at h ⊢
  generalize (if now - p.lastConnectComeTime ≤ p._configLoader.sleepTime then
    do_connectCheckerTimer_impl p else CheckRun.nothing) = r at h ⊢
  cases hu : r.undefined with
  | true => simp [hu] at h
  | false => simp [hu]

/-- C25 at a concrete input: `tcpCheckStart = 1`, `tcpCheckPeriod = 5`,
`connectCheckStart = 2`, `connectCheckPeriod = 300`, one server, timers started at time 0, the
last client connection longer ago than `sleepTime` when the timers fire (system clock 2000),
so that the handlers run no cycle. The first expiry of the end-to-end timer is 2, as claimed;
the TCP timer fires at 1 and is re-armed at 6; the end-to-end timer fires at 2, its handler
returns and has re-armed it at `6 + 300 = 306`, not at its own previous expiry plus the
period, `2 + 300 = 302`. The same happens with a client one tick ago when the server is
manually disabled. With a client one tick ago and the server not disabled the handler does
not reach the re-arming: its cycle stops at `createTest`. -/
theorem connect_timer_rearmed_from_tcp_timer :
    (startCheckTimer 0 0 0
        { poolOf RuleEnum.loop [some (srvUp 0)] 0 with
          _configLoader := { cfgOf RuleEnum.loop with connectCheckStart := 2 } }
      ).connectCheckerTimer = some 2 ∧
    (do_tcpCheckerTimer_c false 2000
        (startCheckTimer 0 0 0
          { poolOf RuleEnum.loop [some (srvUp 0)] 0 with
            _configLoader := { cfgOf RuleEnum.loop with connectCheckStart := 2 } })
      ).pool.tcpCheckerTimer = some 6 ∧
    (do_connectCheckerTimer_c false 2000
        (do_tcpCheckerTimer_c false 2000
          (startCheckTimer 0 0 0
            { poolOf RuleEnum.loop [some (srvUp 0)] 0 with
              _configLoader := { cfgOf RuleEnum.loop with connectCheckStart := 2 } })).pool
      ).run = CheckRun.nothing ∧
    (do_connectCheckerTimer_c false 2000
        (do_tcpCheckerTimer_c false 2000
          (startCheckTimer 0 0 0
            { poolOf RuleEnum.loop [some (srvUp 0)] 0 with
              _configLoader := { cfgOf RuleEnum.loop with connectCheckStart := 2 } })).pool
      ).pool.connectCheckerTimer = some 306 ∧
    (2 : Int) + ({ cfgOf RuleEnum.loop with connectCheckStart := 2 } : Config).connectCheckPeriod
      = 302 ∧
    (do_connectCheckerTimer_c false 1
        (do_tcpCheckerTimer_c false 1
          (startCheckTimer 0 0 0
            { poolOf RuleEnum.loop [some { srvUp 0 with isManualDisable := true }] 0 with
              _configLoader := { cfgOf RuleEnum.loop with connectCheckStart := 2 } })).pool
      ).run = CheckRun.nothing ∧
    (do_connectCheckerTimer_c false 1
        (do_tcpCheckerTimer_c false 1
          (startCheckTimer 0 0 0
            { poolOf RuleEnum.loop [some { srvUp 0 with isManualDisable := true }] 0 with
              _configLoader := { cfgOf RuleEnum.loop with connectCheckStart := 2 } })).pool
      ).pool.connectCheckerTimer = some 306 ∧
    (do_connectCheckerTimer_c false 1
        (do_tcpCheckerTimer_c false 1
          (startCheckTimer 0 0 0
            { poolOf RuleEnum.loop [some (srvUp 0)] 0 with
              _configLoader := { cfgOf RuleEnum.loop with connectCheckStart := 2 } })).pool
      ).run.undefined = true ∧
    (do_connectCheckerTimer_c false 1
        (do_tcpCheckerTimer_c false 1
          (startCheckTimer 0 0 0
            { poolOf RuleEnum.loop [some (srvUp 0)] 0 with
              _configLoader := { cfgOf RuleEnum.loop with connectCheckStart := 2 } })).pool
      ).pool.connectCheckerTimer = some 2 := by
  decide

/-- C26: the session that `createTest` constructs for a server, in the full cycle and in the
single-server check, targets `(testRemoteHost, testRemotePort)` through the server's
`(host, port)`, but its request path is the one-character string made of a backslash, not the
string made of a slash: so it is at a concrete input (server `127.0.0.1:11080`, target
`example.com:443`), and for every pool, configuration and server. -/
theorem connect_probe_path_is_backslash :
    (do_connectCheckerTimer_impl (poolOf RuleEnum.loop [some (srvUp 0)] 0)).created =
      [{ targetHost := "example.com", targetPort := 443, targetPath := "\\",
         httpVersion := 11, socks5Host := "127.0.0.1", socks5Port := "11080" }] ∧
    (do_connectCheckerOne_impl (cfgOf RuleEnum.loop) 0 (some (srvUp 0))).created =
      [{ targetHost := "example.com", targetPort := 443, targetPath := "\\",
         httpVersion := 11, socks5Host := "127.0.0.1", socks5Port := "11080" }] ∧
    "\\".length = 1 ∧ "\\" ≠ "/" ∧
    (∀ (p : UpstreamPool) (s : ConnectTestHttpsSession),
      s ∈ (do_connectCheckerTimer_impl p).created →
        s.targetPath = "\\" ∧ s.targetHost = p._configLoader.testRemoteHost ∧
        s.targetPort = p._configLoader.testRemotePort ∧
        ∃ (j : Nat) (a : UpstreamServer), p._pool[j]? = some (some a) ∧
          s.socks5Host = a.host ∧ s.socks5Port = toString a.port) ∧
    (∀ (c : Config) (i : Nat) (a : UpstreamServer),
      (do_connectCheckerOne_impl c i (some a)).created =
        [{ targetHost := c.testRemoteHost, targetPort := c.testRemotePort,
           targetPath := "\\", httpVersion := 11, socks5Host := a.host,
           socks5Port := toString a.port }]) := by
  refine ⟨by decide, by decide, by decide, by decide, ?_, fun c i a => rfl⟩
  intro p s hs
  obtain ⟨h1, h2, h3, _, j, a, hj, _, h5, h6⟩ :=
    (do_connectCheckerTimer_implFrom_spec p._configLoader p._pool 0).2.1 s hs
  exact ⟨h1, h2, h3, j, a, hj, h5, h6⟩

/-! ## Byte accounting over interleavings -/

open TcpRelayStatisticsInfo in
/-- The bucket found under a key after an in-place update is the updated bucket. -/
theorem lookup_modifyBucket {K : Type} [BEq K] (k : K) (f : Info → Info) :
    ∀ m : List (K × Info), (modifyBucket k f m).lookup k = (m.lookup k).map f := by
  intro m
  induction m with
  | nil => rfl
  | cons a rest ih =>
    obtain ⟨ka, ia⟩ := a
    unfold modifyBucket
    cases h : k == ka with
    | true => simp [List.lookup, h]
    | false => simp [List.lookup, h, ih]

open TcpRelayStatisticsInfo in
/-- One step never lowers the maxima and moves the snapshots only by the change recorded. -/
theorem byteStep_spec (i : Info) (ev : ByteEvent) :
    i.byteUpChangeMax ≤ (i.byteStep ev).byteUpChangeMax ∧
    i.byteDownChangeMax ≤ (i.byteStep ev).byteDownChangeMax ∧
    (ev = ByteEvent.tick →
      ((i.byteStep ev).byteUpChange : Int) % 2 ^ 64 =
          (((i.byteStep ev).byteUpLast : Int) - (i.byteUpLast : Int)) % 2 ^ 64 ∧
      ((i.byteStep ev).byteDownChange : Int) % 2 ^ 64 =
          (((i.byteStep ev).byteDownLast : Int) - (i.byteDownLast : Int)) % 2 ^ 64 ∧
      (i.byteStep ev).byteUpChange ≤ (i.byteStep ev).byteUpChangeMax ∧
      (i.byteStep ev).byteDownChange ≤ (i.byteStep ev).byteDownChangeMax) ∧
    (ev ≠ ByteEvent.tick →
      (i.byteStep ev).byteUpLast = i.byteUpLast ∧
      (i.byteStep ev).byteDownLast = i.byteDownLast) := by
  cases ev with
  | addUp b => exact ⟨le_refl _, le_refl _, fun h => (by cases h), fun _ => ⟨rfl, rfl⟩⟩
  | addDown b => exact ⟨le_refl _, le_refl _, fun h => (by cases h), fun _ => ⟨rfl, rfl⟩⟩
  | tick =>
    have hu := sizeSub_eq_emod i.byteUp i.byteUpLast
    have hd := sizeSub_eq_emod i.byteDown i.byteDownLast
    simp only [Info.byteStep]
    rw [calcByte_eq]
    simp only
    refine ⟨by omega, by omega, fun _ => ⟨?_, ?_, by omega, by omega⟩, fun h => absurd rfl h⟩
    · rw [hu]; omega
    · rw [hd]; omega

open TcpRelayStatisticsInfo in
/-- Over any interleaving: the changes produced add up, modulo `2 ^ 64`, to the movement of
the snapshots; the maxima do not decrease; each change produced is at most the final
maximum. -/
theorem byteRun_spec :
    ∀ (events : List ByteEvent) (i : Info),
      (((i.byteRun events).2.map (fun c => (c.1 : Int))).sum % 2 ^ 64 =
        (((i.byteRun events).1.byteUpLast : Int) - (i.byteUpLast : Int)) % 2 ^ 64) ∧
      (((i.byteRun events).2.map (fun c => (c.2 : Int))).sum % 2 ^ 64 =
        (((i.byteRun events).1.byteDownLast : Int) - (i.byteDownLast : Int)) % 2 ^ 64) ∧
      i.byteUpChangeMax ≤ (i.byteRun events).1.byteUpChangeMax ∧
      i.byteDownChangeMax ≤ (i.byteRun events).1.byteDownChangeMax ∧
      (∀ c, c ∈ (i.byteRun events).2 →
        c.1 ≤ (i.byteRun events).1.byteUpChangeMax ∧
          c.2 ≤ (i.byteRun events).1.byteDownChangeMax) ∧
      (i.byteRun events).2.length = events.count ByteEvent.tick := by
  intro events
  induction events with
  | nil =>
    intro i
    simp [Info.byteRun]
  | cons ev rest ih =>
    intro i
    obtain ⟨hsu, hsd, hmu, hmd, hall, hlen⟩ := ih (i.byteStep ev)
    obtain ⟨h1, h2, hcalc, hother⟩ := byteStep_spec i ev
    cases ev with
    | tick =>
      obtain ⟨hcu, hcd, hle1, hle2⟩ := hcalc rfl
      simp only [Info.byteRun, List.map_cons, List.sum_cons, List.length_cons,
        List.count_cons_self]
      refine ⟨by omega, by omega, by omega, by omega, ?_, by omega⟩
      intro c hc
      rcases List.mem_cons.1 hc with h | h
      · rw [h]
        exact ⟨by simp only; omega, by simp only; omega⟩
      · exact hall c h
    | addUp b =>
      obtain ⟨hl1, hl2⟩ := hother (by simp)
      simp only [Info.byteRun]
      refine ⟨by rw [← hl1]; exact hsu, by rw [← hl2]; exact hsd, by omega, by omega, hall, ?_⟩
      rw [hlen]
      simp
    | addDown b =>
      obtain ⟨hl1, hl2⟩ := hother (by simp)
      simp only [Info.byteRun]
      refine ⟨by rw [← hl1]; exact hsu, by rw [← hl2]; exact hsd, by omega, by omega, hall, ?_⟩
      rw [hlen]
      simp

open TcpRelayStatisticsInfo in
/-- One step on the counters and snapshots: an addition adds its bytes to its counter modulo
`2 ^ 64` and leaves the snapshots; `calcByte` leaves the counters, records their distance
to the snapshots and moves the snapshots onto them. -/
theorem byteStep_counters (i : Info) (ev : ByteEvent) :
    (i.byteStep ev).byteUp % 2 ^ 64 = (i.byteUp + ev.upBytes) % 2 ^ 64 ∧
    (i.byteStep ev).byteDown % 2 ^ 64 = (i.byteDown + ev.downBytes) % 2 ^ 64 ∧
    (ev = ByteEvent.tick →
      (i.byteStep ev).byteUp = i.byteUp ∧ (i.byteStep ev).byteDown = i.byteDown ∧
      (i.byteStep ev).byteUpLast = i.byteUp ∧ (i.byteStep ev).byteDownLast = i.byteDown ∧
      ((i.byteStep ev).byteUpChange : Int) = ((i.byteUp : Int) - (i.byteUpLast : Int)) % 2 ^ 64 ∧
      ((i.byteStep ev).byteDownChange : Int) =
        ((i.byteDown : Int) - (i.byteDownLast : Int)) % 2 ^ 64) ∧
    (ev ≠ ByteEvent.tick →
      (i.byteStep ev).byteUpLast = i.byteUpLast ∧
      (i.byteStep ev).byteDownLast = i.byteDownLast) := by
  cases ev with
  | addUp b =>
    refine ⟨?_, rfl, fun h => (by cases h), fun _ => ⟨rfl, rfl⟩⟩
    show (i.byteUp + b) % 2 ^ 64 % 2 ^ 64 = (i.byteUp + b) % 2 ^ 64
    omega
  | addDown b =>
    refine ⟨rfl, ?_, fun h => (by cases h), fun _ => ⟨rfl, rfl⟩⟩
    show (i.byteDown + b) % 2 ^ 64 % 2 ^ 64 = (i.byteDown + b) % 2 ^ 64
    omega
  | tick =>
    have hu := sizeSub_eq_emod i.byteUp i.byteUpLast
    have hd := sizeSub_eq_emod i.byteDown i.byteDownLast
    simp only [Info.byteStep]
    rw [calcByte_eq]
    exact ⟨rfl, rfl, fun _ => ⟨rfl, rfl, rfl, rfl, hu, hd⟩, fun h => absurd rfl h⟩

open TcpRelayStatisticsInfo in
/-- Conservation over any interleaving, modulo `2 ^ 64`: the changes produced by the calls of
`calcByte`, plus what the final counter holds beyond the final snapshot, equal what the
counter held beyond the snapshot at the start plus all the bytes added; and the final counter
is the counter at the start plus all the bytes added. -/
theorem byteRun_conservation :
    ∀ (events : List ByteEvent) (i : Info),
      ((((i.byteRun events).2.map (fun c => (c.1 : Int))).sum +
          (((i.byteRun events).1.byteUp : Int) - ((i.byteRun events).1.byteUpLast : Int)))
          % 2 ^ 64 =
        (((i.byteUp : Int) - (i.byteUpLast : Int)) +
          (((events.map ByteEvent.upBytes).sum : Nat) : Int)) % 2 ^ 64) ∧
      ((((i.byteRun events).2.map (fun c => (c.2 : Int))).sum +
          (((i.byteRun events).1.byteDown : Int) - ((i.byteRun events).1.byteDownLast : Int)))
          % 2 ^ 64 =
        (((i.byteDown : Int) - (i.byteDownLast : Int)) +
          (((events.map ByteEvent.downBytes).sum : Nat) : Int)) % 2 ^ 64) ∧
      (i.byteRun events).1.byteUp % 2 ^ 64 =
        (i.byteUp + (events.map ByteEvent.upBytes).sum) % 2 ^ 64 ∧
      (i.byteRun events).1.byteDown % 2 ^ 64 =
        (i.byteDown + (events.map ByteEvent.downBytes).sum) % 2 ^ 64 := by
  intro events
  induction events with
  | nil =>
    intro i
    simp [Info.byteRun]
  | cons ev rest ih =>
    intro i
    obtain ⟨hu, hd, hcu, hcd⟩ := ih (i.byteStep ev)
    obtain ⟨h1, h2, htick, hother⟩ := byteStep_counters i ev
    cases ev with
    | tick =>
      obtain ⟨e1, e2, e3, e4, e5, e6⟩ := htick rfl
      simp only [Info.byteRun, List.map_cons, List.sum_cons, ByteEvent.upBytes,
        ByteEvent.downBytes] at hu hd hcu hcd h1 h2 ⊢
      refine ⟨by omega, by omega, by omega, by omega⟩
    | addUp b =>
      obtain ⟨hl1, hl2⟩ := hother (by simp)
      simp only [Info.byteRun, List.map_cons, List.sum_cons, ByteEvent.upBytes,
        ByteEvent.downBytes] at hu hd hcu hcd h1 h2 ⊢
      refine ⟨by omega, by omega, by omega, by omega⟩
    | addDown b =>
      obtain ⟨hl1, hl2⟩ := hother (by simp)
      simp only [Info.byteRun, List.map_cons, List.sum_cons, ByteEvent.upBytes,
        ByteEvent.downBytes] at hu hd hcu hcd h1 h2 ⊢
      refine ⟨by omega, by omega, by omega, by omega⟩

open TcpRelayStatisticsInfo in
/-- An interleaving followed by one more call of `calcByte`: the final state is `calcByte` of
the state after the interleaving, and the changes are those of the interleaving followed by
the change of that call. -/
theorem byteRun_append_tick :
    ∀ (events : List ByteEvent) (i : Info),
      (i.byteRun (events ++ [ByteEvent.tick])).1 = (i.byteRun events).1.calcByte ∧
      (i.byteRun (events ++ [ByteEvent.tick])).2 =
        (i.byteRun events).2 ++
          [((i.byteRun events).1.calcByte.byteUpChange,
            (i.byteRun events).1.calcByte.byteDownChange)] := by
  intro events
  induction events with
  | nil =>
    intro i
    simp [Info.byteRun, Info.byteStep]
  | cons ev rest ih =>
    intro i
    obtain ⟨h1, h2⟩ := ih (i.byteStep ev)
    cases ev with
    | tick =>
      constructor
      · exact h1
      · show _ :: ((i.byteStep ByteEvent.tick).byteRun (rest ++ [ByteEvent.tick])).2 = _
        rw [h2]
        rfl
    | addUp b => exact ⟨h1, h2⟩
    | addDown b => exact ⟨h1, h2⟩

open TcpRelayStatisticsInfo in
/-- C30: no bytes are lost by the rate accounting. For every bucket `i` and every
interleaving `events` of byte additions with calls of `calcByte`: after one more call of
`calcByte` the snapshot `byteUpLast` is the counter `byteUp`, and the sum of all the
`byteUpChange` values produced equals, modulo `2^64`, what the counter held beyond the
snapshot at the start plus all the bytes added to `byteUp`, hence exactly the bytes added
when the bucket starts with `byteUpLast = byteUp`; the counter itself is its value at the
start plus the bytes added. The sum of the `byteUpChange` values produced also equals the
final `byteUpLast` minus the `byteUpLast` at the start, modulo `2^64`, one value being
produced per call; `byteUpChangeMax` decreases neither in a single step nor over the run;
right after a call of `calcByte`, `byteUpChangeMax >= byteUpChange`, and every change
produced during the run is at most the final `byteUpChangeMax`; symmetrically for the Down
fields. The six registry methods `addByteUp`, `addByteUpClient`, `addByteUpListen`,
`addByteDown`, `addByteDownClient`, `addByteDownListen` add `b` to the counter of the bucket
they look up. On a fresh bucket, adding 1000, calling `calcByte`, adding 500 and 24 and
calling `calcByte` produces the changes 1000 and 524. -/
theorem byte_accounting_loses_nothing (i : Info) (events : List ByteEvent)
    (r : TcpRelayStatisticsInfo) (index : Nat) (addr : String) (b : Nat) :
    (((i.byteRun events).2.map (fun c => (c.1 : Int))).sum % 2 ^ 64 =
      (((i.byteRun events).1.byteUpLast : Int) - (i.byteUpLast : Int)) % 2 ^ 64) ∧
    (((i.byteRun events).2.map (fun c => (c.2 : Int))).sum % 2 ^ 64 =
      (((i.byteRun events).1.byteDownLast : Int) - (i.byteDownLast : Int)) % 2 ^ 64) ∧
    (i.byteRun events).2.length = events.count ByteEvent.tick ∧
    i.byteUpChangeMax ≤ (i.byteRun events).1.byteUpChangeMax ∧
    i.byteDownChangeMax ≤ (i.byteRun events).1.byteDownChangeMax ∧
    (∀ ev, i.byteUpChangeMax ≤ (i.byteStep ev).byteUpChangeMax ∧
      i.byteDownChangeMax ≤ (i.byteStep ev).byteDownChangeMax) ∧
    i.calcByte.byteUpChange ≤ i.calcByte.byteUpChangeMax ∧
    i.calcByte.byteDownChange ≤ i.calcByte.byteDownChangeMax ∧
    (∀ c, c ∈ (i.byteRun events).2 →
      c.1 ≤ (i.byteRun events).1.byteUpChangeMax ∧
        c.2 ≤ (i.byteRun events).1.byteDownChangeMax) ∧
    getInfo index (addByteUp index b r) = (getInfo index r).map (Info.addByteUp b) ∧
    getInfoClient addr (addByteUpClient addr b r) =
      (getInfoClient addr r).map (Info.addByteUp b) ∧
    getInfoListen addr (addByteUpListen addr b r) =
      (getInfoListen addr r).map (Info.addByteUp b) ∧
    getInfo index (addByteDown index b r) = (getInfo index r).map (Info.addByteDown b) ∧
    getInfoClient addr (addByteDownClient addr b r) =
      (getInfoClient addr r).map (Info.addByteDown b) ∧
    getInfoListen addr (addByteDownListen addr b r) =
      (getInfoListen addr r).map (Info.addByteDown b) ∧
    (Info.addByteUp b i).byteUp = (i.byteUp + b) % 2 ^ 64 ∧
    (Info.addByteDown b i).byteDown = (i.byteDown + b) % 2 ^ 64 ∧
    (i.byteRun (events ++ [ByteEvent.tick])).1.byteUpLast =
      (i.byteRun (events ++ [ByteEvent.tick])).1.byteUp ∧
    (i.byteRun (events ++ [ByteEvent.tick])).1.byteDownLast =
      (i.byteRun (events ++ [ByteEvent.tick])).1.byteDown ∧
    (i.byteRun (events ++ [ByteEvent.tick])).1.byteUp % 2 ^ 64 =
      (i.byteUp + (events.map ByteEvent.upBytes).sum) % 2 ^ 64 ∧
    (i.byteRun (events ++ [ByteEvent.tick])).1.byteDown % 2 ^ 64 =
      (i.byteDown + (events.map ByteEvent.downBytes).sum) % 2 ^ 64 ∧
    (((i.byteRun (events ++ [ByteEvent.tick])).2.map (fun c => (c.1 : Int))).sum % 2 ^ 64 =
      (((i.byteUp : Int) - (i.byteUpLast : Int)) +
        (((events.map ByteEvent.upBytes).sum : Nat) : Int)) % 2 ^ 64) ∧
    (((i.byteRun (events ++ [ByteEvent.tick])).2.map (fun c => (c.2 : Int))).sum % 2 ^ 64 =
      (((i.byteDown : Int) - (i.byteDownLast : Int)) +
        (((events.map ByteEvent.downBytes).sum : Nat) : Int)) % 2 ^ 64) ∧
    (i.byteUpLast = i.byteUp →
      ((i.byteRun (events ++ [ByteEvent.tick])).2.map (fun c => (c.1 : Int))).sum % 2 ^ 64 =
        (((events.map ByteEvent.upBytes).sum : Nat) : Int) % 2 ^ 64) ∧
    (i.byteDownLast = i.byteDown →
      ((i.byteRun (events ++ [ByteEvent.tick])).2.map (fun c => (c.2 : Int))).sum % 2 ^ 64 =
        (((events.map ByteEvent.downBytes).sum : Nat) : Int) % 2 ^ 64) ∧
    ((sampleInfo []).byteRun
        [ByteEvent.addUp 1000, ByteEvent.tick, ByteEvent.addUp 500, ByteEvent.addUp 24,
          ByteEvent.tick]).2 = [(1000, 0), (524, 0)] := by
  obtain ⟨hsu, hsd, hmu, hmd, hall, hlen⟩ := byteRun_spec events i
  have hc := (byteStep_spec i ByteEvent.tick).2.2.1 rfl
  obtain ⟨ku, kd, kcu, kcd⟩ := byteRun_conservation (events ++ [ByteEvent.tick]) i
  have hlastU : (i.byteRun (events ++ [ByteEvent.tick])).1.byteUpLast =
      (i.byteRun (events ++ [ByteEvent.tick])).1.byteUp := by
    rw [(byteRun_append_tick events i).1, calcByte_eq]
  have hlastD : (i.byteRun (events ++ [ByteEvent.tick])).1.byteDownLast =
      (i.byteRun (events ++ [ByteEvent.tick])).1.byteDown := by
    rw [(byteRun_append_tick events i).1, calcByte_eq]
  have hsumU : ((events ++ [ByteEvent.tick]).map ByteEvent.upBytes).sum =
      (events.map ByteEvent.upBytes).sum := by
    simp [ByteEvent.upBytes]
  have hsumD : ((events ++ [ByteEvent.tick]).map ByteEvent.downBytes).sum =
      (events.map ByteEvent.downBytes).sum := by
    simp [ByteEvent.downBytes]
  rw [hsumU] at ku kcu
  rw [hsumD] at kd kcd
  rw [hlastU] at ku
  rw [hlastD] at kd
  have ku2 : ((i.byteRun (events ++ [ByteEvent.tick])).2.map (fun c => (c.1 : Int))).sum
      % 2 ^ 64 = (((i.byteUp : Int) - (i.byteUpLast : Int)) +
        (((events.map ByteEvent.upBytes).sum : Nat) : Int)) % 2 ^ 64 := by
    rw [← ku]
    omega
  have kd2 : ((i.byteRun (events ++ [ByteEvent.tick])).2.map (fun c => (c.2 : Int))).sum
      % 2 ^ 64 = (((i.byteDown : Int) - (i.byteDownLast : Int)) +
        (((events.map ByteEvent.downBytes).sum : Nat) : Int)) % 2 ^ 64 := by
    rw [← kd]
    omega
  exact ⟨hsu, hsd, hlen, hmu, hmd,
    fun ev => ⟨(byteStep_spec i ev).1, (byteStep_spec i ev).2.1⟩,
    hc.2.2.1, hc.2.2.2, hall,
    lookup_modifyBucket index _ r.upstreamIndex,
    lookup_modifyBucket addr _ r.clientIndex,
    lookup_modifyBucket addr _ r.listenIndex,
    lookup_modifyBucket index _ r.upstreamIndex,
    lookup_modifyBucket addr _ r.clientIndex,
    lookup_modifyBucket addr _ r.listenIndex,
    rfl, rfl, hlastU, hlastD, kcu, kcd, ku2, kd2,
    fun h => (by rw [ku2, h]; omega), fun h => (by rw [kd2, h]; omega),
    by decide⟩

open ConnectTestHttpsSession in
/-- With the vector allocated empty before the first append, the CONNECT step rejects a
domain name longer than 253 bytes and otherwise writes `05 01 00 ATYP ADDR PORT`. -/
theorem do_socks5_connect_write_from_allocated (targetHost : List Nat) (targetPort : Nat)
    (a : List Nat) :
    (253 < targetHost.length →
      do_socks5_connect_write_from (some []) targetHost targetPort none =
        Outcome.fail "socks5_connect_write (targetHost.size() > 253)" true) ∧
    (targetHost.length ≤ 253 →
      do_socks5_connect_write_from (some []) targetHost targetPort none =
        Outcome.asyncWrite ([5, 1, 0, 3, targetHost.length] ++ targetHost ++
          [targetPort / 256 % 256, targetPort % 256])) ∧
    do_socks5_connect_write_from (some []) targetHost targetPort (some (IpAddress.v4 a)) =
      Outcome.asyncWrite ([5, 1, 0, 1] ++ a ++ [targetPort / 256 % 256, targetPort % 256]) ∧
    do_socks5_connect_write_from (some []) targetHost targetPort (some (IpAddress.v6 a)) =
      Outcome.asyncWrite ([5, 1, 0, 4] ++ a ++ [targetPort / 256 % 256, targetPort % 256]) := by
  refine ⟨fun h => ?_, fun h => ?_, ?_, ?_⟩
  · simp only [do_socks5_connect_write_from]
    rw [if_pos h]
  · simp only [do_socks5_connect_write_from]
    rw [if_neg (by omega), Nat.mod_eq_of_lt (by omega)]
    simp [portBytes]
  · simp [do_socks5_connect_write_from, portBytes]
  · simp [do_socks5_connect_write_from, portBytes]

open ConnectTestHttpsSession in
/-- C21: the CONNECT step of the probe dereferences the null pointer `data_send` before
anything else, for every target host, port and parse result: it neither rejects nor writes
a request. For the domain name `example.com` and port 443 the claim's request is
`05 01 00 03 0b "example.com" 01 bb`; the step has undefined behaviour instead. -/
theorem do_socks5_connect_write_null_buffer :
    (∀ (targetHost : List Nat) (targetPort : Nat) (addr : Option IpAddress),
      do_socks5_connect_write targetHost targetPort addr = Outcome.undefinedBehaviour) ∧
    do_socks5_connect_write ("example.com".toList.map Char.toNat) 443 none ≠
      Outcome.asyncWrite ([5, 1, 0, 3, 11] ++ "example.com".toList.map Char.toNat ++
        [1, 187]) ∧
    do_socks5_connect_write_from (some []) ("example.com".toList.map Char.toNat) 443 none =
      Outcome.asyncWrite ([5, 1, 0, 3, 11] ++ "example.com".toList.map Char.toNat ++
        [1, 187]) := by
  refine ⟨fun _ _ _ => rfl, by decide, by decide⟩

open ConnectTestHttpsSession in
/-- C22: for every byte sequence `r` received without error, the probe goes on to the TLS
handshake if and only if `r[0] = 5`, `r[1] = 0`, `r[2] = 0`, `r[3]` is 1, 3 or 4, and the
length of `r` is 10 when `r[3] = 1`, 22 when `r[3] = 4` and `4 + 1 + r[4] + 2` when
`r[3] = 3`; in every other case, and whenever the read reports an error, it calls `fail`. -/
theorem connect_reply_accepted_iff (r : List Nat) :
    (do_socks5_connect_read_handler false r = Outcome.next Step.do_ssl_handshake ↔
      r.getD 0 0 = 5 ∧ r.getD 1 0 = 0 ∧ r.getD 2 0 = 0 ∧
      (r.getD 3 0 = 1 ∨ r.getD 3 0 = 3 ∨ r.getD 3 0 = 4) ∧
      (r.getD 3 0 = 1 → r.length = 10) ∧
      (r.getD 3 0 = 4 → r.length = 22) ∧
      (r.getD 3 0 = 3 → r.length = 4 + 1 + r.getD 4 0 + 2)) ∧
    (do_socks5_connect_read_handler false r ≠ Outcome.next Step.do_ssl_handshake →
      ∃ what shutdown, do_socks5_connect_read_handler false r = Outcome.fail what shutdown) ∧
    do_socks5_connect_read_handler true r = Outcome.fail "socks5_connect_read" false := by
  refine ⟨?_, ?_, rfl⟩
  · unfold do_socks5_connect_read_handler
    simp only [Bool.false_eq_true, if_false]
    split_ifs with h1 h2 h3 h4
    · simp only [false_iff]
      intro h
      omega
    · simp only [false_iff]
      intro h
      omega
    · simp only [false_iff]
      intro h
      omega
    · simp only [false_iff]
      intro h
      omega
    · simp only [true_iff]
      omega
  · unfold do_socks5_connect_read_handler
    simp only [Bool.false_eq_true, if_false]
    split_ifs with h1 h2 h3 h4
    · exact fun _ => ⟨_, _, rfl⟩
    · exact fun _ => ⟨_, _, rfl⟩
    · exact fun _ => ⟨_, _, rfl⟩
    · exact fun _ => ⟨_, _, rfl⟩
    · exact fun h => absurd rfl h

open ConnectTestHttpsSession in
/-- The two write completion handlers fail exactly when the error code is NOT set or the
byte count differs from the length of the data sent. -/
theorem write_handlers_fail_iff (data_send : List Nat) (ec : Bool) (b : Nat) :
    (do_socks5_handshake_write_handler ec b = Outcome.fail "socks5_handshake_write" false ↔
      ec = false ∨ b ≠ 3) ∧
    (do_socks5_handshake_write_handler ec b = Outcome.next Step.do_socks5_handshake_read ↔
      ec = true ∧ b = 3) ∧
    (do_socks5_connect_write_handler data_send ec b =
        Outcome.fail "socks5_connect_write" false ↔ ec = false ∨ b ≠ data_send.length) ∧
    (do_socks5_connect_write_handler data_send ec b =
        Outcome.next Step.do_socks5_connect_read ↔ ec = true ∧ b = data_send.length) := by
  unfold do_socks5_handshake_write_handler do_socks5_connect_write_handler
  cases ec <;> by_cases h : b = 3 <;> by_cases h2 : b = data_send.length <;> simp [h, h2]

open ConnectTestHttpsSession in
/-- C23: with no error and all 3 bytes of the greeting written the greeting-write handler
calls `fail` and does not go on to the read step, and with the error code set and the byte
count equal to the length it goes on to the read step; likewise the CONNECT-write handler
for a 10-byte request. The claim has the opposite in both cases. -/
theorem write_handlers_fail_on_success :
    do_socks5_handshake_write_handler false 3 = Outcome.fail "socks5_handshake_write" false ∧
    do_socks5_handshake_write_handler true 3 = Outcome.next Step.do_socks5_handshake_read ∧
    do_socks5_connect_write_handler [5, 1, 0, 1, 127, 0, 0, 1, 1, 187] false 10 =
      Outcome.fail "socks5_connect_write" false ∧
    do_socks5_connect_write_handler [5, 1, 0, 1, 127, 0, 0, 1, 1, 187] true 10 =
      Outcome.next Step.do_socks5_connect_read := by
  decide

end Socks5Balancer
